import Mathlib

/-!
Verification of the Jenkins-declarative-pipeline to GitHub-Actions converter.

This file is a shallow embedding of the converter's core source files
(`utils.py`, `jenkins_extractors.py`, `action_generator.py`, `converter.py`,
`agent_mapper.py`) into Lean.  Text is modelled as `List Char`; Python's
regular-expression searches are modelled by hand-written scanners that follow
the source patterns (the relevant patterns are all of a simple deterministic
shape: literals, `\s*`/`\s+`, quoted captures `['"]([^'"]+)['"]`, bounded
character classes such as `[^)]*`, and depth-one brace bodies
`[^{}]*(?:\{[^{}]*\}[^{}]*)*`).  Python dictionaries are modelled as
insertion-ordered association lists with in-place update (`dictUpsert`),
which matches CPython dict semantics.  Fallible operations return `Option`
or `Except`.

Scope notes (parts of the source deliberately not modelled because no frozen
claim depends on them): the reporting/metrics/scaffolding modules, the
pipeline `parameters` block (it only shapes the fixed `on:` trigger object),
the feasibility warnings (they only print), the per-stage composite-action
file generation and the later step-grafting loop (`create_enhanced_job_steps`
and `save_enhanced_composite_actions`) which rewrite the placeholder `steps`
of stage jobs but never touch job ids, `needs`, `env` or the pipeline-post
job, and the `stages_info` metadata records.  Python's `.lower()` is modelled
by `Char.toLower`, which agrees with CPython on ASCII input.
-/

/-- Characters of a string literal, the form in which all embedded functions
consume text. -/
def liftStr (s : String) : List Char := s.data

/-- Python `\s` (`[ \t\n\r\f\v]`). -/
def isWsChar (c : Char) : Bool :=
  c == ' ' || c == '\t' || c == '\n' || c == '\r' || c == '\x0b' || c == '\x0c'

/-- Python `\w` on the ASCII range (`[A-Za-z0-9_]`); all texts handled by the
converter are ASCII. -/
def isWordChar (c : Char) : Bool :=
  (('a' ≤ c && c ≤ 'z') || ('A' ≤ c && c ≤ 'Z') || ('0' ≤ c && c ≤ '9') || c == '_')

/-- The character class `['"]` used by every quoted capture in the source. -/
def isQuoteChar (c : Char) : Bool := c == '\x27' || c == '"'

/-- Consume an exact literal; returns the remainder on success
(the building block for literal parts of the source regexes). -/
def eatLit : List Char → List Char → Option (List Char)
  | [], s => some s
  | _, [] => none
  | l :: ls, c :: cs => if c = l then eatLit ls cs else none

/-- Case-insensitive variant of `eatLit`, for the `re.IGNORECASE` patterns of
`extract_credentials_usage`. -/
def eatLitCI : List Char → List Char → Option (List Char)
  | [], s => some s
  | _, [] => none
  | l :: ls, c :: cs => if c.toLower = l.toLower then eatLitCI ls cs else none

/-- Consume `\s*`; returns the consumed characters and the remainder. -/
def eatWsC (s : List Char) : List Char × List Char :=
  (s.takeWhile isWsChar, s.dropWhile isWsChar)

/-- Consume `\s+`; fails when no whitespace is present. -/
def eatWs1 (s : List Char) : Option (List Char × List Char) :=
  match s with
  | c :: _ => if isWsChar c then some (eatWsC s) else none
  | [] => none

/-- Consume one expected character. -/
def eatChar (c : Char) : List Char → Option (List Char)
  | x :: xs => if x = c then some xs else none
  | [] => none

/-- Consume one quote character (`['"]`), returning it and the remainder. -/
def eatQuote : List Char → Option (Char × List Char)
  | c :: rest => if isQuoteChar c then some (c, rest) else none
  | [] => none

/-- The quoted capture `['"]([^'"]+)['"]`: an opening quote, a non-empty run
of non-quote characters, and a closing quote (the source patterns do not
require the closing quote to equal the opening one). -/
def eatQuoted1 (s : List Char) : Option (List Char × List Char) := do
  let (_, r1) ← eatQuote s
  let cap := r1.takeWhile (fun c => !(isQuoteChar c))
  if cap.isEmpty then none else
  let r2 := r1.drop cap.length
  let (_, r3) ← eatQuote r2
  some (cap, r3)

/-- The quoted capture `['"]([^'"]*)['"]` with a possibly-empty body. -/
def eatQuoted0 (s : List Char) : Option (List Char × List Char) := do
  let (_, r1) ← eatQuote s
  let cap := r1.takeWhile (fun c => !(isQuoteChar c))
  let r2 := r1.drop cap.length
  let (_, r3) ← eatQuote r2
  some (cap, r3)

/-- Substring test (Python `pat in s`); an empty pattern always occurs. -/
def hasSubstrAux (pat : List Char) : List Char → Bool
  | [] => pat.isEmpty
  | s@(_ :: rest) => List.isPrefixOf pat s || hasSubstrAux pat rest

/-- Python `pat in s`. -/
def hasSubstr (s pat : List Char) : Bool := hasSubstrAux pat s

/-- Index of the first occurrence of `pat` (Python `s.find(pat)` when it
succeeds). -/
def findSubIdx (pat : List Char) : List Char → Option Nat
  | [] => if pat.isEmpty then some 0 else none
  | s@(_ :: rest) =>
    if List.isPrefixOf pat s then some 0 else (findSubIdx pat rest).map (· + 1)

/-- Python `str.strip()` (whitespace from both ends). -/
def trimWs (s : List Char) : List Char :=
  ((s.dropWhile isWsChar).reverse.dropWhile isWsChar).reverse

/-- Python `str.strip(chars)` for a character-set predicate. -/
def stripCharsBy (p : Char → Bool) (s : List Char) : List Char :=
  ((s.dropWhile p).reverse.dropWhile p).reverse

/-- Python `str.lower()` (ASCII). -/
def lowerL (s : List Char) : List Char := s.map Char.toLower

/-- Python `str.upper()` (ASCII). -/
def upperL (s : List Char) : List Char := s.map Char.toUpper

/-- Half-open slice `s[a:b]` of Python. -/
def sliceL (s : List Char) (a b : Nat) : List Char := (s.drop a).take (b - a)

/-- Split on `'\n'` (Python `str.split('\n')`). -/
def splitLinesAux : List Char → List Char → List (List Char)
  | acc, [] => [acc.reverse]
  | acc, c :: rest =>
    if c = '\n' then acc.reverse :: splitLinesAux [] rest
    else splitLinesAux (c :: acc) rest

/-- Split on `'\n'`. -/
def splitLines (s : List Char) : List (List Char) := splitLinesAux [] s

/-- Python `'\n'.join(lines)`. -/
def joinLines : List (List Char) → List Char
  | [] => []
  | [l] => l
  | l :: ls => l ++ '\n' :: joinLines ls

/-- Python `sep.join(parts)` for a general separator. -/
def joinSep (sep : List Char) : List (List Char) → List Char
  | [] => []
  | [l] => l
  | l :: ls => l ++ sep ++ joinSep sep ls

/-- Insertion-ordered association-list update modelling CPython dict
assignment `m[k] = v`: an existing key keeps its position and gets the new
value, a new key is appended at the end. -/
def dictUpsert {α : Type} (m : List (List Char × α)) (k : List Char) (v : α) :
    List (List Char × α) :=
  if k ∈ m.map Prod.fst then
    m.map (fun p => if p.1 = k then (k, v) else p)
  else m ++ [(k, v)]

/-- Association-list lookup (Python `m[k]` / `m.get(k)`). -/
def alookup {α : Type} (m : List (List Char × α)) (k : List Char) : Option α :=
  match m with
  | [] => none
  | (k2, v) :: rest => if k2 = k then some v else alookup rest k

/-- Removal of `/* ... */` comments, mirroring
`re.sub(r'/\*.*?\*/', '', text, flags=re.DOTALL)` in `strip_comments`
(utils.py): each `/*` is removed together with everything up to the nearest
following `*/`; an unclosed `/*` is left untouched.  `fuel` bounds the scan
and is instantiated with the text length. -/
def stripBlockCommentsF : Nat → List Char → List Char
  | 0, s => s
  | _ + 1, [] => []
  | fuel + 1, s@(c :: rest) =>
    if List.isPrefixOf (liftStr "/*") s then
      match findSubIdx (liftStr "*/") (s.drop 2) with
      | some off => stripBlockCommentsF fuel (s.drop (2 + off + 2))
      | none => s
    else c :: stripBlockCommentsF fuel rest

/-- Line-comment removal of `strip_comments` (utils.py): a line containing
`http://` or `https://` is kept whole, otherwise it is truncated at the first
`//`. -/
def stripLineComment (line : List Char) : List Char :=
  if hasSubstr line (liftStr "http://") || hasSubstr line (liftStr "https://") then line
  else
    match findSubIdx (liftStr "//") line with
    | some i => line.take i
    | none => line

/-- `strip_comments` (utils.py, lines 10-27). -/
def strip_comments (text : List Char) : List Char :=
  joinLines ((splitLines (stripBlockCommentsF text.length text)).map stripLineComment)

/-- Match of `kw\s*\{` at the current position, under the preceding `\b` of
the caller patterns (every `find_block` call site passes `r"\bkw\b"`): the
position must не follow a word character, then the keyword, `\s*`, and a `{`.
Returns the offset of the `{` from the current position.  (A trailing `\b`
check is redundant: a word character directly after the keyword also fails
`\s*\{`.) -/
def kwBraceOffAt (kw : List Char) (prevIsWord : Bool) (s : List Char) : Option Nat :=
  if prevIsWord then none
  else
    match eatLit kw s with
    | none => none
    | some r =>
      match (eatWsC r).2 with
      | [] => none
      | c :: _ =>
        if c = '\x7b' then some (kw.length + (eatWsC r).1.length) else none

/-- Leftmost match of `\bkw\b\s*\{` (the `re.search` of `find_block`);
returns the absolute index of the opening brace. -/
def findKwBraceAux (kw : List Char) : Bool → Nat → List Char → Option Nat
  | _, _, [] => none
  | prevW, i, s@(c :: rest) =>
    match kwBraceOffAt kw prevW s with
    | some off => some (i + off)
    | none => findKwBraceAux kw (isWordChar c) (i + 1) rest

/-- Leftmost match of `\bkw\b\s*\{` in `text`. -/
def find_kw_brace (text kw : List Char) : Option Nat :=
  findKwBraceAux kw false 0 text

/-- The depth-counting loop of `find_block` (utils.py, lines 38-47), started
at the opening brace: `{` increments, `}` decrements, and the scan stops at
the `}` that brings the counter back to zero.  Returns the offset of that
closing brace from the scan start. -/
def findBlockScanAux : List Char → Int → Option Nat
  | [], _ => none
  | c :: rest, depth =>
    if c = '\x7b' then (findBlockScanAux rest (depth + 1)).map (· + 1)
    else if c = '\x7d' then
      if depth - 1 = 0 then some 0
      else (findBlockScanAux rest (depth - 1)).map (· + 1)
    else (findBlockScanAux rest depth).map (· + 1)

/-- The depth scan of `find_block` from the brace position. -/
def findBlockScan (s : List Char) : Option Nat := findBlockScanAux s 0

/-- `find_block` (utils.py, lines 30-49) for the keyword patterns
`r"\bkw\b"` used at every call site.  Python's `(-1, -1)` failure is
modelled as `none`; a success is the half-open span of the content strictly
between the matched braces. -/
def find_block (text kw : List Char) : Option (Nat × Nat) :=
  match find_kw_brace text kw with
  | none => none
  | some b =>
    match findBlockScan (text.drop b) with
    | none => none
    | some off => some (b + 1, b + off)

/-- One folding step of `multiline_to_commands`'s per-line loop. -/
def mtcStep : List Char × List (List Char) → List Char → List Char × List (List Char)
  | (cur, acc), rawLine =>
    let line := trimWs rawLine
    if line.isEmpty || line.head? == some '#' then (cur, acc)
    else if line.getLast? == some '\\' then (cur ++ line.dropLast ++ [' '], acc)
    else
      let cur2 := cur ++ line
      if (trimWs cur2).isEmpty then ([], acc) else ([], acc ++ [trimWs cur2])

/-- `multiline_to_commands` (utils.py, lines 52-75). -/
def multiline_to_commands (text : List Char) : List (List Char) :=
  let r := (splitLines (trimWs text)).foldl mtcStep ([], [])
  if (trimWs r.1).isEmpty then r.2 else r.2 ++ [trimWs r.1]

/-- The character class kept by `re.sub(r'[^a-zA-Z0-9\-_]', '-', name)`. -/
def isSanKept (c : Char) : Bool :=
  ('a' ≤ c && c ≤ 'z') || ('A' ≤ c && c ≤ 'Z') || ('0' ≤ c && c ≤ '9') ||
    c == '-' || c == '_'

/-- `re.sub(r'-+', '-', s)`: collapse each run of hyphens to one. -/
def collapseDashes : List Char → List Char
  | [] => []
  | [c] => [c]
  | a :: b :: t =>
    if a = '-' ∧ b = '-' then collapseDashes (b :: t)
    else a :: collapseDashes (b :: t)

/-- Python `s.strip('-')`. -/
def stripDashes (s : List Char) : List Char :=
  ((s.dropWhile (fun c => c == '-')).reverse.dropWhile (fun c => c == '-')).reverse

/-- `sanitize_name` (utils.py, lines 78-86): replace characters outside
`[a-zA-Z0-9\-_]` by `-`, collapse hyphen runs, strip boundary hyphens,
lowercase. -/
def sanitize_name (name : List Char) : List Char :=
  lowerL (stripDashes (collapseDashes (name.map (fun c => if isSanKept c then c else '-'))))

/-- `gha_job_id` (utils.py, lines 89-91). -/
def gha_job_id (stageName : List Char) : List Char := sanitize_name stageName

/-- The second (shadowing) `get_manual_action_for_feature` of utils.py
(lines 350-368); in Python the later module-level definition replaces the
earlier one before any caller imports it. -/
def get_manual_action_for_feature (f : List Char) : List Char :=
  if f == liftStr "Build triggers" then liftStr "Configure repository webhooks or use scheduled workflows"
  else if f == liftStr "Options block" then liftStr "Set workflow-level timeouts, concurrency, and retention policies"
  else if f == liftStr "Libraries" then liftStr "Replace with marketplace actions or create custom composite actions"
  else if f == liftStr "Matrix builds" then liftStr "Use GitHub Actions strategy.matrix configuration"
  else if f == liftStr "Complex when expressions" then liftStr "Simplify to basic GitHub Actions if conditions"
  else if f == liftStr "Pipeline functions" then liftStr "Use GitHub Actions contexts and expressions"
  else if f == liftStr "Nested parallel stages" then liftStr "Flatten structure or use job dependencies with needs"
  else if f == liftStr "Custom functions" then liftStr "Create shell scripts or composite actions"
  else if f == liftStr "Script blocks (large)" then liftStr "Break into smaller steps or external scripts"
  else if f == liftStr "Milestone steps" then liftStr "Use deployment environments with protection rules"
  else if f == liftStr "Lock resources" then liftStr "Use concurrency groups at workflow or job level"
  else if f == liftStr "HTML publishing" then liftStr "Use GitHub Pages action or artifact uploads"
  else if f == liftStr "Jenkins-specific plugins" then liftStr "Find equivalent marketplace actions or implement custom logic"
  else liftStr "Review Jenkins documentation and implement equivalent logic"

/-- `generate_limitations_comment` (utils.py, lines 340-347). -/
def generate_limitations_comment (feature details : List Char) : List Char :=
  liftStr "\n# MANUAL CONVERSION REQUIRED: " ++ feature ++
  liftStr "\n# Original Jenkins feature: " ++ details ++
  liftStr "\n# Action needed: " ++ get_manual_action_for_feature feature ++
  liftStr "\n# TODO: Implement this functionality manually\n"

/-- `sanitize_credential_name` (action_generator.py, lines 144-146):
uppercase, then `-` and `.` become `_`. -/
def sanitize_credential_name (credId : List Char) : List Char :=
  (upperL credId).map (fun c => if c == '-' || c == '.' then '_' else c)

/-- Match of the stage-header pattern
`stage\s*\(\s*['"]([^'"]+)['"]\s*\)\s*\{` (jenkins_extractors.py, line 429)
at the current position; returns the captured name and the offset of the
opening brace from the current position. -/
def stageHeaderAt (s : List Char) : Option (List Char × Nat) := do
  let r1 ← eatLit (liftStr "stage") s
  let (w1, r2) := eatWsC r1
  let r3 ← eatChar '(' r2
  let (w2, r4) := eatWsC r3
  let (_, r5) ← eatQuote r4
  let name := r5.takeWhile (fun c => !(isQuoteChar c))
  if name.isEmpty then none else
  let r6 := r5.drop name.length
  let (_, r7) ← eatQuote r6
  let (w3, r8) := eatWsC r7
  let r9 ← eatChar ')' r8
  let (w4, r10) := eatWsC r9
  let _ ← eatChar '\x7b' r10
  some (name, 5 + w1.length + 1 + w2.length + 1 + name.length + 1 + w3.length + 1 + w4.length)

/-- Leftmost stage-header match (the `re.search` of `split_stages`); returns
its start index together with the capture and brace offset. -/
def findStageHeader : List Char → Option (Nat × List Char × Nat)
  | [] => none
  | s@(_ :: rest) =>
    match stageHeaderAt s with
    | some (n, boff) => some (0, n, boff)
    | none => (findStageHeader rest).map (fun r => (r.1 + 1, r.2.1, r.2.2))

/-- The inner brace-matching loop of `split_stages` (jenkins_extractors.py,
lines 437-447), started just after the opening brace with depth 0: returns
the offset of the closing brace of the stage body. -/
def stageBodyScan : List Char → Nat → Option Nat
  | [], _ => none
  | c :: rest, depth =>
    if c = '\x7b' then (stageBodyScan rest (depth + 1)).map (· + 1)
    else if c = '\x7d' then
      if depth = 0 then some 0
      else (stageBodyScan rest (depth - 1)).map (· + 1)
    else (stageBodyScan rest depth).map (· + 1)

/-- `split_stages` (jenkins_extractors.py, lines 424-450), fuelled: find the
next stage header, bracket-match its body, emit `(name, content)`, continue
after the closing brace; an unterminated body ends the scan with the stages
collected so far (the `while ... else: break` of the source).  Each step
consumes at least one character, so `length + 1` fuel always suffices. -/
def splitStagesF : Nat → List Char → List (List Char × List Char)
  | 0, _ => []
  | fuel + 1, s =>
    match findStageHeader s with
    | none => []
    | some (p, name, boff) =>
      let afterBrace := s.drop (p + boff + 1)
      match stageBodyScan afterBrace 0 with
      | none => []
      | some off =>
        (name, afterBrace.take off) :: splitStagesF fuel (afterBrace.drop (off + 1))

/-- `split_stages` (jenkins_extractors.py, lines 424-450). -/
def split_stages (stagesBody : List Char) : List (List Char × List Char) :=
  splitStagesF (stagesBody.length + 1) stagesBody

/-- `extract_parallel` (jenkins_extractors.py, lines 658-664). -/
def extract_parallel (stageBody : List Char) : List (List Char × List Char) :=
  match find_block stageBody (liftStr "parallel") with
  | none => []
  | some (a, b) => split_stages (sliceL stageBody a b)

/-- The line pattern `([A-Za-z_][A-Za-z0-9_]*)\s*=\s*(.+)` of
`extract_env_kv` applied to an already-stripped line; by regex backtracking
the value group is the whole remainder after `=` (later stripped), and the
line matches exactly when that remainder is non-empty. -/
def parseEnvLine (line : List Char) : Option (List Char × List Char) :=
  match line with
  | [] => none
  | c :: rest =>
    if ('a' ≤ c && c ≤ 'z') || ('A' ≤ c && c ≤ 'Z') || c == '_' then
      let key := c :: rest.takeWhile isWordChar
      let r1 := (rest.dropWhile isWordChar).dropWhile isWsChar
      match r1 with
      | '=' :: r2 => if r2.isEmpty then none else some (key, trimWs r2)
      | _ => none
    else none

/-- Strip one pair of matching quotes (`extract_env_kv`, lines 418-419). -/
def stripMatchingQuotes (v : List Char) : List Char :=
  match v with
  | c :: _ =>
    if (c == '\x27' || c == '"') && v.getLast? == some c then (v.drop 1).dropLast
    else v
  | [] => v

/-- `extract_env_kv` (jenkins_extractors.py, lines 407-421). -/
def extract_env_kv (envBody : List Char) : List (List Char × List Char) :=
  (splitLines envBody).foldl
    (fun env rawLine =>
      let line := trimWs rawLine
      if line.isEmpty || line.head? == some '#' then env
      else
        match parseEnvLine line with
        | some (k, vraw) => dictUpsert env k (stripMatchingQuotes vraw)
        | none => env)
    []

/-- `extract_stage_environment` (jenkins_extractors.py, lines 484-489). -/
def extract_stage_environment (stageBody : List Char) : List (List Char × List Char) :=
  match find_block stageBody (liftStr "environment") with
  | none => []
  | some (a, b) => extract_env_kv (sliceL stageBody a b)

/-- The agent record of `extract_global_agent` / `extract_stage_agent`
(`{"type": ...}` dictionaries of the source). -/
inductive AgentDecl
  | anyAgent
  | labelAgent (l : List Char)
  | dockerAgent (image : List Char) (args : Option (List Char)) (reuse : Option Bool)
deriving DecidableEq, Repr

/-- Word-bounded search `re.search(r"\bw\b", s)`. -/
def hasWordAux (w : List Char) : Bool → List Char → Bool
  | _, [] => false
  | prevW, s@(c :: rest) =>
    (!prevW && (match eatLit w s with
                | some r => match r with
                            | [] => true
                            | c2 :: _ => !(isWordChar c2)
                | none => false))
    || hasWordAux w (isWordChar c) rest

/-- Word-bounded search `re.search(r"\bw\b", s)`. -/
def hasWord (s w : List Char) : Bool := hasWordAux w false s

/-- Generic leftmost-match search over all start positions (the `re.search`
loop): tries the matcher at every suffix. -/
def searchMap {α : Type} (f : List Char → Option α) : List Char → Option α
  | [] => f []
  | s@(_ :: rest) =>
    match f s with
    | some a => some a
    | none => searchMap f rest

/-- Matcher for `kw\s+['"]([^'"]+)['"]` (the `label`/`image`/`args` patterns
of the agent extractors). -/
def tryKeyQuoted (kw : List Char) (s : List Char) : Option (List Char) := do
  let r1 ← eatLit kw s
  let (_, r2) ← eatWs1 r1
  let (cap, _) ← eatQuoted1 r2
  some cap

/-- Search for `kw\s+['"]([^'"]+)['"]`. -/
def searchKeyQuoted (kw body : List Char) : Option (List Char) :=
  searchMap (tryKeyQuoted kw) body

/-- Matcher for `reuseNode\s+(true|false)`. -/
def tryReuseNode (s : List Char) : Option Bool := do
  let r1 ← eatLit (liftStr "reuseNode") s
  let (_, r2) ← eatWs1 r1
  match eatLit (liftStr "true") r2 with
  | some _ => some true
  | none =>
    match eatLit (liftStr "false") r2 with
    | some _ => some false
    | none => none

/-- The shared body of `extract_global_agent` (jenkins_extractors.py, lines
324-364) and `extract_stage_agent` (lines 367-404); the two source functions
duplicate the same logic verbatim. -/
def extractAgentFromBody (body : List Char) : Option AgentDecl :=
  if hasWord body (liftStr "any") then some .anyAgent
  else
    let nodeLabel :=
      match find_block body (liftStr "node") with
      | some (ns, ne) => searchKeyQuoted (liftStr "label") (sliceL body ns ne)
      | none => none
    match nodeLabel with
    | some l => some (.labelAgent (trimWs l))
    | none =>
      match searchKeyQuoted (liftStr "label") body with
      | some l => some (.labelAgent (trimWs l))
      | none =>
        match find_block body (liftStr "docker") with
        | some (ds, de) =>
          let dbody := sliceL body ds de
          match searchKeyQuoted (liftStr "image") dbody with
          | some img =>
            some (.dockerAgent (trimWs img)
              ((searchKeyQuoted (liftStr "args") dbody).map trimWs)
              (searchMap tryReuseNode dbody))
          | none => none
        | none => none

/-- `extract_stage_agent` (jenkins_extractors.py, lines 367-404). -/
def extract_stage_agent (stageBody : List Char) : Option AgentDecl :=
  match find_block stageBody (liftStr "agent") with
  | none => none
  | some (a, b) => extractAgentFromBody (sliceL stageBody a b)

/-- `extract_global_agent` (jenkins_extractors.py, lines 324-364); identical
to the stage version in the source. -/
def extract_global_agent (pipelineBody : List Char) : Option AgentDecl :=
  extract_stage_agent pipelineBody

/-- The `when_conditions` dictionary built by `extract_when_conditions`
(jenkins_extractors.py, lines 798-843). -/
structure WhenConds where
  branch : Option (List Char) := none
  expression : Option (List Char) := none
  environment : Option (List Char × List Char) := none
  anyOf : Bool := false
  allOf : Bool := false
  changeRequest : Bool := false
  buildingTag : Bool := false
deriving DecidableEq, Repr

/-- Emptiness of the `when_conditions` dictionary (Python truthiness). -/
def whenIsEmpty (w : WhenConds) : Bool :=
  w.branch == none && w.expression == none && w.environment == none &&
  !w.anyOf && !w.allOf && !w.changeRequest && !w.buildingTag

/-- Matcher for `expression\s*\{\s*return\s+([^}]+)\s*\}`: the capture is the
maximal non-`}` run after `return\s+` (non-empty), with a `}` following. -/
def tryWhenExpression (s : List Char) : Option (List Char) := do
  let r1 ← eatLit (liftStr "expression") s
  let (_, r2) := eatWsC r1
  let r3 ← eatChar '\x7b' r2
  let (_, r4) := eatWsC r3
  let r5 ← eatLit (liftStr "return") r4
  let (_, r6) ← eatWs1 r5
  let cap := r6.takeWhile (fun c => c != '\x7d')
  if cap.isEmpty then none else
  let _ ← eatChar '\x7d' (r6.drop cap.length)
  some cap

/-- Matcher for
`environment\s+name\s*:\s*['"]([^'"]+)['"](?:\s*,\s*value\s*:\s*['"]([^'"]+)['"])?`
in a `when` body; an absent value group is recorded as the empty string, as
in the source. -/
def tryWhenEnvironment (s : List Char) : Option (List Char × List Char) := do
  let r1 ← eatLit (liftStr "environment") s
  let (_, r2) ← eatWs1 r1
  let r3 ← eatLit (liftStr "name") r2
  let (_, r4) := eatWsC r3
  let r5 ← eatChar ':' r4
  let (_, r6) := eatWsC r5
  let (nameCap, r7) ← eatQuoted1 r6
  let valCap :=
    (do
      let (_, q1) := eatWsC r7
      let q2 ← eatChar ',' q1
      let (_, q3) := eatWsC q2
      let q4 ← eatLit (liftStr "value") q3
      let (_, q5) := eatWsC q4
      let q6 ← eatChar ':' q5
      let (_, q7) := eatWsC q6
      let (v, _) ← eatQuoted1 q7
      some v : Option (List Char))
  some (nameCap, valCap.getD [])

/-- Matcher for `kw\s*\{` (the `anyOf`/`allOf` checks). -/
def tryKwBraceSimple (kw : List Char) (s : List Char) : Option Unit := do
  let r1 ← eatLit kw s
  let (_, r2) := eatWsC r1
  let _ ← eatChar '\x7b' r2
  some ()

/-- `extract_when_conditions` (jenkins_extractors.py, lines 798-843). -/
def extract_when_conditions (stageBody : List Char) : WhenConds :=
  match find_block stageBody (liftStr "when") with
  | none => {}
  | some (a, b) =>
    let whenBody := sliceL stageBody a b
    { branch := searchKeyQuoted (liftStr "branch") whenBody
      expression := (searchMap tryWhenExpression whenBody).map trimWs
      environment := searchMap tryWhenEnvironment whenBody
      anyOf := (searchMap (tryKwBraceSimple (liftStr "anyOf")) whenBody).isSome
      allOf := (searchMap (tryKwBraceSimple (liftStr "allOf")) whenBody).isSome
      changeRequest := hasSubstr whenBody (liftStr "changeRequest")
      buildingTag := hasSubstr whenBody (liftStr "buildingTag") }

/-- Parser for the depth-one brace body `([^{}]*(?:\{[^{}]*\}[^{}]*)*)\}`
used by the `script`/`withCredentials`/`withSonarQubeEnv` patterns: content
may nest braces one level deep; the body ends at the first `}` seen at depth
zero; a second-level `{` or end of input means no match (the regex engine
then resumes its search at a later start position).  Returns the content and
the remainder after the closing brace. -/
def depth1Aux : List Char → Bool → Option (List Char × List Char)
  | [], _ => none
  | c :: rest, inBrace =>
    if c = '\x7b' then
      if inBrace then none
      else (depth1Aux rest true).map (fun r => (c :: r.1, r.2))
    else if c = '\x7d' then
      if inBrace then (depth1Aux rest false).map (fun r => (c :: r.1, r.2))
      else some ([], rest)
    else (depth1Aux rest inBrace).map (fun r => (c :: r.1, r.2))

/-- Non-overlapping match collection (`re.finditer`/`re.findall`): try the
matcher at each position, resume after a match's end (at least one character
forward).  The matcher returns its result and the remainder after the match;
fuel is instantiated with the text length. -/
def collectMatchesF {α : Type} (f : List Char → Option (α × List Char)) :
    Nat → List Char → List α
  | 0, _ => []
  | _ + 1, [] => []
  | fuel + 1, s@(_ :: rest) =>
    match f s with
    | some (a, rem) =>
      let n := max (s.length - rem.length) 1
      a :: collectMatchesF f fuel (s.drop n)
    | none => collectMatchesF f fuel rest

/-- Non-overlapping match collection over the whole text. -/
def collectMatches {α : Type} (f : List Char → Option (α × List Char))
    (s : List Char) : List α :=
  collectMatchesF f (s.length + 1) s

/-- `re.finditer` for patterns starting with `\b`: like `collectMatches` but
the matcher also receives whether the previous character is a word
character. -/
def collectPrevF {α : Type} (f : Bool → List Char → Option (α × List Char)) :
    Nat → Bool → List Char → List α
  | 0, _, _ => []
  | _ + 1, _, [] => []
  | fuel + 1, prevW, s@(c :: rest) =>
    match f prevW s with
    | some (a, rem) =>
      let n := max (s.length - rem.length) 1
      let pw := match (s.take n).getLast? with
                | some x => isWordChar x
                | none => prevW
      a :: collectPrevF f fuel pw (s.drop n)
    | none => collectPrevF f fuel (isWordChar c) rest

/-- `re.finditer` with a leading word boundary. -/
def collectPrev {α : Type} (f : Bool → List Char → Option (α × List Char))
    (s : List Char) : List α :=
  collectPrevF f (s.length + 1) false s

/-- Matcher for `sh\s+['"]([^'"]+)['"]`. -/
def tryShSingle (s : List Char) : Option (List Char × List Char) := do
  let r1 ← eatLit (liftStr "sh") s
  let (_, r2) ← eatWs1 r1
  eatQuoted1 r2

/-- Matcher for the triple-quoted form `sh\s+([\"']{3})([\s\S]*?)\1`: three
quote characters, then (non-greedily) everything up to the first repetition
of the same three characters. -/
def tryShTriple (s : List Char) : Option (List Char × List Char) := do
  let r1 ← eatLit (liftStr "sh") s
  let (_, r2) ← eatWs1 r1
  match r2 with
  | q1 :: q2 :: q3 :: r3 =>
    if isQuoteChar q1 && isQuoteChar q2 && isQuoteChar q3 then
      match findSubIdx [q1, q2, q3] r3 with
      | some off => some (r3.take off, r3.drop (off + 3))
      | none => none
    else none
  | _ => none

/-- Matcher for `\becho\s+['"]([^'"]+)['"]`. -/
def tryEchoQuoted (prevW : Bool) (s : List Char) : Option (List Char × List Char) :=
  if prevW then none
  else do
    let r1 ← eatLit (liftStr "echo") s
    let (_, r2) ← eatWs1 r1
    eatQuoted1 r2

/-- Optional keyword boolean argument `(?:\s*,\s*kw\s*:\s*(true|false))?`. -/
def tryOptBoolArg (kw : List Char) (s : List Char) : Option Bool × List Char :=
  match (do
    let (_, r1) := eatWsC s
    let r2 ← eatChar ',' r1
    let (_, r3) := eatWsC r2
    let r4 ← eatLit kw r3
    let (_, r5) := eatWsC r4
    let r6 ← eatChar ':' r5
    let (_, r7) := eatWsC r6
    match eatLit (liftStr "true") r7 with
    | some r8 => some (true, r8)
    | none =>
      match eatLit (liftStr "false") r7 with
      | some r8 => some (false, r8)
      | none => none : Option (Bool × List Char)) with
  | some (b, r) => (some b, r)
  | none => (none, s)

/-- Matcher for the call form
`archiveArtifacts\s*\(\s*artifacts\s*:\s*['"]([^'"]+)['"](?:\s*,\s*onlyIfSuccessful\s*:\s*(true|false))?(?:\s*,\s*allowEmptyArchive\s*:\s*(true|false))?\s*\)`. -/
def tryArchiveCall (s : List Char) : Option (List Char × Option Bool × Option Bool) := do
  let r1 ← eatLit (liftStr "archiveArtifacts") s
  let (_, r2) := eatWsC r1
  let r3 ← eatChar '(' r2
  let (_, r4) := eatWsC r3
  let r5 ← eatLit (liftStr "artifacts") r4
  let (_, r6) := eatWsC r5
  let r7 ← eatChar ':' r6
  let (_, r8) := eatWsC r7
  let (art, r9) ← eatQuoted1 r8
  let (oIS, r10) := tryOptBoolArg (liftStr "onlyIfSuccessful") r9
  let (aEA, r11) := tryOptBoolArg (liftStr "allowEmptyArchive") r10
  let (_, r12) := eatWsC r11
  let _ ← eatChar ')' r12
  some (art, oIS, aEA)

/-- Matcher for the bare form `archiveArtifacts\s+['"]([^'"]+)['"]`. -/
def tryArchiveBare (s : List Char) : Option (List Char) := do
  let r1 ← eatLit (liftStr "archiveArtifacts") s
  let (_, r2) ← eatWs1 r1
  let (cap, _) ← eatQuoted1 r2
  some cap

/-- The `junit` record of `_extract_post_body`. -/
structure JunitInfo where
  allowEmptyResults : Bool
  testResults : List Char
deriving DecidableEq, Repr

/-- Matcher for
`junit\s*\(\s*(?:allowEmptyResults\s*:\s*(true|false)\s*,\s*)?testResults\s*:\s*['"]([^'"]+)['"]`. -/
def tryJunitCall (s : List Char) : Option JunitInfo := do
  let r1 ← eatLit (liftStr "junit") s
  let (_, r2) := eatWsC r1
  let r3 ← eatChar '(' r2
  let (_, r4) := eatWsC r3
  let optRes : Option (Bool × List Char) := do
    let q1 ← eatLit (liftStr "allowEmptyResults") r4
    let (_, q2) := eatWsC q1
    let q3 ← eatChar ':' q2
    let (_, q4) := eatWsC q3
    let (b, q5) ← (match eatLit (liftStr "true") q4 with
      | some r => some (true, r)
      | none =>
        match eatLit (liftStr "false") q4 with
        | some r => some (false, r)
        | none => none : Option (Bool × List Char))
    let (_, q6) := eatWsC q5
    let q7 ← eatChar ',' q6
    let (_, q8) := eatWsC q7
    some (b, q8)
  let (aer, r5) := match optRes with
    | some (b, r) => (some b, r)
    | none => (none, r4)
  let r6 ← eatLit (liftStr "testResults") r5
  let (_, r7) := eatWsC r6
  let r8 ← eatChar ':' r7
  let (_, r9) := eatWsC r8
  let (cap, _) ← eatQuoted1 r9
  some ⟨aer.getD false, cap⟩

/-- Matcher for the bare form `junit\s+['"]([^'"]+)['"]` (its single capture
group makes the source take the `allowEmptyResults = False` branch). -/
def tryJunitBare (s : List Char) : Option JunitInfo := do
  let r1 ← eatLit (liftStr "junit") s
  let (_, r2) ← eatWs1 r1
  let (cap, _) ← eatQuoted1 r2
  some ⟨false, cap⟩

/-- The `coverage` record of `_extract_post_body`. -/
structure CoverageInfo where
  ctype : List Char
  path : List Char
deriving DecidableEq, Repr

/-- Matcher for `jacocoAdapter\s*\(\s*['"]([^'"]+)['"]\s*\)`. -/
def tryJacoco (s : List Char) : Option (List Char) := do
  let r1 ← eatLit (liftStr "jacocoAdapter") s
  let (_, r2) := eatWsC r1
  let r3 ← eatChar '(' r2
  let (_, r4) := eatWsC r3
  let (cap, r5) ← eatQuoted1 r4
  let (_, r6) := eatWsC r5
  let _ ← eatChar ')' r6
  some cap

/-- Matcher for `publishCoverage\s+adapters\s*:\s*\[([^\]]+)\]` followed by
the `jacocoAdapter` handling of `_extract_post_body` (lines 572-581). -/
def tryCoverage (s : List Char) : Option CoverageInfo := do
  let r1 ← eatLit (liftStr "publishCoverage") s
  let (_, r2) ← eatWs1 r1
  let r3 ← eatLit (liftStr "adapters") r2
  let (_, r4) := eatWsC r3
  let r5 ← eatChar ':' r4
  let (_, r6) := eatWsC r5
  let r7 ← eatChar '[' r6
  let adapters := r7.takeWhile (fun c => c != ']')
  if adapters.isEmpty then none else
  let _ ← eatChar ']' (r7.drop adapters.length)
  if hasSubstr adapters (liftStr "jacocoAdapter") then
    match searchMap tryJacoco adapters with
    | some p => some ⟨liftStr "jacoco", p⟩
    | none => none
  else none

/-- Matcher for `kw\s*\([^)]+\)` returning the whole matched text
(`m.group(0)`), used for `publishHTML`, `emailext` and `slackSend`. -/
def tryCallGroup0 (kw : List Char) (s : List Char) : Option (List Char) := do
  let r1 ← eatLit kw s
  let (w, r2) := eatWsC r1
  let r3 ← eatChar '(' r2
  let inner := r3.takeWhile (fun c => c != ')')
  if inner.isEmpty then none else
  let _ ← eatChar ')' (r3.drop inner.length)
  some (kw ++ w ++ '(' :: inner ++ [')'])

/-- The `mail` record of `_extract_post_body`. -/
structure MailInfo where
  toAddr : List Char
  subject : List Char
  body : List Char
deriving DecidableEq, Repr

/-- Matcher for
`mail\s+to\s*:\s*['"]([^'"]+)['"](?:\s*,\s*subject\s*:\s*['"]([^'"]*)['"])?(?:\s*,\s*body\s*:\s*['"]([^'"]*)['"])?`;
absent optional groups become empty strings as in the source. -/
def tryMailTo (s : List Char) : Option MailInfo := do
  let r1 ← eatLit (liftStr "mail") s
  let (_, r2) ← eatWs1 r1
  let r3 ← eatLit (liftStr "to") r2
  let (_, r4) := eatWsC r3
  let r5 ← eatChar ':' r4
  let (_, r6) := eatWsC r5
  let (toCap, r7) ← eatQuoted1 r6
  let optArg : List Char → List Char → Option (List Char × List Char) :=
    fun kw t => do
      let (_, q1) := eatWsC t
      let q2 ← eatChar ',' q1
      let (_, q3) := eatWsC q2
      let q4 ← eatLit kw q3
      let (_, q5) := eatWsC q4
      let q6 ← eatChar ':' q5
      let (_, q7) := eatWsC q6
      eatQuoted0 q7
  let (subj, r8) := match optArg (liftStr "subject") r7 with
    | some (v, r) => (v, r)
    | none => ([], r7)
  let (bod, _) := match optArg (liftStr "body") r8 with
    | some (v, r) => (v, r)
    | none => ([], r8)
  some ⟨toCap, subj, bod⟩

/-- Matcher for `kw\s*\(\s*\)` (the `deleteDir`/`cleanWs` checks). -/
def tryCallNoArgs (kw : List Char) (s : List Char) : Option Unit := do
  let r1 ← eatLit kw s
  let (_, r2) := eatWsC r1
  let r3 ← eatChar '(' r2
  let (_, r4) := eatWsC r3
  let _ ← eatChar ')' r4
  some ()

/-- Matcher for `script\s*\{(depth-one body)\}` (`re.DOTALL`). -/
def tryScriptBlock (s : List Char) : Option (List Char) := do
  let r1 ← eatLit (liftStr "script") s
  let (_, r2) := eatWsC r1
  let r3 ← eatChar '\x7b' r2
  let (cont, _) ← depth1Aux r3 false
  some cont

/-- The per-lifecycle-condition record built by `_collect` inside
`_extract_post_body` (jenkins_extractors.py, lines 527-638).  A field keeps
its default exactly when the corresponding dictionary key is absent in the
source. -/
structure PostData where
  archive : Option (List Char) := none
  onlyIfSuccessful : Option Bool := none
  allowEmptyArchive : Option Bool := none
  junit : Option JunitInfo := none
  coverage : Option CoverageInfo := none
  publishHTML : Option (List Char) := none
  mail : Option MailInfo := none
  emailext : Option (List Char) := none
  slack : Option (List Char) := none
  deleteDir : Bool := false
  cleanWs : Bool := false
  commands : List (List Char) := []
  scriptBlock : Option (List Char) := none
deriving DecidableEq, Repr

/-- Python truthiness of the `_collect` dictionary. -/
def postDataIsEmpty (d : PostData) : Bool :=
  d == { }

/-- The body of `_collect` (jenkins_extractors.py, lines 527-638) applied to
one lifecycle-condition block. -/
def collectPostData (kbody : List Char) : PostData :=
  let archiveRes :=
    match searchMap tryArchiveCall kbody with
    | some r => some r
    | none =>
      match searchMap tryArchiveBare kbody with
      | some a => some (a, none, none)
      | none => none
  let junitRes :=
    match searchMap tryJunitCall kbody with
    | some j => some j
    | none => searchMap tryJunitBare kbody
  let mailRes := searchMap tryMailTo kbody
  let emailextRes :=
    match mailRes with
    | some _ => none
    | none => searchMap (tryCallGroup0 (liftStr "emailext")) kbody
  let singles := (collectMatches tryShSingle kbody).map trimWs
  let triples := (collectMatches tryShTriple kbody).flatMap multiline_to_commands
  let echos := (collectPrev tryEchoQuoted kbody).map
    (fun c => liftStr "echo " ++ trimWs c)
  { archive := archiveRes.map (fun r => trimWs r.1)
    onlyIfSuccessful := archiveRes.bind (fun r => r.2.1)
    allowEmptyArchive := archiveRes.bind (fun r => r.2.2)
    junit := junitRes
    coverage := searchMap tryCoverage kbody
    publishHTML := searchMap (tryCallGroup0 (liftStr "publishHTML")) kbody
    mail := mailRes
    emailext := emailextRes
    slack := searchMap (tryCallGroup0 (liftStr "slackSend")) kbody
    deleteDir := (searchMap (tryCallNoArgs (liftStr "deleteDir")) kbody).isSome
    cleanWs := (searchMap (tryCallNoArgs (liftStr "cleanWs")) kbody).isSome
    commands := singles ++ triples ++ echos
    scriptBlock :=
      match searchMap tryScriptBlock kbody with
      | some cont => if (trimWs cont).isEmpty then none else some (trimWs cont)
      | none => none }

/-- The lifecycle-condition keys probed by `_extract_post_body`, in source
order. -/
def postKinds : List (List Char) :=
  [liftStr "always", liftStr "success", liftStr "failure",
   liftStr "cleanup", liftStr "unstable", liftStr "aborted"]

/-- `_extract_post_body` (jenkins_extractors.py, lines 519-645). -/
def extractPostBody (body : List Char) : List (List Char × PostData) :=
  match find_block body (liftStr "post") with
  | none => []
  | some (ps, pe) =>
    let postBody := sliceL body ps pe
    postKinds.foldl
      (fun out kind =>
        match find_block postBody kind with
        | none => out
        | some (ks, ke) =>
          let d := collectPostData (sliceL postBody ks ke)
          if postDataIsEmpty d then out else out ++ [(kind, d)])
      []

/-- `extract_stage_post` (jenkins_extractors.py, lines 648-650). -/
def extract_stage_post (stageBody : List Char) : List (List Char × PostData) :=
  extractPostBody stageBody

/-- `extract_pipeline_post` (jenkins_extractors.py, lines 653-655). -/
def extract_pipeline_post (pipelineBody : List Char) : List (List Char × PostData) :=
  extractPostBody pipelineBody

/-- A credential entry of `extract_withCredentials_blocks`
(jenkins_extractors.py, lines 667-718); the constructor order mirrors the
`"type"` tags of the source records. -/
inductive CredType
  | fileCred (credId varName : List Char)
  | userpass (credId userVar passVar : List Char)
  | strCred (credId varName : List Char)
deriving DecidableEq, Repr

/-- Shared matcher for
`KW\s*\(\s*credentialsId\s*:\s*['"]([^'"]+)['"](?:\s*,\s*VARKW\s*:\s*['"]([^'"]+)['"])?\s*\)`
(the `file`/`string` credential patterns, and the building block of the
`usernamePassword` pattern). -/
def tryCredCall1 (kw varKw : List Char) (s : List Char) :
    Option ((List Char × Option (List Char)) × List Char) := do
  let r1 ← eatLit kw s
  let (_, r2) := eatWsC r1
  let r3 ← eatChar '(' r2
  let (_, r4) := eatWsC r3
  let r5 ← eatLit (liftStr "credentialsId") r4
  let (_, r6) := eatWsC r5
  let r7 ← eatChar ':' r6
  let (_, r8) := eatWsC r7
  let (credId, r9) ← eatQuoted1 r8
  let optVar : Option (List Char × List Char) := do
    let (_, q1) := eatWsC r9
    let q2 ← eatChar ',' q1
    let (_, q3) := eatWsC q2
    let q4 ← eatLit varKw q3
    let (_, q5) := eatWsC q4
    let q6 ← eatChar ':' q5
    let (_, q7) := eatWsC q6
    eatQuoted1 q7
  let (v, r10) := match optVar with
    | some (v, r) => (some v, r)
    | none => (none, r9)
  let (_, r11) := eatWsC r10
  let r12 ← eatChar ')' r11
  some ((credId, v), r12)

/-- Matcher for the `usernamePassword` credential pattern of
`extract_withCredentials_blocks` (line 691), with its two optional variable
arguments. -/
def tryUserPassCall (s : List Char) :
    Option ((List Char × Option (List Char) × Option (List Char)) × List Char) := do
  let r1 ← eatLit (liftStr "usernamePassword") s
  let (_, r2) := eatWsC r1
  let r3 ← eatChar '(' r2
  let (_, r4) := eatWsC r3
  let r5 ← eatLit (liftStr "credentialsId") r4
  let (_, r6) := eatWsC r5
  let r7 ← eatChar ':' r6
  let (_, r8) := eatWsC r7
  let (credId, r9) ← eatQuoted1 r8
  let optVar : List Char → List Char → Option (List Char × List Char) :=
    fun kw t => do
      let (_, q1) := eatWsC t
      let q2 ← eatChar ',' q1
      let (_, q3) := eatWsC q2
      let q4 ← eatLit kw q3
      let (_, q5) := eatWsC q4
      let q6 ← eatChar ':' q5
      let (_, q7) := eatWsC q6
      eatQuoted1 q7
  let (uv, r10) := match optVar (liftStr "usernameVariable") r9 with
    | some (v, r) => (some v, r)
    | none => (none, r9)
  let (pv, r11) := match optVar (liftStr "passwordVariable") r10 with
    | some (v, r) => (some v, r)
    | none => (none, r10)
  let (_, r12) := eatWsC r11
  let r13 ← eatChar ')' r12
  some ((credId, uv, pv), r13)

/-- Matcher for the block pattern
`withCredentials\s*\[\s*([^\]]+)\s*\]\s*\{(depth-one body)\}` of
`extract_withCredentials_blocks` (line 672); returns the credential
definition text and the block content. -/
def tryWithCredBlock (s : List Char) :
    Option ((List Char × List Char) × List Char) := do
  let r1 ← eatLit (liftStr "withCredentials") s
  let (_, r2) := eatWsC r1
  let r3 ← eatChar '[' r2
  let (_, r4) := eatWsC r3
  let cap := r4.takeWhile (fun c => c != ']')
  if cap.isEmpty then none else
  let r5 ← eatChar ']' (r4.drop cap.length)
  let (_, r6) := eatWsC r5
  let r7 ← eatChar '\x7b' r6
  let (cont, r8) ← depth1Aux r7 false
  some ((cap, cont), r8)

/-- `extract_withCredentials_blocks` (jenkins_extractors.py, lines 667-718):
for each block, `file` credentials are collected first, then
`usernamePassword`, then `string`, each with the source's default variable
names. -/
def extract_withCredentials_blocks (stageBody : List Char) :
    List (List CredType × List Char) :=
  (collectMatches tryWithCredBlock stageBody).filterMap
    (fun r =>
      let credsDef := r.1
      let content := r.2
      let files := (collectMatches (tryCredCall1 (liftStr "file") (liftStr "variable")) credsDef).map
        (fun c => CredType.fileCred c.1 (c.2.getD (upperL c.1)))
      let userpasses := (collectMatches tryUserPassCall credsDef).map
        (fun c => CredType.userpass c.1
          (c.2.1.getD (upperL c.1 ++ liftStr "_USR"))
          (c.2.2.getD (upperL c.1 ++ liftStr "_PSW")))
      let strs := (collectMatches (tryCredCall1 (liftStr "string") (liftStr "variable")) credsDef).map
        (fun c => CredType.strCred c.1 (c.2.getD (upperL c.1)))
      let credTypes := files ++ userpasses ++ strs
      if credTypes.isEmpty then none else some (credTypes, trimWs content))

/-- Case-insensitive matcher for `credentialsId\s*:\s*['"]([^'"]+)['"]`
(pattern 1 of `extract_credentials_usage`). -/
def tryCredIdAt (s : List Char) : Option (List Char × List Char) := do
  let r1 ← eatLitCI (liftStr "credentialsId") s
  let (_, r2) := eatWsC r1
  let r3 ← eatChar ':' r2
  let (_, r4) := eatWsC r3
  eatQuoted1 r4

/-- Greedy backtracking of `[^X]*` regions followed by a `credentialsId`
capture: try the continuation at descending offsets from the region end,
which is what the regex engine's longest-first backtracking yields. -/
def lastCredIdIn (s : List Char) : Nat → Option (List Char × List Char)
  | 0 => tryCredIdAt s
  | o + 1 =>
    match tryCredIdAt (s.drop (o + 1)) with
    | some r => some r
    | none => lastCredIdIn s o

/-- Case-insensitive matcher for `KW\s*\([^)]*credentialsId\s*:\s*['"]([^'"]+)['"]`
(patterns 3-6 and 9 of `extract_credentials_usage`). -/
def tryParenCredId (kw : List Char) (s : List Char) :
    Option (List Char × List Char) := do
  let r1 ← eatLitCI kw s
  let (_, r2) := eatWsC r1
  let r3 ← eatChar '(' r2
  let region := r3.takeWhile (fun c => c != ')')
  lastCredIdIn r3 region.length

/-- Case-insensitive matcher for
`withCredentials\s*\[[^\]]*credentialsId\s*:\s*['"]([^'"]+)['"]` (pattern 7
of `extract_credentials_usage`). -/
def tryBracketCredId (s : List Char) : Option (List Char × List Char) := do
  let r1 ← eatLitCI (liftStr "withCredentials") s
  let (_, r2) := eatWsC r1
  let r3 ← eatChar '[' r2
  let region := r3.takeWhile (fun c => c != ']')
  lastCredIdIn r3 region.length

/-- Case-insensitive matcher for `credentials\s*\(\s*['"]([^'"]+)['"]\s*\)`
(pattern 2 of `extract_credentials_usage`). -/
def tryCredentialsCall (s : List Char) : Option (List Char × List Char) := do
  let r1 ← eatLitCI (liftStr "credentials") s
  let (_, r2) := eatWsC r1
  let r3 ← eatChar '(' r2
  let (_, r4) := eatWsC r3
  let (cap, r5) ← eatQuoted1 r4
  let (_, r6) := eatWsC r5
  let r7 ← eatChar ')' r6
  some (cap, r7)

/-- Case-insensitive matcher for `sshagent\s*\(\s*\[['"]([^'"]+)['"]\]\s*\)`
(pattern 8 of `extract_credentials_usage`). -/
def trySshAgent (s : List Char) : Option (List Char × List Char) := do
  let r1 ← eatLitCI (liftStr "sshagent") s
  let (_, r2) := eatWsC r1
  let r3 ← eatChar '(' r2
  let (_, r4) := eatWsC r3
  let r5 ← eatChar '[' r4
  let (cap, r6) ← eatQuoted1 r5
  let r7 ← eatChar ']' r6
  let (_, r8) := eatWsC r7
  let r9 ← eatChar ')' r8
  some (cap, r9)

/-- Case-insensitive matcher for `=\s*credentials\s*\(\s*['"]([^'"]+)['"]\s*\)`
(first environment pattern of `extract_credentials_usage`). -/
def tryEqCredentials (s : List Char) : Option (List Char × List Char) := do
  let r1 ← eatChar '=' s
  let (_, r2) := eatWsC r1
  tryCredentialsCall r2

/-- Case-insensitive matcher for
`KUBECONFIG[^=]*=\s*credentials\s*\(\s*['"]([^'"]+)['"]\s*\)` (second
environment pattern of `extract_credentials_usage`). -/
def tryKubeconfigCred (s : List Char) : Option (List Char × List Char) := do
  let r1 ← eatLitCI (liftStr "KUBECONFIG") s
  let region := r1.takeWhile (fun c => c != '=')
  tryEqCredentials (r1.drop region.length)

/-- Ordered de-duplication; the source stores these matches in a Python
`set`, whose iteration order is unspecified — only membership is relied
upon by the claims (a canonical first-occurrence order is fixed here). -/
def dedupL : List (List Char) → List (List Char)
  | [] => []
  | x :: rest =>
    if (dedupL rest).contains x then dedupL rest
    else x :: dedupL rest

/-- `extract_credentials_usage` (jenkins_extractors.py, lines 166-197): the
union of all eleven `re.IGNORECASE` credential patterns. -/
def extract_credentials_usage (stageBody : List Char) : List (List Char) :=
  dedupL
    ((collectMatches tryCredIdAt stageBody) ++
     (collectMatches tryCredentialsCall stageBody) ++
     (collectMatches (tryParenCredId (liftStr "usernamePassword")) stageBody) ++
     (collectMatches (tryParenCredId (liftStr "string")) stageBody) ++
     (collectMatches (tryParenCredId (liftStr "file")) stageBody) ++
     (collectMatches (tryParenCredId (liftStr "sshUserPrivateKey")) stageBody) ++
     (collectMatches tryBracketCredId stageBody) ++
     (collectMatches trySshAgent stageBody) ++
     (collectMatches (tryParenCredId (liftStr "dockerCredentials")) stageBody) ++
     (collectMatches tryEqCredentials stageBody) ++
     (collectMatches tryKubeconfigCred stageBody))

/-- A record of `extract_docker_steps` (jenkins_extractors.py, lines
200-252). -/
inductive DockerStep
  | build (tag context dockerfile : List Char)
  | push (tag : List Char)
  | login
deriving DecidableEq, Repr

/-- One non-whitespace token `[^\s]+` followed by mandatory `\s+` (the
optional-group shapes `-f\s+([^\s]+)\s+` and `-t\s+([^\s]+)\s+`): the token
is the maximal non-whitespace run, and shortening it cannot restore the
trailing `\s+`, so greedy matching is deterministic. -/
def eatTokenWs (s : List Char) : Option (List Char × List Char) :=
  let tok := s.takeWhile (fun c => !(isWsChar c))
  if tok.isEmpty then none
  else
    match eatWs1 (s.drop tok.length) with
    | some (_, r) => some (tok, r)
    | none => none

/-- Matcher for the first docker-build pattern
`docker\s+build\s+(?:--pull\s+)?(?:--progress=\w+\s+)?(?:-f\s+([^\s]+)\s+)?(?:-t\s+([^\s]+)\s+)?([^\s]*)`;
returns `(dockerfile?, tag?, context)` and the remainder. -/
def tryDockerBuild1 (s : List Char) :
    Option ((Option (List Char) × Option (List Char) × List Char) × List Char) := do
  let r1 ← eatLit (liftStr "docker") s
  let (_, r2) ← eatWs1 r1
  let r3 ← eatLit (liftStr "build") r2
  let (_, r4) ← eatWs1 r3
  let r5 := match (do
    let q1 ← eatLit (liftStr "--pull") r4
    let (_, q2) ← eatWs1 q1
    some q2 : Option (List Char)) with
    | some q => q
    | none => r4
  let r6 := match (do
    let q1 ← eatLit (liftStr "--progress=") r5
    let w := q1.takeWhile isWordChar
    if w.isEmpty then none else
    let (_, q2) ← eatWs1 (q1.drop w.length)
    some q2 : Option (List Char)) with
    | some q => q
    | none => r5
  let (df, r7) := match (do
    let q1 ← eatLit (liftStr "-f") r6
    let (_, q2) ← eatWs1 q1
    eatTokenWs q2 : Option (List Char × List Char)) with
    | some (t, q) => (some t, q)
    | none => (none, r6)
  let (tg, r8) := match (do
    let q1 ← eatLit (liftStr "-t") r7
    let (_, q2) ← eatWs1 q1
    eatTokenWs q2 : Option (List Char × List Char)) with
    | some (t, q) => (some t, q)
    | none => (none, r7)
  let ctx := r8.takeWhile (fun c => !(isWsChar c))
  some ((df, tg, ctx), r8.drop ctx.length)

/-- Greedy `[^|]*` backtracking for the second docker-build pattern: the
last `-t\s+([^\s]+)` start inside the non-`|` region wins. -/
def lastDashT (s : List Char) : Nat → Option (List Char × List Char)
  | 0 => (do
      let q1 ← eatLit (liftStr "-t") s
      let (_, q2) ← eatWs1 q1
      let tok := q2.takeWhile (fun c => !(isWsChar c))
      if tok.isEmpty then none else some (tok, q2.drop tok.length))
  | o + 1 =>
    match (do
      let q1 ← eatLit (liftStr "-t") (s.drop (o + 1))
      let (_, q2) ← eatWs1 q1
      let tok := q2.takeWhile (fun c => !(isWsChar c))
      if tok.isEmpty then none else some (tok, q2.drop tok.length) :
        Option (List Char × List Char)) with
    | some r => some r
    | none => lastDashT s o

/-- Matcher for the second docker-build pattern
`docker\s+build\s+[^|]*-t\s+([^\s]+)`. -/
def tryDockerBuild2 (s : List Char) : Option (List Char × List Char) := do
  let r1 ← eatLit (liftStr "docker") s
  let (_, r2) ← eatWs1 r1
  let r3 ← eatLit (liftStr "build") r2
  let (_, r4) ← eatWs1 r3
  let region := r4.takeWhile (fun c => c != '|')
  lastDashT r4 region.length

/-- Matcher for `docker\s+push\s+([^\s]+)`. -/
def tryDockerPush (s : List Char) : Option (List Char × List Char) := do
  let r1 ← eatLit (liftStr "docker") s
  let (_, r2) ← eatWs1 r1
  let r3 ← eatLit (liftStr "push") r2
  let (_, r4) ← eatWs1 r3
  let tok := r4.takeWhile (fun c => !(isWsChar c))
  if tok.isEmpty then none else some (tok, r4.drop tok.length)

/-- Matcher for `docker\s+image\s+push\s+([^\s]+)`. -/
def tryDockerImagePush (s : List Char) : Option (List Char × List Char) := do
  let r1 ← eatLit (liftStr "docker") s
  let (_, r2) ← eatWs1 r1
  let r3 ← eatLit (liftStr "image") r2
  let (_, r4) ← eatWs1 r3
  let r5 ← eatLit (liftStr "push") r4
  let (_, r6) ← eatWs1 r5
  let tok := r6.takeWhile (fun c => !(isWsChar c))
  if tok.isEmpty then none else some (tok, r6.drop tok.length)

/-- Matcher for `docker\s+login`. -/
def tryDockerLogin (s : List Char) : Option Unit := do
  let r1 ← eatLit (liftStr "docker") s
  let (_, r2) ← eatWs1 r1
  let _ ← eatLit (liftStr "login") r2
  some ()

/-- `extract_docker_steps` (jenkins_extractors.py, lines 200-252): both
build patterns run over the text (a build command can therefore produce two
records), then both push patterns, then the login check.  A first-pattern
match with an empty tag is dropped (`if tag:`). -/
def extract_docker_steps (stageBody : List Char) : List DockerStep :=
  let builds1 := (collectMatches tryDockerBuild1 stageBody).filterMap
    (fun g =>
      let df := g.1.getD []
      let tg := g.2.1.getD []
      let ctx := if g.2.2.isEmpty then liftStr "." else g.2.2
      if tg.isEmpty then none else some (DockerStep.build tg ctx df))
  let builds2 := (collectMatches tryDockerBuild2 stageBody).map
    (fun tg => DockerStep.build tg (liftStr ".") [])
  let pushes := (collectMatches tryDockerPush stageBody).map
    (fun t => DockerStep.push (trimWs t))
  let imagePushes := (collectMatches tryDockerImagePush stageBody).map
    (fun t => DockerStep.push (trimWs t))
  let login := if (searchMap tryDockerLogin stageBody).isSome
    then [DockerStep.login] else []
  builds1 ++ builds2 ++ pushes ++ imagePushes ++ login

/-- A record of `extract_sonarqube_steps` (jenkins_extractors.py, lines
91-130). -/
structure SonarStep where
  serverName : List Char
  commands : List (List Char)
deriving DecidableEq, Repr

/-- Matcher for
`withSonarQubeEnv\s*\(\s*(?:['"]([^'"]*)['"]|([^)]+))?\s*\)\s*\{(depth-one body)\}`;
returns the raw server-name text (quoted capture, bare region, or empty) and
the block content. -/
def tryWithSonarEnv (s : List Char) :
    Option ((List Char × List Char) × List Char) := do
  let r1 ← eatLit (liftStr "withSonarQubeEnv") s
  let (_, r2) := eatWsC r1
  let r3 ← eatChar '(' r2
  let (_, r4) := eatWsC r3
  let tail : List Char → Option (List Char × List Char) := fun t => do
    let (_, q1) := eatWsC t
    let q2 ← eatChar ')' q1
    let (_, q3) := eatWsC q2
    let q4 ← eatChar '\x7b' q3
    depth1Aux q4 false
  match (do
    let (cap, q) ← eatQuoted0 r4
    let (inner, rest) ← tail q
    some ((cap, inner), rest) : Option ((List Char × List Char) × List Char)) with
  | some r => some r
  | none =>
    let region := r4.takeWhile (fun c => c != ')')
    if !region.isEmpty then do
      let (inner, rest) ← tail (r4.drop region.length)
      some ((region, inner), rest)
    else do
      let (inner, rest) ← tail r4
      some (([], inner), rest)

/-- Matcher for `sh\s+['"]([^'"]*sonar[^'"]*)['"]`: a quoted shell command
whose body contains `sonar`. -/
def tryShSonar (s : List Char) : Option (List Char × List Char) := do
  let (cap, rest) ← tryShSingle s
  if hasSubstr cap (liftStr "sonar") then some (cap, rest) else none

/-- `extract_sonarqube_steps` (jenkins_extractors.py, lines 91-130). -/
def extract_sonarqube_steps (stageBody : List Char) : List SonarStep :=
  let envSteps := (collectMatches tryWithSonarEnv stageBody).filterMap
    (fun r =>
      let serverRaw := r.1
      let inner := r.2
      let cmds := ((collectMatches tryShSingle inner).map (fun c => trimWs c)) ++
        (collectMatches tryShTriple inner).flatMap multiline_to_commands
      if !cmds.isEmpty || !serverRaw.isEmpty then
        some ⟨if serverRaw.isEmpty then [] else stripCharsBy isQuoteChar serverRaw, cmds⟩
      else none)
  let direct := collectMatches tryShSonar stageBody
  envSteps ++ (if direct.isEmpty then [] else [⟨[], direct⟩])

/-- A declared-input record of `extract_required_secrets_from_stage`
(`{"description": ..., "required": "true"/"false"}` in the source). -/
structure SecretInfo where
  description : List Char
  required : List Char
deriving DecidableEq, Repr

/-- The input-name transform applied to a credential id throughout
`extract_required_secrets_from_stage`:
`sanitize_credential_name(id).lower().replace('_', '-')`. -/
def cred_input_name (credId : List Char) : List Char :=
  (lowerL (sanitize_credential_name credId)).map (fun c => if c == '_' then '-' else c)

/-- `extract_required_secrets_from_stage` (action_generator.py, lines
417-509): docker push/login credentials, `docker login` convenience
credentials, SonarQube, email and Slack credentials, inputs derived from
`withCredentials` blocks, and finally one input per credential id found by
`extract_credentials_usage` that is not already present. -/
def extract_required_secrets_from_stage (stageBody : List Char) :
    List (List Char × SecretInfo) :=
  let s0 : List (List Char × SecretInfo) := []
  let dockerSteps := extract_docker_steps stageBody
  let s1 :=
    if dockerSteps.any (fun st => match st with
        | .push _ => true
        | .login => true
        | _ => false) then
      dictUpsert (dictUpsert s0
        (liftStr "docker-username")
        ⟨liftStr "Docker registry username", liftStr "true"⟩)
        (liftStr "docker-password")
        ⟨liftStr "Docker registry password", liftStr "true"⟩
    else s0
  let s2 :=
    if hasSubstr stageBody (liftStr "docker login") then
      dictUpsert (dictUpsert s1
        (liftStr "registry-cred-username")
        ⟨liftStr "Registry credential username for login command", liftStr "false"⟩)
        (liftStr "registry-cred-password")
        ⟨liftStr "Registry credential password for login command", liftStr "false"⟩
    else s1
  let s3 :=
    if !(extract_sonarqube_steps stageBody).isEmpty then
      dictUpsert (dictUpsert s2
        (liftStr "sonar-token")
        ⟨liftStr "SonarQube authentication token", liftStr "true"⟩)
        (liftStr "sonar-host-url")
        ⟨liftStr "SonarQube server URL", liftStr "true"⟩
    else s2
  let s4 :=
    if hasSubstr stageBody (liftStr "mail ") || hasSubstr stageBody (liftStr "emailext") then
      dictUpsert (dictUpsert s3
        (liftStr "email-username")
        ⟨liftStr "Email username for notifications", liftStr "false"⟩)
        (liftStr "email-password")
        ⟨liftStr "Email password for notifications", liftStr "false"⟩
    else s3
  let s5 :=
    if hasSubstr stageBody (liftStr "slackSend") then
      dictUpsert (dictUpsert s4
        (liftStr "slack-channel")
        ⟨liftStr "Slack channel for notifications", liftStr "false"⟩)
        (liftStr "slack-webhook-url")
        ⟨liftStr "Slack webhook URL for notifications", liftStr "false"⟩
    else s4
  let s6 := (extract_withCredentials_blocks stageBody).foldl
    (fun acc blk => blk.1.foldl
      (fun acc2 cred =>
        match cred with
        | .userpass credId _ _ =>
          let credName := cred_input_name credId
          dictUpsert (dictUpsert acc2
            (credName ++ liftStr "-username")
            ⟨liftStr "Username for " ++ credId, liftStr "true"⟩)
            (credName ++ liftStr "-password")
            ⟨liftStr "Password for " ++ credId, liftStr "true"⟩
        | .strCred credId _ =>
          dictUpsert acc2 (cred_input_name credId)
            ⟨liftStr "Credential " ++ credId, liftStr "true"⟩
        | .fileCred credId _ =>
          dictUpsert acc2 (cred_input_name credId)
            ⟨liftStr "Credential " ++ credId, liftStr "true"⟩)
      acc)
    s5
  (extract_credentials_usage stageBody).foldl
    (fun acc credId =>
      let credName := cred_input_name credId
      if credName ∈ acc.map Prod.fst then acc
      else acc ++ [(credName, ⟨liftStr "Credential " ++ credId, liftStr "false"⟩)])
    s6

/-- A GitHub-Actions step dictionary as built by the converter and the
action generator; absent dictionary keys are `none`/default fields. -/
structure GStep where
  stepName : Option (List Char) := none
  ifCond : Option (List Char) := none
  uses : Option (List Char) := none
  run : Option (List Char) := none
  shell : Option (List Char) := none
  withArgs : List (List Char × List Char) := []
  continueOnError : Bool := false
deriving DecidableEq, Repr

/-- Decimal rendering for the `{i+1}` interpolations of step names. -/
def natToChars (n : Nat) : List Char := Nat.toDigits 10 n

/-- The `condition_map` of `convert_post_actions_to_steps`
(action_generator.py, lines 253-260) together with its
`.get(condition, "always()")` default. -/
def condition_map (cond : List Char) : List Char :=
  if cond == liftStr "always" then liftStr "always()"
  else if cond == liftStr "success" then liftStr "success()"
  else if cond == liftStr "failure" then liftStr "failure()"
  else if cond == liftStr "unstable" then liftStr "success() || failure()"
  else if cond == liftStr "cleanup" then liftStr "always()"
  else if cond == liftStr "aborted" then liftStr "cancelled()"
  else liftStr "always()"

/-- The loop body of `convert_post_actions_to_steps` (action_generator.py,
lines 262-374) for one lifecycle condition, emitting steps in source order:
archive, junit, coverage, mail, slack, cleanup, commands, script block.
The mail subject/body `.get` defaults are dead code because `_collect`
always stores those keys. -/
def renderPostEntry (stageName cond : List Char) (d : PostData) : List GStep :=
  let ghaCond := condition_map cond
  (match d.archive with
   | some path =>
     [{ stepName := some (liftStr "Upload artifacts (" ++ cond ++ liftStr ")")
        ifCond := some ghaCond
        uses := some (liftStr "actions/upload-artifact@v4")
        withArgs := [(liftStr "name",
                       sanitize_name stageName ++ '-' :: cond ++ liftStr "-artifacts"),
                     (liftStr "path", path)]
        continueOnError := d.allowEmptyArchive == some true }]
   | none => []) ++
  (match d.junit with
   | some j =>
     [{ stepName := some (liftStr "Publish test results (" ++ cond ++ liftStr ")")
        ifCond := some ghaCond
        uses := some (liftStr "dorny/test-reporter@v1")
        withArgs := [(liftStr "name", stageName ++ liftStr " Test Results"),
                     (liftStr "path", j.testResults),
                     (liftStr "reporter", liftStr "java-junit")]
        continueOnError := j.allowEmptyResults }]
   | none => []) ++
  (match d.coverage with
   | some cov =>
     if cov.ctype == liftStr "jacoco" then
       [{ stepName := some (liftStr "Upload coverage reports (" ++ cond ++ liftStr ")")
          ifCond := some ghaCond
          uses := some (liftStr "codecov/codecov-action@v3")
          withArgs := [(liftStr "file", cov.path),
                       (liftStr "fail_ci_if_error", liftStr "false")] }]
     else []
   | none => []) ++
  (match d.mail with
   | some m =>
     [{ stepName := some (liftStr "Send email notification (" ++ cond ++ liftStr ")")
        ifCond := some ghaCond
        uses := some (liftStr "dawidd6/action-send-mail@v3")
        withArgs := [(liftStr "server_address", liftStr "smtp.gmail.com"),
                     (liftStr "server_port", liftStr "587"),
                     (liftStr "username", liftStr "$\x7b\x7b inputs.email-username \x7d\x7d"),
                     (liftStr "password", liftStr "$\x7b\x7b inputs.email-password \x7d\x7d"),
                     (liftStr "subject", m.subject),
                     (liftStr "to", m.toAddr),
                     (liftStr "from", liftStr "$\x7b\x7b inputs.email-username \x7d\x7d"),
                     (liftStr "body", m.body)] }]
   | none => []) ++
  (match d.slack with
   | some _ =>
     [{ stepName := some (liftStr "Slack notification (" ++ cond ++ liftStr ")")
        ifCond := some ghaCond
        uses := some (liftStr "8398a7/action-slack@v3")
        withArgs := [(liftStr "status", cond),
                     (liftStr "channel", liftStr "$\x7b\x7b inputs.slack-channel \x7d\x7d"),
                     (liftStr "webhook_url", liftStr "$\x7b\x7b inputs.slack-webhook-url \x7d\x7d")] }]
   | none => []) ++
  (if d.deleteDir || d.cleanWs then
     [{ stepName := some (liftStr "Cleanup workspace (" ++ cond ++ liftStr ")")
        ifCond := some ghaCond
        run := some (liftStr "rm -rf $\x7b\x7b github.workspace \x7d\x7d/*")
        shell := some (liftStr "bash") }]
   else []) ++
  (d.commands.enum.map (fun ic =>
     { stepName := some (liftStr "Post " ++ cond ++ liftStr " command " ++
                         natToChars (ic.1 + 1))
       ifCond := some ghaCond
       run := some ic.2
       shell := some (liftStr "bash") })) ++
  (match d.scriptBlock with
   | some sb =>
     [{ stepName := some (liftStr "Post " ++ cond ++
                          liftStr " script (MANUAL CONVERSION REQUIRED)")
        ifCond := some ghaCond
        run := some (generate_limitations_comment (liftStr "Script block")
                      (sb.take 100 ++ liftStr "..."))
        shell := some (liftStr "bash") }]
   | none => [])

/-- `convert_post_actions_to_steps` (action_generator.py, lines 249-375). -/
def convert_post_actions_to_steps (postInfo : List (List Char × PostData))
    (stageName : List Char) : List GStep :=
  postInfo.flatMap (fun e => renderPostEntry stageName e.1 e.2)

/-- The `runs-on` value of a job: a hosted-runner name or the
`["self-hosted", label]` fallback of `map_label_to_runs_on`. -/
inductive RunsOn
  | runner (s : List Char)
  | selfHosted (label : List Char)
deriving DecidableEq, Repr

/-- `map_label_to_runs_on` (agent_mapper.py, lines 8-37). -/
def map_label_to_runs_on (label : List Char) : RunsOn :=
  let normalized := lowerL (trimWs label)
  let isIn : List String → Bool := fun opts =>
    opts.any (fun o => normalized == liftStr o)
  if isIn ["ubuntu", "ubuntu-latest", "linux"] then .runner (liftStr "ubuntu-latest")
  else if isIn ["ubuntu-20.04", "ubuntu-2004"] then .runner (liftStr "ubuntu-20.04")
  else if isIn ["ubuntu-22.04", "ubuntu-2204"] then .runner (liftStr "ubuntu-22.04")
  else if isIn ["windows", "windows-latest", "win"] then .runner (liftStr "windows-latest")
  else if isIn ["windows-2019", "win2019"] then .runner (liftStr "windows-2019")
  else if isIn ["windows-2022", "win2022"] then .runner (liftStr "windows-2022")
  else if isIn ["mac", "macos", "macos-latest", "darwin"] then .runner (liftStr "macos-latest")
  else if isIn ["macos-11", "macos11"] then .runner (liftStr "macos-11")
  else if isIn ["macos-12", "macos12"] then .runner (liftStr "macos-12")
  else if hasSubstr normalized (liftStr "docker") then .runner (liftStr "ubuntu-latest")
  else .selfHosted label

/-- A job `container:` object. -/
structure ContainerSpec where
  image : List Char
  options : Option (List Char) := none
deriving DecidableEq, Repr

/-- A job `needs:` value: the source assigns either a single job-id string
or a list of job ids. -/
inductive Needs
  | one (id : List Char)
  | many (ids : List (List Char))
deriving DecidableEq, Repr

/-- A job dictionary of the produced workflow (`gha["jobs"][job_id]`).
The `steps` of stage jobs are the placeholder checkout list; the later
grafting of composite-action steps is outside the modelled claims. -/
structure JobDef where
  runsOn : RunsOn
  container : Option ContainerSpec := none
  env : List (List Char × List Char) := []
  ifCond : Option (List Char) := none
  needs : Option Needs := none
  timeoutMinutes : Nat := 60
  concurrency : Option (List Char × Bool) := none
  jobName : Option (List Char) := none
  steps : List GStep := []
deriving DecidableEq, Repr

/-- The produced workflow object, restricted to the fields the claims are
about (its `name`, `on` and `permissions` entries are fixed constants in the
source). -/
structure GhaWorkflow where
  env : List (List Char × List Char)
  jobs : List (List Char × JobDef)
deriving DecidableEq, Repr

/-- `compute_job_env` (converter.py, lines 151-161). -/
def compute_job_env (globalEnv stageEnv : List (List Char × List Char)) :
    List (List Char × List Char) :=
  if stageEnv.isEmpty then []
  else if globalEnv.isEmpty then stageEnv
  else stageEnv.filter (fun kv =>
    match alookup globalEnv kv.1 with
    | none => true
    | some gv => gv != kv.2)

/-- `re.sub(r'params\.(\w+)', r'inputs.\1', expr)` (converter.py, line
260), fuelled by the text length. -/
def subParamsF : Nat → List Char → List Char
  | 0, s => s
  | _ + 1, [] => []
  | fuel + 1, s@(c :: rest) =>
    match (do
      let r1 ← eatLit (liftStr "params.") s
      let w := r1.takeWhile isWordChar
      if w.isEmpty then none else some (w, r1.drop w.length) :
        Option (List Char × List Char)) with
    | some (w, r) => liftStr "inputs." ++ w ++ subParamsF fuel r
    | none => c :: subParamsF fuel rest

/-- `re.sub(r'==\s*true', '== true', ...)` and the `false` analogue
(converter.py, lines 261-262). -/
def subEqBoolF (lit : List Char) : Nat → List Char → List Char
  | 0, s => s
  | _ + 1, [] => []
  | fuel + 1, s@(c :: rest) =>
    match (do
      let r1 ← eatLit (liftStr "==") s
      let (_, r2) := eatWsC r1
      eatLit lit r2 : Option (List Char)) with
    | some r => liftStr "== " ++ lit ++ subEqBoolF lit fuel r
    | none => c :: subEqBoolF lit fuel rest

/-- `create_when_condition` (converter.py, lines 242-283). -/
def create_when_condition (w : WhenConds) : Option (List Char) :=
  if whenIsEmpty w then none
  else
    let conds : List (List Char) :=
      (match w.branch with
       | some b =>
         if b == liftStr "master" || b == liftStr "main" then
           [liftStr "github.ref == \x27refs/heads/main\x27 || github.ref == \x27refs/heads/master\x27"]
         else
           [liftStr "github.ref == \x27refs/heads/" ++ b ++ liftStr "\x27"]
       | none => []) ++
      (match w.expression with
       | some e =>
         if hasSubstr e (liftStr "params.") then
           let pe := subParamsF e.length e
           let pe := subEqBoolF (liftStr "true") pe.length pe
           let pe := subEqBoolF (liftStr "false") pe.length pe
           [liftStr "github.event_name == \x27workflow_dispatch\x27 && " ++ pe]
         else
           [liftStr "true  # MANUAL CONVERSION REQUIRED: " ++ e]
       | none => []) ++
      (match w.environment with
       | some nv =>
         if !nv.2.isEmpty then
           [liftStr "env." ++ nv.1 ++ liftStr " == \x27" ++ nv.2 ++ liftStr "\x27"]
         else
           [liftStr "env." ++ nv.1 ++ liftStr " != \x27\x27"]
       | none => []) ++
      (if w.changeRequest then [liftStr "github.event_name == \x27pull_request\x27"] else []) ++
      (if w.buildingTag then [liftStr "startsWith(github.ref, \x27refs/tags/\x27)"] else [])
    if conds.isEmpty then none else some (joinSep (liftStr " && ") conds)

/-- The placeholder checkout step `{"uses": "actions/checkout@v4"}`. -/
def checkoutStep : GStep := { uses := some (liftStr "actions/checkout@v4") }

/-- Resolution of the default `runs-on`/`container` from the global agent
(converter.py, lines 72-84). -/
def defaultsOf (globalAgent : Option AgentDecl) : RunsOn × Option ContainerSpec :=
  match globalAgent with
  | none => (.runner (liftStr "ubuntu-latest"), none)
  | some .anyAgent => (.runner (liftStr "ubuntu-latest"), none)
  | some (.labelAgent l) => (map_label_to_runs_on l, none)
  | some (.dockerAgent img args _) =>
    (.runner (liftStr "ubuntu-latest"), some ⟨img, args⟩)

/-- `apply_agent_to_job` (converter.py, lines 163-179): the stage agent
overrides the defaults; its `any`/`label` forms never set a container. -/
def agentRunsOn (defRunsOn : RunsOn) (defContainer : Option ContainerSpec)
    (ag : Option AgentDecl) : RunsOn × Option ContainerSpec :=
  match ag with
  | none => (defRunsOn, defContainer)
  | some .anyAgent => (.runner (liftStr "ubuntu-latest"), none)
  | some (.labelAgent l) => (map_label_to_runs_on l, none)
  | some (.dockerAgent img args _) =>
    (.runner (liftStr "ubuntu-latest"), some ⟨img, args⟩)

/-- The loop state of the stage-processing loop of `convert_jenkins_to_gha`
(converter.py, lines 146-149): the jobs dictionary, `last_job_ids` and
`prev_job_id` (the empty string plays Python's falsy role). -/
structure ConvState where
  jobs : List (List Char × JobDef)
  lastJobIds : List (List Char)
  prevJobId : List Char
deriving DecidableEq, Repr

/-- `upstream = prev_job_id or (last_job_ids[-1] if last_job_ids else None)`
(converter.py, line 294). -/
def upstream_of (s : ConvState) : Option (List Char) :=
  if !s.prevJobId.isEmpty then some s.prevJobId
  else s.lastJobIds.getLast?

/-- The `needs` of a parallel member (`if upstream:` at converter.py, line
334: an empty-string upstream is falsy and adds no dependency). -/
def parallelNeeds (upstream : Option (List Char)) : Option Needs :=
  match upstream with
  | some u => if u.isEmpty then none else some (.one u)
  | none => none

/-- The job built for one member of a parallel block (converter.py, lines
297-343). -/
def mkParallelJob (genv : List (List Char × List Char)) (defRO : RunsOn)
    (defC : Option ContainerSpec) (upstream : Option (List Char))
    (subBody : List Char) : JobDef :=
  let rc := agentRunsOn defRO defC (extract_stage_agent subBody)
  { runsOn := rc.1
    container := rc.2
    env := compute_job_env genv (extract_stage_environment subBody)
    ifCond := create_when_condition (extract_when_conditions subBody)
    needs := parallelNeeds upstream
    timeoutMinutes := 60
    steps := [checkoutStep] }

/-- The job built for a sequential stage (converter.py, lines 349-403). -/
def mkSequentialJob (genv : List (List Char × List Char)) (defRO : RunsOn)
    (defC : Option ContainerSpec) (s : ConvState)
    (stageName stageBody : List Char) : JobDef :=
  let rc := agentRunsOn defRO defC (extract_stage_agent stageBody)
  { runsOn := rc.1
    container := rc.2
    env := compute_job_env genv (extract_stage_environment stageBody)
    ifCond := create_when_condition (extract_when_conditions stageBody)
    needs :=
      if !s.lastJobIds.isEmpty then some (.many s.lastJobIds)
      else if !s.prevJobId.isEmpty then some (.one s.prevJobId)
      else none
    timeoutMinutes := 60
    concurrency :=
      if hasSubstr (lowerL stageName) (liftStr "deploy") ||
         hasSubstr (lowerL stageName) (liftStr "release") ||
         hasSubstr (lowerL stageName) (liftStr "publish") then
        some (liftStr "deployment-" ++
          (lowerL stageName).map (fun c => if c == ' ' then '-' else c), false)
      else none
    steps := [checkoutStep] }

/-- The insertion of one parallel-member job into the jobs dictionary
(converter.py, lines 297-343). -/
def insertParallelMember (genv : List (List Char × List Char)) (defRO : RunsOn)
    (defC : Option ContainerSpec) (up : Option (List Char))
    (js : List (List Char × JobDef)) (sub : List Char × List Char) :
    List (List Char × JobDef) :=
  dictUpsert js (gha_job_id sub.1) (mkParallelJob genv defRO defC up sub.2)

/-- One iteration of the stage loop of `convert_jenkins_to_gha`
(converter.py, lines 286-430): a stage whose body contains a `parallel`
block produces one job per member, all sharing the same upstream and
advancing the cursor to the member-id list; any other stage produces one
job depending on the cursor. -/
def convStep (genv : List (List Char × List Char)) (defRO : RunsOn)
    (defC : Option ContainerSpec) (s : ConvState)
    (stage : List Char × List Char) : ConvState :=
  let subs := extract_parallel stage.2
  if subs.isEmpty then
    let jobId := gha_job_id stage.1
    { jobs := dictUpsert s.jobs jobId (mkSequentialJob genv defRO defC s stage.1 stage.2)
      lastJobIds := []
      prevJobId := jobId }
  else
    let up := upstream_of s
    { jobs := subs.foldl (insertParallelMember genv defRO defC up) s.jobs
      lastJobIds := subs.map (fun sub => gha_job_id sub.1)
      prevJobId := [] }

/-- The lifecycle conditions handled by the pipeline-level post loop
(converter.py, line 501) — `unstable` and `aborted` are not among them. -/
def pipelinePostKinds : List (List Char) :=
  [liftStr "always", liftStr "success", liftStr "failure", liftStr "cleanup"]

/-- The `gha_condition` map of the pipeline-post loop (converter.py, lines
504-509). -/
def pipelineGhaCondition (kind : List Char) : List Char :=
  if kind == liftStr "always" then liftStr "always()"
  else if kind == liftStr "success" then liftStr "success()"
  else if kind == liftStr "failure" then liftStr "failure()"
  else if kind == liftStr "cleanup" then liftStr "always()"
  else liftStr "always()"

/-- The steps emitted for one lifecycle condition of the pipeline-level post
block (converter.py, lines 511-589), in source order: archive, junit,
commands, mail, slack, emailext, publishHTML.  Coverage, workspace cleanup
and script blocks have no pipeline-level rendering. -/
def renderPipelineKind (kind : List Char) (d : PostData) : List GStep :=
  let ghaCond := pipelineGhaCondition kind
  (match d.archive with
   | some path =>
     [{ stepName := some (liftStr "Upload artifacts (" ++ kind ++ liftStr ")")
        ifCond := some ghaCond
        uses := some (liftStr "actions/upload-artifact@v4")
        withArgs := [(liftStr "name", liftStr "pipeline-" ++ kind ++ liftStr "-artifacts"),
                     (liftStr "path", path)] }]
   | none => []) ++
  (match d.junit with
   | some j =>
     [{ stepName := some (liftStr "Publish test results (" ++ kind ++ liftStr ")")
        ifCond := some ghaCond
        uses := some (liftStr "dorny/test-reporter@v1")
        withArgs := [(liftStr "name", liftStr "Pipeline Test Results (" ++ kind ++ liftStr ")"),
                     (liftStr "path", j.testResults),
                     (liftStr "reporter", liftStr "java-junit")]
        continueOnError := j.allowEmptyResults }]
   | none => []) ++
  (d.commands.map (fun cmd =>
     { stepName := some (liftStr "Pipeline post " ++ kind)
       ifCond := some ghaCond
       run := some cmd
       shell := some (liftStr "bash") })) ++
  (match d.mail with
   | some m =>
     [{ stepName := some (liftStr "Send notification on " ++ kind)
        ifCond := some ghaCond
        uses := some (liftStr "dawidd6/action-send-mail@v3")
        withArgs := [(liftStr "server_address", liftStr "smtp.gmail.com"),
                     (liftStr "server_port", liftStr "587"),
                     (liftStr "username", liftStr "$\x7b\x7b secrets.EMAIL_USERNAME \x7d\x7d"),
                     (liftStr "password", liftStr "$\x7b\x7b secrets.EMAIL_PASSWORD \x7d\x7d"),
                     (liftStr "subject", m.subject),
                     (liftStr "to", m.toAddr),
                     (liftStr "from", liftStr "$\x7b\x7b secrets.EMAIL_USERNAME \x7d\x7d"),
                     (liftStr "body", m.body)] }]
   | none => []) ++
  (match d.slack with
   | some _ =>
     [{ stepName := some (liftStr "Slack notification (" ++ kind ++ liftStr ")")
        ifCond := some ghaCond
        uses := some (liftStr "8398a7/action-slack@v3")
        withArgs := [(liftStr "status", kind),
                     (liftStr "channel", liftStr "$\x7b\x7b secrets.SLACK_CHANNEL \x7d\x7d"),
                     (liftStr "webhook_url", liftStr "$\x7b\x7b secrets.SLACK_WEBHOOK_URL \x7d\x7d")] }]
   | none => []) ++
  (match d.emailext with
   | some ee =>
     [{ stepName := some (liftStr "Extended email notification (" ++ kind ++
                          liftStr ") - MANUAL CONVERSION REQUIRED")
        ifCond := some ghaCond
        run := some (generate_limitations_comment (liftStr "EmailExt Plugin") ee)
        shell := some (liftStr "bash") }]
   | none => []) ++
  (match d.publishHTML with
   | some ph =>
     [{ stepName := some (liftStr "Publish HTML (" ++ kind ++
                          liftStr ") - MANUAL CONVERSION REQUIRED")
        ifCond := some ghaCond
        run := some (generate_limitations_comment (liftStr "PublishHTML Plugin") ph)
        shell := some (liftStr "bash") }]
   | none => [])

/-- All pipeline-post steps beyond the leading checkout (converter.py,
lines 499-589). -/
def renderPipelinePost (post : List (List Char × PostData)) : List GStep :=
  pipelinePostKinds.flatMap (fun kind =>
    match alookup post kind with
    | none => []
    | some d => renderPipelineKind kind d)

/-- The final pipeline-post job attachment (converter.py, lines 497-603):
only when the rendered step list holds more than the checkout step is the
`pipeline-post` job added, depending on every other job key. -/
def attachPipelinePost (defRO : RunsOn) (defC : Option ContainerSpec)
    (post : List (List Char × PostData)) (jobs : List (List Char × JobDef)) :
    List (List Char × JobDef) :=
  if post.isEmpty then jobs
  else
    let postSteps := checkoutStep :: renderPipelinePost post
    if postSteps.length > 1 then
      let allJobs := (jobs.map Prod.fst).filter (fun k => k != liftStr "pipeline-post")
      dictUpsert jobs (liftStr "pipeline-post")
        { jobName := some (liftStr "Pipeline Post Actions")
          runsOn := defRO
          container := defC
          needs := some (.many allJobs)
          ifCond := some (liftStr "always()")
          timeoutMinutes := 30
          steps := postSteps }
    else jobs

/-- The fatal-error message for a missing `pipeline { ... }` block
(converter.py, line 48). -/
def errNoPipeline : List Char :=
  liftStr "Not a declarative Jenkins pipeline (no \x27pipeline \x7b ... \x7d\x27 found)."

/-- The fatal-error message for a missing `stages { ... }` block, as wrapped
by the structural `try`/`except` (converter.py, lines 63 and 70). -/
def errNoStages : List Char :=
  liftStr "Error parsing Jenkins pipeline structure: No \x27stages \x7b ... \x7d\x27 found."

/-- `convert_jenkins_to_gha` (converter.py, lines 28-625), restricted to the
workflow object: comments are stripped, the mandatory `pipeline` and
`stages` blocks are located (their absence is the only fatal error of the
pure conversion), the global agent/environment and the pipeline-level post
block are extracted, the stage loop builds the jobs dictionary, and the
pipeline-post job is attached. -/
def convert_jenkins_to_gha (jenkinsText : List Char) :
    Except (List Char) GhaWorkflow :=
  let text := strip_comments jenkinsText
  match find_block text (liftStr "pipeline") with
  | none => .error errNoPipeline
  | some pb =>
    let pipelineBody := sliceL text pb.1 pb.2
    let globalAgent := extract_global_agent pipelineBody
    let globalEnv :=
      match find_block pipelineBody (liftStr "environment") with
      | some e => extract_env_kv (sliceL pipelineBody e.1 e.2)
      | none => []
    match find_block pipelineBody (liftStr "stages") with
    | none => .error errNoStages
    | some sb =>
      let stagesList := split_stages (sliceL pipelineBody sb.1 sb.2)
      let pipelinePost := extract_pipeline_post pipelineBody
      let defs := defaultsOf globalAgent
      let finalState := stagesList.foldl (convStep globalEnv defs.1 defs.2)
        ⟨[], [], []⟩
      .ok { env := globalEnv
            jobs := attachPipelinePost defs.1 defs.2 pipelinePost finalState.jobs }

/-- The pipeline body located by `convert_jenkins_to_gha` (a re-statement of
its first parsing step, used to phrase theorems about inputs). -/
def pipelineBodyOf (t : List Char) : Option (List Char) :=
  let text := strip_comments t
  (find_block text (liftStr "pipeline")).map (fun pb => sliceL text pb.1 pb.2)

/-- The stage list located by `convert_jenkins_to_gha`. -/
def stagesListOf (t : List Char) : Option (List (List Char × List Char)) :=
  (pipelineBodyOf t).bind (fun body =>
    (find_block body (liftStr "stages")).map (fun sb =>
      split_stages (sliceL body sb.1 sb.2)))

/-- The pipeline-level post data located by `convert_jenkins_to_gha`. -/
def pipelinePostOf (t : List Char) : Option (List (List Char × PostData)) :=
  (pipelineBodyOf t).map extract_pipeline_post

/-- The names of all jobs the stage loop creates, in source order: the stage
name for a sequential stage, the member names for a parallel block. -/
def forestNames (stages : List (List Char × List Char)) : List (List Char) :=
  stages.flatMap (fun st =>
    let subs := extract_parallel st.2
    if subs.isEmpty then [st.1] else subs.map Prod.fst)

/-- The job ids derived from `forestNames`. -/
def forestIds (stages : List (List Char × List Char)) : List (List Char) :=
  (forestNames stages).map gha_job_id

/-- `forestIds` of the parsed input. -/
def forestIdsOf (t : List Char) : List (List Char) :=
  forestIds ((stagesListOf t).getD [])

/-- Net brace count (`#'{' − #'}'`) of a text, the quantity the spec's
"brace-depth profile" is about. -/
def braceNet (s : List Char) : Int :=
  s.foldl (fun d c => if c = '\x7b' then d + 1 else if c = '\x7d' then d - 1 else d) 0

/-- Scan deciding that every prefix starting from accumulated depth `d`
keeps a non-negative depth. -/
def braceScanB : List Char → Int → Bool
  | [], _ => true
  | c :: r, d =>
    let d2 := if c = '\x7b' then d + 1 else if c = '\x7d' then d - 1 else d
    if d2 < 0 then false else braceScanB r d2

/-- Every prefix has a non-negative net brace count. -/
def braceNonnegB (s : List Char) : Bool := braceScanB s 0

/-- Non-negative profile and zero total: a balanced brace body. -/
def braceBalancedB (s : List Char) : Bool := braceNonnegB s && (braceNet s == 0)

/-- Modelled from the spec (claim C2's wording): the index of the first
occurrence of the keyword in the text. -/
def specFirstKwOcc (t kw : List Char) : Option Nat := findSubIdx kw t

/-- Modelled from the spec (claim C2's wording): whether a `{` follows,
modulo whitespace, the keyword occurrence at index `i` (keyword length
`n`). -/
def specBraceFollowsAt (t : List Char) (i n : Nat) : Bool :=
  match (t.drop (i + n)).dropWhile isWsChar with
  | '\x7b' :: _ => true
  | _ => false

/-- The job ids referenced by a `needs:` value. -/
def needsIds : Option Needs → List (List Char)
  | none => []
  | some (.one i) => [i]
  | some (.many l) => l

/-- The keys of a jobs dictionary. -/
def jobKeys (jobs : List (List Char × JobDef)) : List (List Char) :=
  jobs.map Prod.fst

/-- Ordered-dependency scan: every job's `needs` refer only to job keys
occurring strictly earlier in the (insertion-ordered) jobs dictionary —
the "acyclic by construction" reading of the spec. -/
def orderedNeedsGo (seen : List (List Char)) : List (List Char × JobDef) → Bool
  | [] => true
  | e :: rest =>
    (needsIds e.2.needs).all (fun x => seen.contains x) &&
    orderedNeedsGo (seen ++ [e.1]) rest

/-- Every job depends only on strictly earlier jobs. -/
def orderedNeedsB (jobs : List (List Char × JobDef)) : Bool :=
  orderedNeedsGo [] jobs

/-- Every job's `needs` refer to existing job keys (the structural validity
of the produced dependency graph). -/
def validNeedsB (jobs : List (List Char × JobDef)) : Bool :=
  jobs.all (fun e => (needsIds e.2.needs).all (fun x => (jobKeys jobs).contains x))

/-- The character invariant claimed for job ids: lowercase letters, digits,
hyphens and underscores only. -/
def idCharOk (c : Char) : Bool :=
  ('a' ≤ c && c ≤ 'z') || ('0' ≤ c && c ≤ '9') || c == '-' || c == '_'

/-- No two consecutive hyphens. -/
def noTwoDashes : List Char → Bool
  | a :: b :: t => !(a == '-' && b == '-') && noTwoDashes (b :: t)
  | _ => true

/-- The full job-id invariant of claim C10. -/
def idInvariant (s : List Char) : Bool :=
  s.all idCharOk && noTwoDashes s &&
  (s.head? != some '-') && (s.getLast? != some '-')

/-- A well-formed stage unit `stage('name'){content}` for the decomposition
theorem. -/
def mkStageText (name content : List Char) : List Char :=
  liftStr "stage(\x27" ++ name ++ liftStr "\x27)\x7b" ++ content ++ liftStr "\x7d"

/-- A stages body made of separated well-formed stage units followed by one
unterminated stage header: `sep₀ u₁ sep₁ u₂ … sepₖ stage('bad'){tail` with
no closing brace for the final stage. -/
def mkStagesText : List (List Char × List Char × List Char) → List Char →
    List Char → List Char → List Char
  | [], lastSep, badName, badTail =>
    lastSep ++ liftStr "stage(\x27" ++ badName ++ liftStr "\x27)\x7b" ++ badTail
  | (sep, n, c) :: rest, lastSep, badName, badTail =>
    sep ++ mkStageText n c ++ mkStagesText rest lastSep badName badTail

/-- A usable stage name for `mkStageText`: non-empty and quote-free. -/
def nameOk (n : List Char) : Bool :=
  !n.isEmpty && n.all (fun c => !(isQuoteChar c))

/-- A separator that cannot start a stage header. -/
def sepOk (sep : List Char) : Bool := !(hasSubstr sep (liftStr "stage"))

/-- Concrete pipeline with two consecutive parallel blocks followed by a
sequential stage (claim C1). -/
def exC1 : List Char := liftStr "pipeline \x7b stages \x7b stage(\x27P1\x27) \x7b parallel \x7b stage(\x27A\x27) \x7b steps \x7b sh \x27a\x27 \x7d \x7d stage(\x27B\x27) \x7b steps \x7b sh \x27b\x27 \x7d \x7d \x7d \x7d stage(\x27P2\x27) \x7b parallel \x7b stage(\x27D\x27) \x7b steps \x7b sh \x27d\x27 \x7d \x7d stage(\x27E\x27) \x7b steps \x7b sh \x27e\x27 \x7d \x7d \x7d \x7d stage(\x27C\x27) \x7b steps \x7b sh \x27c\x27 \x7d \x7d \x7d \x7d"

/-- Concrete parallel stage and following sequential stage for the C1
witness. -/
def exC1parStage : List Char × List Char :=
  (liftStr "Par", liftStr "parallel \x7b stage(\x27A\x27) \x7b steps \x7b sh \x27a\x27 \x7d \x7d stage(\x27B\x27) \x7b steps \x7b sh \x27b\x27 \x7d \x7d \x7d")

/-- Concrete sequential stage for the C1 witness. -/
def exC1seqStage : List Char × List Char :=
  (liftStr "C", liftStr "steps \x7b sh \x27c\x27 \x7d")

/-- Concrete input without a `pipeline` block (claim C3). -/
def exC3bad : List Char := liftStr "hello world"

/-- Concrete minimal convertible pipeline (claim C3). -/
def exC3good : List Char := liftStr "pipeline \x7b stages \x7b stage(\x27Build\x27) \x7b steps \x7b sh \x27make\x27 \x7d \x7d stage(\x27Test\x27) \x7b steps \x7b sh \x27make test\x27 \x7d \x7d \x7d \x7d"

/-- Concrete pipeline with a duplicated stage name (claim C5). -/
def exC5 : List Char := liftStr "pipeline \x7b stages \x7b stage(\x27A\x27) \x7b steps \x7b sh \x27a\x27 \x7d \x7d stage(\x27B\x27) \x7b steps \x7b sh \x27b\x27 \x7d \x7d stage(\x27A\x27) \x7b steps \x7b sh \x27c\x27 \x7d \x7d \x7d \x7d"

/-- Concrete pipeline with distinct stage names and a pipeline post block
(claim C5 witness). -/
def exC5w : List Char := liftStr "pipeline \x7b stages \x7b stage(\x27Build\x27) \x7b steps \x7b sh \x27make\x27 \x7d \x7d stage(\x27Fan\x27) \x7b parallel \x7b stage(\x27L1\x27) \x7b steps \x7b sh \x27l1\x27 \x7d \x7d stage(\x27L2\x27) \x7b steps \x7b sh \x27l2\x27 \x7d \x7d \x7d \x7d stage(\x27Join\x27) \x7b steps \x7b sh \x27j\x27 \x7d \x7d \x7d post \x7b always \x7b sh \x27echo done\x27 \x7d \x7d \x7d"

/-- Concrete stage body declaring a `usernamePassword` credential with
source id `docker-hub` and nothing else (claim C6). -/
def exC6body : List Char := liftStr "steps \x7b withCredentials [usernamePassword(credentialsId: \x27docker-hub\x27, usernameVariable: \x27DH_USER\x27, passwordVariable: \x27DH_PASS\x27)] \x7b sh \x27make it\x27 \x7d \x7d"

/-- Concrete stage body with archiving under `always` and `unstable`
(claim C7). -/
def exC7body : List Char := liftStr "steps \x7b sh \x27make\x27 \x7d post \x7b always \x7b archiveArtifacts \x27t/*.jar\x27 \x7d unstable \x7b archiveArtifacts \x27u/*.log\x27 \x7d \x7d"

/-- The extracted post data of `exC7body`. -/
def exC7post : List (List Char × PostData) := extract_stage_post exC7body

/-- The `always` entry of `exC7post`. -/
def exC7d : PostData := (alookup exC7post (liftStr "always")).getD {}

/-- The `unstable` entry of `exC7post`. -/
def exC7du : PostData := (alookup exC7post (liftStr "unstable")).getD {}

/-- Concrete pipeline whose pipeline-level post block is non-empty but
renders no pipeline-level step (claim C9). -/
def exC9bad : List Char := liftStr "pipeline \x7b stages \x7b stage(\x27A\x27) \x7b steps \x7b sh \x27a\x27 \x7d \x7d \x7d post \x7b always \x7b cleanWs() \x7d \x7d \x7d"

/-- Concrete pipeline whose pipeline-level post block renders a step
(claim C9 witness). -/
def exC9good : List Char := liftStr "pipeline \x7b stages \x7b stage(\x27A\x27) \x7b steps \x7b sh \x27a\x27 \x7d \x7d stage(\x27B\x27) \x7b steps \x7b sh \x27b\x27 \x7d \x7d \x7d post \x7b always \x7b sh \x27echo done\x27 \x7d \x7d \x7d"

/-- The post data of `exC9good`. -/
def exC9goodPost : List (List Char × PostData) := (pipelinePostOf exC9good).getD []

/-- Concrete pipeline for the C10 witness. -/
def exC10 : List Char := liftStr "pipeline \x7b stages \x7b stage(\x27My Build!\x27) \x7b steps \x7b sh \x27make\x27 \x7d \x7d \x7d post \x7b failure \x7b sh \x27echo bad\x27 \x7d \x7d \x7d"

/-! ## Theorems -/

theorem compute_job_env_eq_filter (genv senv : List (List Char × List Char)) :
    compute_job_env genv senv =
      senv.filter (fun kv =>
        match alookup genv kv.1 with
        | none => true
        | some gv => gv != kv.2) := by
  unfold compute_job_env
  by_cases hs : senv.isEmpty
  · rw [if_pos hs]
    cases senv with
    | nil => simp
    | cons a l => simp at hs
  · rw [if_neg hs]
    by_cases hg : genv.isEmpty
    · rw [if_pos hg]
      cases genv with
      | nil =>
        refine (List.filter_eq_self.mpr ?_).symm
        intro kv _
        simp [alookup]
      | cons a l => simp at hg
    · rw [if_neg hg]

/-- C4: for every stage environment mapping and every global environment
mapping, the job-level env contains exactly the stage bindings whose key is
absent from the global environment or bound there to a different (string)
value; an equal binding yields no entry, a differing one yields the stage's
value. -/
theorem C4_job_env_filter (genv senv : List (List Char × List Char))
    (k v : List Char) :
    (k, v) ∈ compute_job_env genv senv ↔
      ((k, v) ∈ senv ∧
        match alookup genv k with
        | none => True
        | some gv => gv ≠ v) := by
  rw [compute_job_env_eq_filter, List.mem_filter]
  cases halk : alookup genv k with
  | none => simp [halk]
  | some gv => simp [halk, bne_iff_ne]

theorem C4_witness :
    ((liftStr "K", liftStr "v2") ∈
        compute_job_env [(liftStr "K", liftStr "v1")] [(liftStr "K", liftStr "v2")]) ∧
    ¬ ((liftStr "J", liftStr "x") ∈
        compute_job_env [(liftStr "J", liftStr "x")] [(liftStr "J", liftStr "x")]) := by
  constructor
  · exact (C4_job_env_filter _ _ _ _).mpr
      ⟨by decide, show liftStr "v1" ≠ liftStr "v2" by decide⟩
  · intro h
    have h2 := (C4_job_env_filter _ _ _ _).mp h
    exact absurd rfl h2.2

theorem renderPostEntry_archive (stageName cond p : List Char) (d : PostData)
    (h : d.archive = some p) :
    ∃ st, st ∈ renderPostEntry stageName cond d ∧
      st.uses = some (liftStr "actions/upload-artifact@v4") ∧
      st.ifCond = some (condition_map cond) ∧
      (liftStr "path", p) ∈ st.withArgs := by
  refine ⟨{ stepName := some (liftStr "Upload artifacts (" ++ cond ++ liftStr ")")
            ifCond := some (condition_map cond)
            uses := some (liftStr "actions/upload-artifact@v4")
            withArgs := [(liftStr "name",
                           sanitize_name stageName ++ '-' :: cond ++ liftStr "-artifacts"),
                         (liftStr "path", p)]
            continueOnError := d.allowEmptyArchive == some true }, ?_, rfl, rfl, ?_⟩
  · unfold renderPostEntry
    rw [h]
    apply List.mem_append_left
    apply List.mem_append_left
    apply List.mem_append_left
    apply List.mem_append_left
    apply List.mem_append_left
    apply List.mem_append_left
    apply List.mem_append_left
    exact List.mem_singleton_self _
  · simp

/-- C7: an `archiveArtifacts` effect recorded under `always` is emitted as
an upload step whose condition is `always()`, and under `unstable` as an
upload step whose condition is `success() || failure()`
(`convert_post_actions_to_steps`, action_generator.py lines 249-280). -/
theorem C7_archive_conditions (stageName p pu : List Char) (d du : PostData)
    (post : List (List Char × PostData)) :
    ((liftStr "always", d) ∈ post → d.archive = some p →
      ∃ st, st ∈ convert_post_actions_to_steps post stageName ∧
        st.uses = some (liftStr "actions/upload-artifact@v4") ∧
        st.ifCond = some (liftStr "always()") ∧
        (liftStr "path", p) ∈ st.withArgs) ∧
    ((liftStr "unstable", du) ∈ post → du.archive = some pu →
      ∃ st, st ∈ convert_post_actions_to_steps post stageName ∧
        st.uses = some (liftStr "actions/upload-artifact@v4") ∧
        st.ifCond = some (liftStr "success() || failure()") ∧
        (liftStr "path", pu) ∈ st.withArgs) := by
  constructor
  · intro hmem harch
    obtain ⟨st, hstmem, h1, h2, h3⟩ :=
      renderPostEntry_archive stageName (liftStr "always") p d harch
    refine ⟨st, ?_, h1, ?_, h3⟩
    · unfold convert_post_actions_to_steps
      exact List.mem_flatMap.mpr ⟨(liftStr "always", d), hmem, hstmem⟩
    · rw [h2]; decide
  · intro hmem harch
    obtain ⟨st, hstmem, h1, h2, h3⟩ :=
      renderPostEntry_archive stageName (liftStr "unstable") pu du harch
    refine ⟨st, ?_, h1, ?_, h3⟩
    · unfold convert_post_actions_to_steps
      exact List.mem_flatMap.mpr ⟨(liftStr "unstable", du), hmem, hstmem⟩
    · rw [h2]; decide

set_option maxRecDepth 40000 in
theorem C7_archive_conditions_witness :
    (∃ st, st ∈ convert_post_actions_to_steps exC7post (liftStr "Build Stage") ∧
      st.uses = some (liftStr "actions/upload-artifact@v4") ∧
      st.ifCond = some (liftStr "always()") ∧
      (liftStr "path", liftStr "t/*.jar") ∈ st.withArgs) ∧
    (∃ st, st ∈ convert_post_actions_to_steps exC7post (liftStr "Build Stage") ∧
      st.uses = some (liftStr "actions/upload-artifact@v4") ∧
      st.ifCond = some (liftStr "success() || failure()") ∧
      (liftStr "path", liftStr "u/*.log") ∈ st.withArgs) :=
  ⟨(C7_archive_conditions (liftStr "Build Stage") (liftStr "t/*.jar")
      (liftStr "u/*.log") exC7d exC7du exC7post).1 (by decide) (by decide),
   (C7_archive_conditions (liftStr "Build Stage") (liftStr "t/*.jar")
      (liftStr "u/*.log") exC7d exC7du exC7post).2 (by decide) (by decide)⟩

set_option maxRecDepth 80000 in
theorem C6_counterexample :
    (extract_required_secrets_from_stage exC6body).map Prod.fst =
      [liftStr "docker-hub-username", liftStr "docker-hub-password",
       liftStr "docker-hub"] ∧
    ¬ ((extract_required_secrets_from_stage exC6body).length = 2) :=
  ⟨by decide, by decide⟩

/-- C6 (amended): a stage declaring exactly one `usernamePassword`
credential with source id `docker-hub` and no other credential or tool
construct yields exactly three declared inputs: the two required inputs
derived from the transformed id (`DOCKER_HUB`, rendered `docker-hub`) with
the fixed `-username`/`-password` suffixes, plus one optional input named by
the transformed id itself, added by the direct credentials-usage pass. -/
theorem C6_userpass_inputs (body uvar pvar cont : List Char)
    (h1 : extract_withCredentials_blocks body =
          [([CredType.userpass (liftStr "docker-hub") uvar pvar], cont)])
    (h2 : (extract_docker_steps body).any (fun st => match st with
            | .push _ => true | .login => true | _ => false) = false)
    (h3 : hasSubstr body (liftStr "docker login") = false)
    (h4 : extract_sonarqube_steps body = [])
    (h5 : hasSubstr body (liftStr "mail ") = false)
    (h6 : hasSubstr body (liftStr "emailext") = false)
    (h7 : hasSubstr body (liftStr "slackSend") = false)
    (h8 : extract_credentials_usage body = [liftStr "docker-hub"]) :
    (extract_required_secrets_from_stage body).map Prod.fst =
      [cred_input_name (liftStr "docker-hub") ++ liftStr "-username",
       cred_input_name (liftStr "docker-hub") ++ liftStr "-password",
       cred_input_name (liftStr "docker-hub")] := by
  simp only [extract_required_secrets_from_stage, h1, h2, h3, h4, h5, h6, h7, h8]
  rfl

set_option maxRecDepth 80000 in
theorem C6_userpass_inputs_witness :
    (extract_required_secrets_from_stage exC6body).map Prod.fst =
      [cred_input_name (liftStr "docker-hub") ++ liftStr "-username",
       cred_input_name (liftStr "docker-hub") ++ liftStr "-password",
       cred_input_name (liftStr "docker-hub")] :=
  C6_userpass_inputs exC6body (liftStr "DH_USER") (liftStr "DH_PASS")
    (liftStr "sh \x27make it\x27") (by decide) (by decide) (by decide) (by decide)
    (by decide) (by decide) (by decide) (by decide)

theorem alookup_append {α : Type} :
    ∀ (m l : List (List Char × α)) (k : List Char),
      alookup (m ++ l) k =
        match alookup m k with
        | some v => some v
        | none => alookup l k
  | [], l, k => by simp [alookup]
  | a :: m, l, k => by
    by_cases h : a.1 = k
    · simp [alookup, h]
    · simp only [List.cons_append, alookup, if_neg h]
      exact alookup_append m l k

theorem alookup_eq_none_of_not_mem {α : Type} :
    ∀ (m : List (List Char × α)) (k : List Char),
      k ∉ m.map Prod.fst → alookup m k = none
  | [], _, _ => rfl
  | (a1, a2) :: m, k, h => by
    rw [List.map_cons] at h
    have h1 : a1 ≠ k := fun he => h (List.mem_cons.mpr (Or.inl he.symm))
    have h2 : k ∉ m.map Prod.fst := fun hm => h (List.mem_cons.mpr (Or.inr hm))
    simp only [alookup]
    rw [if_neg h1]
    exact alookup_eq_none_of_not_mem m k h2

theorem alookup_map_upd_self {α : Type} (k : List Char) (v : α) :
    ∀ m : List (List Char × α), k ∈ m.map Prod.fst →
      alookup (m.map (fun p => if p.1 = k then (k, v) else p)) k = some v
  | [], h => absurd h (List.not_mem_nil k)
  | (a1, a2) :: m, h => by
    rw [List.map_cons] at h ⊢
    by_cases h1 : a1 = k
    · rw [show (if (a1, a2).1 = k then (k, v) else (a1, a2)) = (k, v) from if_pos h1]
      simp [alookup]
    · have h3 : k ∈ m.map Prod.fst := by
        rcases List.mem_cons.mp h with he | hm
        · exact absurd he.symm h1
        · exact hm
      rw [show (if (a1, a2).1 = k then (k, v) else (a1, a2)) = (a1, a2) from if_neg h1]
      simp only [alookup]
      rw [if_neg h1]
      exact alookup_map_upd_self k v m h3

theorem alookup_map_upd {α : Type} (k k' : List Char) (v : α) (hne : k ≠ k') :
    ∀ m : List (List Char × α),
      alookup (m.map (fun p => if p.1 = k then (k, v) else p)) k' = alookup m k'
  | [] => rfl
  | (a1, a2) :: m => by
    rw [List.map_cons]
    by_cases h : a1 = k
    · rw [show (if (a1, a2).1 = k then (k, v) else (a1, a2)) = (k, v) from if_pos h]
      simp only [alookup]
      rw [if_neg hne, if_neg (h ▸ hne : ¬ a1 = k')]
      exact alookup_map_upd k k' v hne m
    · rw [show (if (a1, a2).1 = k then (k, v) else (a1, a2)) = (a1, a2) from if_neg h]
      simp only [alookup]
      by_cases h2 : a1 = k'
      · rw [if_pos h2, if_pos h2]
      · rw [if_neg h2, if_neg h2]
        exact alookup_map_upd k k' v hne m

theorem alookup_dictUpsert_self {α : Type} (m : List (List Char × α))
    (k : List Char) (v : α) : alookup (dictUpsert m k v) k = some v := by
  unfold dictUpsert
  by_cases h : k ∈ m.map Prod.fst
  · rw [if_pos h]
    exact alookup_map_upd_self k v m h
  · rw [if_neg h]
    rw [alookup_append]
    rw [alookup_eq_none_of_not_mem m k h]
    simp [alookup]

theorem alookup_dictUpsert_ne {α : Type} (m : List (List Char × α))
    (k k' : List Char) (v : α) (hne : k ≠ k') :
    alookup (dictUpsert m k v) k' = alookup m k' := by
  unfold dictUpsert
  by_cases h : k ∈ m.map Prod.fst
  · rw [if_pos h]
    exact alookup_map_upd k k' v hne m
  · rw [if_neg h]
    rw [alookup_append]
    cases hm : alookup m k' with
    | some v' => rfl
    | none => simp [alookup, hne]

theorem alookup_foldl_insert_of_ne (genv : List (List Char × List Char))
    (dro : RunsOn) (dc : Option ContainerSpec) (up : Option (List Char)) :
    ∀ (subs : List (List Char × List Char)) (js : List (List Char × JobDef))
      (k : List Char), (∀ sub ∈ subs, gha_job_id sub.1 ≠ k) →
      alookup (subs.foldl (insertParallelMember genv dro dc up) js) k = alookup js k
  | [], _, _, _ => rfl
  | s0 :: rest, js, k, h => by
    rw [List.foldl_cons]
    rw [alookup_foldl_insert_of_ne genv dro dc up rest _ k
      (fun sub hs => h sub (List.mem_cons_of_mem _ hs))]
    exact alookup_dictUpsert_ne js (gha_job_id s0.1) k _ (h s0 (List.mem_cons_self _ _))

theorem mkParallelJob_needs (genv : List (List Char × List Char)) (dro : RunsOn)
    (dc : Option ContainerSpec) (up : Option (List Char)) (b : List Char) :
    (mkParallelJob genv dro dc up b).needs = parallelNeeds up := rfl

theorem foldl_insert_needs (genv : List (List Char × List Char)) (dro : RunsOn)
    (dc : Option ContainerSpec) (up : Option (List Char)) :
    ∀ (subs : List (List Char × List Char)) (js : List (List Char × JobDef))
      (sub : List Char × List Char), sub ∈ subs →
      ∃ jd, alookup (subs.foldl (insertParallelMember genv dro dc up) js)
              (gha_job_id sub.1) = some jd ∧
        jd.needs = parallelNeeds up
  | [], _, _, h => absurd h (List.not_mem_nil _)
  | s0 :: rest, js, sub, h => by
    rw [List.foldl_cons]
    by_cases hex : ∃ sub2, sub2 ∈ rest ∧ gha_job_id sub2.1 = gha_job_id sub.1
    · obtain ⟨sub2, h2mem, h2eq⟩ := hex
      obtain ⟨jd, hl, hn⟩ := foldl_insert_needs genv dro dc up rest _ sub2 h2mem
      exact ⟨jd, h2eq ▸ hl, hn⟩
    · push_neg at hex
      rw [alookup_foldl_insert_of_ne genv dro dc up rest _ _ hex]
      have hs0 : gha_job_id sub.1 = gha_job_id s0.1 := by
        rcases List.mem_cons.mp h with he | hmem
        · rw [he]
        · exact absurd rfl (hex sub hmem)
      rw [hs0]
      exact ⟨mkParallelJob genv dro dc up s0.2,
        alookup_dictUpsert_self js (gha_job_id s0.1) _, rfl⟩

/-- C1 (amended): whenever a stage holding a parallel block with members
`ms` is processed, one job is created per member, every member job getting
the same upstream cursor as dependency — the cursor being `prev_job_id` if a
sequential stage directly precedes, otherwise the last member id of a
directly preceding parallel group, otherwise nothing (`upstream_of`) — and
the sequential stage processed right after it gets a dependency list equal
to the list of all member job ids. -/
theorem C1_parallel_join (genv : List (List Char × List Char)) (dro : RunsOn)
    (dc : Option ContainerSpec) (s : ConvState)
    (stPar stC : List Char × List Char) (ms : List (List Char × List Char))
    (hpar : extract_parallel stPar.2 = ms) (hne : ms ≠ [])
    (hseq : extract_parallel stC.2 = []) :
    (∀ m ∈ ms, ∃ jd,
        alookup (convStep genv dro dc s stPar).jobs (gha_job_id m.1) = some jd ∧
        jd.needs = parallelNeeds (upstream_of s)) ∧
    (∃ jc,
        alookup (convStep genv dro dc (convStep genv dro dc s stPar) stC).jobs
          (gha_job_id stC.1) = some jc ∧
        jc.needs = some (.many (ms.map (fun m => gha_job_id m.1)))) := by
  have hms : ms.isEmpty = false := by
    cases ms with
    | nil => exact absurd rfl hne
    | cons a l => rfl
  have hstep1 : convStep genv dro dc s stPar =
      { jobs := ms.foldl (insertParallelMember genv dro dc (upstream_of s)) s.jobs
        lastJobIds := ms.map (fun sub => gha_job_id sub.1)
        prevJobId := [] } := by
    simp only [convStep, hpar, hms, Bool.false_eq_true, if_false]
  constructor
  · intro m hm
    rw [hstep1]
    exact foldl_insert_needs genv dro dc (upstream_of s) ms s.jobs m hm
  · rw [hstep1]
    simp only [convStep, hseq, List.isEmpty_nil, if_true]
    refine ⟨_, alookup_dictUpsert_self _ _ _, ?_⟩
    unfold mkSequentialJob
    have hmap : (ms.map (fun sub => gha_job_id sub.1)).isEmpty = false := by
      cases ms with
      | nil => exact absurd rfl hne
      | cons a l => rfl
    simp only [hmap, Bool.not_false, if_true]

set_option maxRecDepth 200000 in
theorem C1_parallel_join_witness :
    (∀ m ∈ extract_parallel exC1parStage.2, ∃ jd,
        alookup (convStep [] (.runner (liftStr "ubuntu-latest")) none
          ⟨[], [], []⟩ exC1parStage).jobs (gha_job_id m.1) = some jd ∧
        jd.needs = parallelNeeds (upstream_of ⟨[], [], []⟩)) ∧
    (∃ jc, alookup (convStep [] (.runner (liftStr "ubuntu-latest")) none
          (convStep [] (.runner (liftStr "ubuntu-latest")) none ⟨[], [], []⟩
            exC1parStage)
          exC1seqStage).jobs (gha_job_id exC1seqStage.1) = some jc ∧
        jc.needs = some (.many ((extract_parallel exC1parStage.2).map
          (fun m => gha_job_id m.1)))) :=
  C1_parallel_join [] (.runner (liftStr "ubuntu-latest")) none ⟨[], [], []⟩
    exC1parStage exC1seqStage (extract_parallel exC1parStage.2) rfl
    (by decide) (by decide)

set_option maxRecDepth 400000 in
theorem C1_counterexample :
    ((stagesListOf exC1).getD []).map Prod.fst =
      [liftStr "P1", liftStr "P2", liftStr "C"] ∧
    ((stagesListOf exC1).getD []).map
        (fun st => (extract_parallel st.2).map Prod.fst) =
      [[liftStr "A", liftStr "B"], [liftStr "D", liftStr "E"], []] ∧
    (match convert_jenkins_to_gha exC1 with
     | .ok w => some ((alookup w.jobs (liftStr "d")).map JobDef.needs,
                      (alookup w.jobs (liftStr "b")).map JobDef.needs)
     | .error _ => none) =
      some (some (some (.one (liftStr "b"))), some none) :=
  ⟨by decide, by decide, by decide⟩

theorem jobKeys_map_upd {α : Type} (k : List Char) (v : α) :
    ∀ m : List (List Char × α),
      (m.map (fun p => if p.1 = k then (k, v) else p)).map Prod.fst =
        m.map Prod.fst
  | [] => rfl
  | (a1, a2) :: m => by
    rw [List.map_cons, List.map_cons, List.map_cons]
    by_cases h : a1 = k
    · rw [show (if (a1, a2).1 = k then (k, v) else (a1, a2)) = (k, v) from if_pos h]
      rw [jobKeys_map_upd k v m]
      simp [h]
    · rw [show (if (a1, a2).1 = k then (k, v) else (a1, a2)) = (a1, a2) from if_neg h]
      rw [jobKeys_map_upd k v m]

theorem keys_dictUpsert {α : Type} (m : List (List Char × α)) (k : List Char)
    (v : α) :
    (dictUpsert m k v).map Prod.fst =
      if k ∈ m.map Prod.fst then m.map Prod.fst else m.map Prod.fst ++ [k] := by
  unfold dictUpsert
  by_cases h : k ∈ m.map Prod.fst
  · rw [if_pos h, if_pos h]
    exact jobKeys_map_upd k v m
  · rw [if_neg h, if_neg h]
    simp

theorem mem_keys_dictUpsert_of_mem {α : Type} {m : List (List Char × α)}
    {x : List Char} (k : List Char) (v : α) (hx : x ∈ m.map Prod.fst) :
    x ∈ (dictUpsert m k v).map Prod.fst := by
  rw [keys_dictUpsert]
  by_cases h : k ∈ m.map Prod.fst
  · rwa [if_pos h]
  · rw [if_neg h]
    exact List.mem_append_left _ hx

theorem self_mem_keys_dictUpsert {α : Type} (m : List (List Char × α))
    (k : List Char) (v : α) : k ∈ (dictUpsert m k v).map Prod.fst := by
  rw [keys_dictUpsert]
  by_cases h : k ∈ m.map Prod.fst
  · rwa [if_pos h]
  · rw [if_neg h]
    exact List.mem_append_right _ (List.mem_singleton_self k)

theorem mem_dictUpsert_cases {α : Type} {m : List (List Char × α)}
    {k : List Char} {v : α} {e : List Char × α} (he : e ∈ dictUpsert m k v) :
    e = (k, v) ∨ e ∈ m := by
  unfold dictUpsert at he
  by_cases h : k ∈ m.map Prod.fst
  · rw [if_pos h] at he
    rcases List.mem_map.mp he with ⟨p, hp, hfe⟩
    by_cases hpk : p.1 = k
    · rw [if_pos hpk] at hfe
      exact Or.inl hfe.symm
    · rw [if_neg hpk] at hfe
      exact Or.inr (hfe ▸ hp)
  · rw [if_neg h] at he
    rcases List.mem_append.mp he with hm | hk
    · exact Or.inr hm
    · exact Or.inl (List.mem_singleton.mp hk)

/-- The structural invariant carried through the stage loop: every recorded
dependency refers to an existing job key, and the cursor
(`last_job_ids`/`prev_job_id`) refers to existing job keys. -/
def StateOK (s : ConvState) : Prop :=
  (∀ e ∈ s.jobs, ∀ x ∈ needsIds e.2.needs, x ∈ s.jobs.map Prod.fst) ∧
  (∀ x ∈ s.lastJobIds, x ∈ s.jobs.map Prod.fst) ∧
  (s.prevJobId ≠ [] → s.prevJobId ∈ s.jobs.map Prod.fst)

theorem mkSequentialJob_needs (genv : List (List Char × List Char))
    (dro : RunsOn) (dc : Option ContainerSpec) (s : ConvState)
    (n b : List Char) :
    (mkSequentialJob genv dro dc s n b).needs =
      (if !s.lastJobIds.isEmpty then some (.many s.lastJobIds)
       else if !s.prevJobId.isEmpty then some (.one s.prevJobId)
       else none) := rfl

theorem needsIds_parallelNeeds_sub (s : ConvState) (hok : StateOK s) :
    ∀ x ∈ needsIds (parallelNeeds (upstream_of s)), x ∈ s.jobs.map Prod.fst := by
  intro x hx
  unfold parallelNeeds upstream_of at hx
  by_cases hp : !s.prevJobId.isEmpty
  · rw [if_pos hp] at hx
    have hpne : s.prevJobId ≠ [] := by
      intro hnil
      rw [hnil] at hp
      simp at hp
    have hpe : s.prevJobId.isEmpty = false := by
      cases hb : s.prevJobId.isEmpty
      · rfl
      · rw [hb] at hp; simp at hp
    simp only [hpe, Bool.false_eq_true, if_false, needsIds,
      List.mem_singleton] at hx
    exact hx ▸ hok.2.2 hpne
  · rw [if_neg hp] at hx
    cases hl : s.lastJobIds.getLast? with
    | none =>
      rw [hl] at hx
      simp only [needsIds] at hx
      exact absurd hx (List.not_mem_nil x)
    | some u =>
      rw [hl] at hx
      by_cases hue : u.isEmpty
      · simp [hue, needsIds] at hx
      · have hue' : u.isEmpty = false := by
          cases hb : u.isEmpty
          · rfl
          · exact absurd hb hue
        simp only [hue', Bool.false_eq_true, if_false, needsIds,
          List.mem_singleton] at hx
        exact hx ▸ hok.2.1 u (List.mem_of_getLast?_eq_some hl)

theorem parallel_fold_ok (genv : List (List Char × List Char)) (dro : RunsOn)
    (dc : Option ContainerSpec) (up : Option (List Char)) :
    ∀ (subs : List (List Char × List Char)) (js : List (List Char × JobDef)),
      (∀ e ∈ js, ∀ x ∈ needsIds e.2.needs, x ∈ js.map Prod.fst) →
      (∀ x ∈ needsIds (parallelNeeds up), x ∈ js.map Prod.fst) →
      (∀ e ∈ subs.foldl (insertParallelMember genv dro dc up) js,
          ∀ x ∈ needsIds e.2.needs,
            x ∈ (subs.foldl (insertParallelMember genv dro dc up) js).map Prod.fst) ∧
      (∀ x ∈ js.map Prod.fst,
          x ∈ (subs.foldl (insertParallelMember genv dro dc up) js).map Prod.fst) ∧
      (∀ sub ∈ subs, gha_job_id sub.1 ∈
          (subs.foldl (insertParallelMember genv dro dc up) js).map Prod.fst)
  | [], js, hjs, _ => ⟨hjs, fun _ hx => hx, fun _ h => absurd h (List.not_mem_nil _)⟩
  | s0 :: rest, js, hjs, hup => by
    rw [List.foldl_cons]
    have hkmono : ∀ x ∈ js.map Prod.fst,
        x ∈ (insertParallelMember genv dro dc up js s0).map Prod.fst :=
      fun x hx => mem_keys_dictUpsert_of_mem _ _ hx
    have hjs' : ∀ e ∈ insertParallelMember genv dro dc up js s0,
        ∀ x ∈ needsIds e.2.needs,
          x ∈ (insertParallelMember genv dro dc up js s0).map Prod.fst := by
      intro e he x hx
      rcases mem_dictUpsert_cases he with rfl | hein
      · exact hkmono x (hup x hx)
      · exact hkmono x (hjs e hein x hx)
    have hup' : ∀ x ∈ needsIds (parallelNeeds up),
        x ∈ (insertParallelMember genv dro dc up js s0).map Prod.fst :=
      fun x hx => hkmono x (hup x hx)
    obtain ⟨p1, p2, p3⟩ := parallel_fold_ok genv dro dc up rest _ hjs' hup'
    refine ⟨p1, fun x hx => p2 x (hkmono x hx), ?_⟩
    intro sub hsub
    rcases List.mem_cons.mp hsub with rfl | hmem
    · exact p2 _ (self_mem_keys_dictUpsert js _ _)
    · exact p3 sub hmem

theorem stateOK_convStep (genv : List (List Char × List Char)) (dro : RunsOn)
    (dc : Option ContainerSpec) (s : ConvState) (st : List Char × List Char)
    (hok : StateOK s) : StateOK (convStep genv dro dc s st) := by
  by_cases h : (extract_parallel st.2).isEmpty
  · have hstep : convStep genv dro dc s st =
        { jobs := dictUpsert s.jobs (gha_job_id st.1)
            (mkSequentialJob genv dro dc s st.1 st.2)
          lastJobIds := []
          prevJobId := gha_job_id st.1 } := by
      simp only [convStep, h, if_true]
    rw [hstep]
    refine ⟨?_, ?_, ?_⟩
    · intro e he x hx
      rcases mem_dictUpsert_cases he with rfl | hein
      · rw [mkSequentialJob_needs] at hx
        by_cases hl : !s.lastJobIds.isEmpty
        · rw [if_pos hl] at hx
          simp only [needsIds] at hx
          exact mem_keys_dictUpsert_of_mem _ _ (hok.2.1 x hx)
        · rw [if_neg hl] at hx
          by_cases hpv : !s.prevJobId.isEmpty
          · rw [if_pos hpv] at hx
            simp only [needsIds, List.mem_singleton] at hx
            have hpne : s.prevJobId ≠ [] := by
              intro hnil
              rw [hnil] at hpv
              simp at hpv
            exact hx ▸ mem_keys_dictUpsert_of_mem _ _ (hok.2.2 hpne)
          · rw [if_neg hpv] at hx
            simp only [needsIds] at hx
            exact absurd hx (List.not_mem_nil x)
      · exact mem_keys_dictUpsert_of_mem _ _ (hok.1 e hein x hx)
    · intro x hx
      exact absurd hx (List.not_mem_nil x)
    · intro _
      exact self_mem_keys_dictUpsert _ _ _
  · have hstep : convStep genv dro dc s st =
        { jobs := (extract_parallel st.2).foldl
            (insertParallelMember genv dro dc (upstream_of s)) s.jobs
          lastJobIds := (extract_parallel st.2).map (fun sub => gha_job_id sub.1)
          prevJobId := [] } := by
      have h' : (extract_parallel st.2).isEmpty = false := by
        cases hb : (extract_parallel st.2).isEmpty
        · rfl
        · exact absurd hb h
      simp only [convStep, h', Bool.false_eq_true, if_false]
    rw [hstep]
    obtain ⟨p1, p2, p3⟩ := parallel_fold_ok genv dro dc (upstream_of s)
      (extract_parallel st.2) s.jobs hok.1 (needsIds_parallelNeeds_sub s hok)
    refine ⟨p1, ?_, ?_⟩
    · intro x hx
      rcases List.mem_map.mp hx with ⟨sub, hsub, he⟩
      exact he ▸ p3 sub hsub
    · intro hne
      exact absurd rfl hne

theorem stateOK_foldl (genv : List (List Char × List Char)) (dro : RunsOn)
    (dc : Option ContainerSpec) :
    ∀ (stages : List (List Char × List Char)) (s : ConvState),
      StateOK s → StateOK (stages.foldl (convStep genv dro dc) s)
  | [], _, hok => hok
  | st :: rest, s, hok => by
    rw [List.foldl_cons]
    exact stateOK_foldl genv dro dc rest _ (stateOK_convStep genv dro dc s st hok)

theorem validNeeds_attach (dro : RunsOn) (dc : Option ContainerSpec)
    (post : List (List Char × PostData)) (jobs : List (List Char × JobDef))
    (hjs : ∀ e ∈ jobs, ∀ x ∈ needsIds e.2.needs, x ∈ jobs.map Prod.fst) :
    ∀ e ∈ attachPipelinePost dro dc post jobs, ∀ x ∈ needsIds e.2.needs,
      x ∈ (attachPipelinePost dro dc post jobs).map Prod.fst := by
  unfold attachPipelinePost
  by_cases hpe : post.isEmpty
  · rw [if_pos hpe]
    exact hjs
  · rw [if_neg hpe]
    by_cases hlen : (checkoutStep :: renderPipelinePost post).length > 1
    · rw [if_pos hlen]
      intro e he x hx
      rcases mem_dictUpsert_cases he with rfl | hein
      · simp only [needsIds] at hx
        rcases List.mem_filter.mp hx with ⟨hxk, _⟩
        exact mem_keys_dictUpsert_of_mem _ _ hxk
      · exact mem_keys_dictUpsert_of_mem _ _ (hjs e hein x hx)
    · rw [if_neg hlen]
      exact hjs

theorem convert_eq_error_noPipeline (t : List Char)
    (hp : find_block (strip_comments t) (liftStr "pipeline") = none) :
    convert_jenkins_to_gha t = .error errNoPipeline := by
  simp only [convert_jenkins_to_gha, hp]

theorem convert_eq_error_noStages (t : List Char) (pb : Nat × Nat)
    (hp : find_block (strip_comments t) (liftStr "pipeline") = some pb)
    (hs : find_block (sliceL (strip_comments t) pb.1 pb.2)
          (liftStr "stages") = none) :
    convert_jenkins_to_gha t = .error errNoStages := by
  simp only [convert_jenkins_to_gha, hp, hs]

theorem convert_eq_ok (t : List Char) (pb sb : Nat × Nat)
    (hp : find_block (strip_comments t) (liftStr "pipeline") = some pb)
    (hs : find_block (sliceL (strip_comments t) pb.1 pb.2)
          (liftStr "stages") = some sb) :
    convert_jenkins_to_gha t =
      (let body := sliceL (strip_comments t) pb.1 pb.2
       let genv :=
         match find_block body (liftStr "environment") with
         | some e => extract_env_kv (sliceL body e.1 e.2)
         | none => []
       let defs := defaultsOf (extract_global_agent body)
       .ok { env := genv
             jobs := attachPipelinePost defs.1 defs.2
               (extract_pipeline_post body)
               ((split_stages (sliceL body sb.1 sb.2)).foldl
                 (convStep genv defs.1 defs.2) ⟨[], [], []⟩).jobs }) := by
  simp only [convert_jenkins_to_gha, hp, hs]

/-- C3: conversion fails with a fatal input error exactly when the
comment-stripped input lacks a balanced `pipeline { ... }` block, or lacks a
`stages { ... }` block inside it; the absence of any other construct never
aborts the pure conversion, which then returns a workflow in which every
job refers in `needs` only to jobs that exist. -/
theorem C3_fatal_errors (t : List Char) :
    ((∃ e, convert_jenkins_to_gha t = .error e) ↔
      (find_block (strip_comments t) (liftStr "pipeline") = none ∨
       ∃ a b, find_block (strip_comments t) (liftStr "pipeline") = some (a, b) ∧
         find_block (sliceL (strip_comments t) a b) (liftStr "stages") = none)) ∧
    (∀ w, convert_jenkins_to_gha t = .ok w →
      ∀ e ∈ w.jobs, ∀ x ∈ needsIds e.2.needs, x ∈ w.jobs.map Prod.fst) := by
  have hinit : StateOK ⟨[], [], []⟩ :=
    ⟨fun e he => absurd he (List.not_mem_nil e),
     fun x hx => absurd hx (List.not_mem_nil x),
     fun h => absurd rfl h⟩
  cases hp : find_block (strip_comments t) (liftStr "pipeline") with
  | none =>
    refine ⟨⟨fun _ => Or.inl rfl,
             fun _ => ⟨errNoPipeline, convert_eq_error_noPipeline t hp⟩⟩, ?_⟩
    intro w hw
    rw [convert_eq_error_noPipeline t hp] at hw
    exact Except.noConfusion hw
  | some pb =>
    cases hs : find_block (sliceL (strip_comments t) pb.1 pb.2)
        (liftStr "stages") with
    | none =>
      have he := convert_eq_error_noStages t pb hp hs
      refine ⟨⟨fun _ => Or.inr ⟨pb.1, pb.2, rfl, hs⟩,
               fun _ => ⟨errNoStages, he⟩⟩, ?_⟩
      intro w hw
      rw [he] at hw
      exact Except.noConfusion hw
    | some sb =>
      have hok := convert_eq_ok t pb sb hp hs
      constructor
      · constructor
        · rintro ⟨e, hee⟩
          rw [hok] at hee
          exact Except.noConfusion hee
        · rintro (h1 | ⟨a', b', heq, hs'⟩)
          · exact Option.noConfusion h1
          · injection heq with heq2
            subst heq2
            exact Option.noConfusion (hs'.symm.trans hs)
      · intro w hw
        rw [hok] at hw
        injection hw with hw2
        subst hw2
        exact validNeeds_attach _ _ _ _
          (stateOK_foldl _ _ _ _ ⟨[], [], []⟩ hinit).1

set_option maxRecDepth 100000 in
theorem C3_fatal_errors_witness :
    (∃ e, convert_jenkins_to_gha exC3bad = .error e) ∧
    (∀ e ∈ ((convert_jenkins_to_gha exC3good).toOption.getD ⟨[], []⟩).jobs,
      ∀ x ∈ needsIds e.2.needs,
        x ∈ ((convert_jenkins_to_gha exC3good).toOption.getD
              ⟨[], []⟩).jobs.map Prod.fst) := by
  constructor
  · exact (C3_fatal_errors exC3bad).1.mpr (Or.inl (by decide))
  · cases hw : convert_jenkins_to_gha exC3good with
    | error e =>
      intro e2 he _ _
      exact absurd he (List.not_mem_nil e2)
    | ok w =>
      intro e2 he x hx
      exact (C3_fatal_errors exC3good).2 w hw e2 he x hx

theorem dictUpsert_fresh {α : Type} (m : List (List Char × α)) (k : List Char)
    (v : α) (h : k ∉ m.map Prod.fst) : dictUpsert m k v = m ++ [(k, v)] := by
  unfold dictUpsert
  rw [if_neg h]

theorem contains_of_mem {x : List Char} {xs : List (List Char)}
    (h : x ∈ xs) : xs.contains x = true := by
  induction xs with
  | nil => exact absurd h (List.not_mem_nil x)
  | cons a t ih =>
    rcases List.mem_cons.mp h with rfl | hm
    · simp [List.contains_cons]
    · rw [List.contains_cons, ih hm, Bool.or_true]

theorem orderedNeedsGo_append :
    ∀ (js1 : List (List Char × JobDef)) (seen : List (List Char))
      (js2 : List (List Char × JobDef)),
      orderedNeedsGo seen (js1 ++ js2) =
        (orderedNeedsGo seen js1 && orderedNeedsGo (seen ++ jobKeys js1) js2)
  | [], seen, js2 => by
    simp [orderedNeedsGo, jobKeys]
  | e :: rest, seen, js2 => by
    have hl : (seen ++ [e.1]) ++ jobKeys rest = seen ++ jobKeys (e :: rest) := by
      rw [List.append_assoc]
      rfl
    simp only [List.cons_append, List.append_eq, orderedNeedsGo]
    rw [orderedNeedsGo_append rest (seen ++ [e.1]) js2, hl, Bool.and_assoc]

theorem orderedNeedsB_append_one (js : List (List Char × JobDef))
    (e : List Char × JobDef) (hjs : orderedNeedsB js = true)
    (hne : ∀ x ∈ needsIds e.2.needs, x ∈ jobKeys js) :
    orderedNeedsB (js ++ [e]) = true := by
  unfold orderedNeedsB at *
  rw [orderedNeedsGo_append js [] [e], hjs]
  simp only [Bool.true_and, orderedNeedsGo, List.nil_append, Bool.and_true]
  exact List.all_eq_true.mpr (fun x hx => contains_of_mem (hne x hx))

theorem needsIds_mkSequentialJob_sub (genv : List (List Char × List Char))
    (dro : RunsOn) (dc : Option ContainerSpec) (s : ConvState)
    (n b : List Char) (hok : StateOK s) :
    ∀ x ∈ needsIds (mkSequentialJob genv dro dc s n b).needs,
      x ∈ s.jobs.map Prod.fst := by
  intro x hx
  rw [mkSequentialJob_needs] at hx
  by_cases hl : !s.lastJobIds.isEmpty
  · rw [if_pos hl] at hx
    simp only [needsIds] at hx
    exact hok.2.1 x hx
  · rw [if_neg hl] at hx
    by_cases hpv : !s.prevJobId.isEmpty
    · rw [if_pos hpv] at hx
      simp only [needsIds, List.mem_singleton] at hx
      have hpne : s.prevJobId ≠ [] := by
        intro hnil
        rw [hnil] at hpv
        simp at hpv
      exact hx ▸ hok.2.2 hpne
    · rw [if_neg hpv] at hx
      simp only [needsIds] at hx
      exact absurd hx (List.not_mem_nil x)

theorem forestIds_singleton (st : List Char × List Char) :
    forestIds [st] =
      (if (extract_parallel st.2).isEmpty then [gha_job_id st.1]
       else (extract_parallel st.2).map (fun sub => gha_job_id sub.1)) := by
  simp only [forestIds, forestNames, List.flatMap_cons, List.flatMap_nil,
    List.append_nil]
  by_cases h : (extract_parallel st.2).isEmpty
  · rw [if_pos h, if_pos h]
    rfl
  · rw [if_neg h, if_neg h, List.map_map]
    rfl

theorem forestIds_cons (st : List Char × List Char)
    (rest : List (List Char × List Char)) :
    forestIds (st :: rest) = forestIds [st] ++ forestIds rest := by
  simp only [forestIds, forestNames, List.flatMap_cons, List.flatMap_nil,
    List.append_nil, List.map_append]

theorem ordered_parallel_fold (genv : List (List Char × List Char))
    (dro : RunsOn) (dc : Option ContainerSpec) (up : Option (List Char)) :
    ∀ (subs : List (List Char × List Char)) (js : List (List Char × JobDef)),
      orderedNeedsB js = true →
      (∀ x ∈ needsIds (parallelNeeds up), x ∈ jobKeys js) →
      (jobKeys js ++ subs.map (fun sub => gha_job_id sub.1)).Nodup →
      jobKeys (subs.foldl (insertParallelMember genv dro dc up) js) =
        jobKeys js ++ subs.map (fun sub => gha_job_id sub.1) ∧
      orderedNeedsB (subs.foldl (insertParallelMember genv dro dc up) js) = true
  | [], js, hord, _, _ => ⟨by simp [jobKeys], hord⟩
  | s0 :: rest, js, hord, hup, hnd => by
    rw [List.foldl_cons]
    rw [List.map_cons] at hnd
    have hfresh : gha_job_id s0.1 ∉ jobKeys js := by
      intro hmem
      exact (List.nodup_append.mp hnd).2.2 hmem
        (List.mem_cons_self _ _)
    have hins : insertParallelMember genv dro dc up js s0 =
        js ++ [(gha_job_id s0.1, mkParallelJob genv dro dc up s0.2)] := by
      unfold insertParallelMember
      exact dictUpsert_fresh _ _ _ hfresh
    rw [hins]
    have hkeys : jobKeys (js ++ [(gha_job_id s0.1,
        mkParallelJob genv dro dc up s0.2)]) = jobKeys js ++ [gha_job_id s0.1] := by
      simp [jobKeys]
    have hord' : orderedNeedsB (js ++ [(gha_job_id s0.1,
        mkParallelJob genv dro dc up s0.2)]) = true := by
      apply orderedNeedsB_append_one js _ hord
      intro x hx
      rw [mkParallelJob_needs] at hx
      exact hup x hx
    have hup' : ∀ x ∈ needsIds (parallelNeeds up),
        x ∈ jobKeys (js ++ [(gha_job_id s0.1,
          mkParallelJob genv dro dc up s0.2)]) := by
      intro x hx
      rw [hkeys]
      exact List.mem_append_left _ (hup x hx)
    have hnd' : (jobKeys (js ++ [(gha_job_id s0.1,
        mkParallelJob genv dro dc up s0.2)]) ++
        rest.map (fun sub => gha_job_id sub.1)).Nodup := by
      rw [hkeys, List.append_assoc]
      exact hnd
    obtain ⟨hk2, ho2⟩ := ordered_parallel_fold genv dro dc up rest _ hord' hup' hnd'
    refine ⟨?_, ho2⟩
    rw [hk2, hkeys, List.append_assoc]
    rfl

theorem ordered_convStep (genv : List (List Char × List Char)) (dro : RunsOn)
    (dc : Option ContainerSpec) (s : ConvState) (st : List Char × List Char)
    (hok : StateOK s) (hord : orderedNeedsB s.jobs = true)
    (hnd : (jobKeys s.jobs ++ forestIds [st]).Nodup) :
    jobKeys (convStep genv dro dc s st).jobs =
      jobKeys s.jobs ++ forestIds [st] ∧
    orderedNeedsB (convStep genv dro dc s st).jobs = true := by
  by_cases h : (extract_parallel st.2).isEmpty
  · have hfid : forestIds [st] = [gha_job_id st.1] := by
      rw [forestIds_singleton, if_pos h]
    have hstep : convStep genv dro dc s st =
        { jobs := dictUpsert s.jobs (gha_job_id st.1)
            (mkSequentialJob genv dro dc s st.1 st.2)
          lastJobIds := []
          prevJobId := gha_job_id st.1 } := by
      simp only [convStep, h, if_true]
    rw [hstep, hfid]
    rw [hfid] at hnd
    have hfresh : gha_job_id st.1 ∉ jobKeys s.jobs := by
      intro hmem
      exact (List.nodup_append.mp hnd).2.2 hmem (List.mem_singleton_self _)
    rw [dictUpsert_fresh _ _ _ hfresh]
    constructor
    · simp [jobKeys]
    · apply orderedNeedsB_append_one _ _ hord
      intro x hx
      exact needsIds_mkSequentialJob_sub genv dro dc s st.1 st.2 hok x hx
  · have h' : (extract_parallel st.2).isEmpty = false := by
      cases hb : (extract_parallel st.2).isEmpty
      · rfl
      · exact absurd hb h
    have hfid : forestIds [st] =
        (extract_parallel st.2).map (fun sub => gha_job_id sub.1) := by
      rw [forestIds_singleton, if_neg h]
    have hstep : convStep genv dro dc s st =
        { jobs := (extract_parallel st.2).foldl
            (insertParallelMember genv dro dc (upstream_of s)) s.jobs
          lastJobIds := (extract_parallel st.2).map (fun sub => gha_job_id sub.1)
          prevJobId := [] } := by
      simp only [convStep, h', Bool.false_eq_true, if_false]
    rw [hstep, hfid]
    rw [hfid] at hnd
    exact ordered_parallel_fold genv dro dc (upstream_of s)
      (extract_parallel st.2) s.jobs hord
      (needsIds_parallelNeeds_sub s hok) hnd

theorem ordered_foldl (genv : List (List Char × List Char)) (dro : RunsOn)
    (dc : Option ContainerSpec) :
    ∀ (stages : List (List Char × List Char)) (s : ConvState),
      StateOK s → orderedNeedsB s.jobs = true →
      (jobKeys s.jobs ++ forestIds stages).Nodup →
      jobKeys ((stages.foldl (convStep genv dro dc) s).jobs) =
        jobKeys s.jobs ++ forestIds stages ∧
      orderedNeedsB ((stages.foldl (convStep genv dro dc) s).jobs) = true
  | [], s, _, hord, _ => ⟨by simp [forestIds, forestNames], hord⟩
  | st :: rest, s, hok, hord, hnd => by
    rw [List.foldl_cons]
    rw [forestIds_cons] at hnd
    have hnd1 : (jobKeys s.jobs ++ forestIds [st]).Nodup :=
      List.Nodup.sublist
        (List.Sublist.append_left (List.sublist_append_left _ _) _) hnd
    obtain ⟨hk1, ho1⟩ := ordered_convStep genv dro dc s st hok hord hnd1
    have hok' := stateOK_convStep genv dro dc s st hok
    have hnd' : (jobKeys (convStep genv dro dc s st).jobs ++
        forestIds rest).Nodup := by
      rw [hk1, List.append_assoc]
      exact hnd
    obtain ⟨hk2, ho2⟩ := ordered_foldl genv dro dc rest _ hok' ho1 hnd'
    refine ⟨?_, ho2⟩
    rw [hk2, hk1, List.append_assoc, forestIds_cons st rest]

theorem ordered_attach (dro : RunsOn) (dc : Option ContainerSpec)
    (post : List (List Char × PostData)) (jobs : List (List Char × JobDef))
    (hord : orderedNeedsB jobs = true)
    (hpp : liftStr "pipeline-post" ∉ jobKeys jobs) :
    orderedNeedsB (attachPipelinePost dro dc post jobs) = true := by
  unfold attachPipelinePost
  by_cases hpe : post.isEmpty
  · rw [if_pos hpe]
    exact hord
  · rw [if_neg hpe]
    by_cases hlen : (checkoutStep :: renderPipelinePost post).length > 1
    · rw [if_pos hlen]
      rw [dictUpsert_fresh _ _ _ hpp]
      apply orderedNeedsB_append_one _ _ hord
      intro x hx
      simp only [needsIds] at hx
      exact (List.mem_filter.mp hx).1
    · rw [if_neg hlen]
      exact hord

theorem stagesListOf_eq (t : List Char) (pb sb : Nat × Nat)
    (hp : find_block (strip_comments t) (liftStr "pipeline") = some pb)
    (hs : find_block (sliceL (strip_comments t) pb.1 pb.2)
          (liftStr "stages") = some sb) :
    stagesListOf t = some (split_stages
      (sliceL (sliceL (strip_comments t) pb.1 pb.2) sb.1 sb.2)) := by
  simp [stagesListOf, pipelineBodyOf, hp, hs]

/-- C5 (amended): provided the job ids derived from the stage forest are
pairwise distinct and none equals the reserved id `pipeline-post`, every
job of the produced workflow draws its `needs` only from jobs inserted
strictly earlier in the jobs dictionary — so the dependency graph is
acyclic, and in particular no job depends on the final `pipeline-post`
job.  (Duplicate stage names break the claim: see the counterexample.) -/
theorem C5_acyclic (t : List Char) (w : GhaWorkflow)
    (hw : convert_jenkins_to_gha t = .ok w)
    (hnodup : (forestIdsOf t).Nodup)
    (hpp : liftStr "pipeline-post" ∉ forestIdsOf t) :
    orderedNeedsB w.jobs = true := by
  cases hp : find_block (strip_comments t) (liftStr "pipeline") with
  | none =>
    rw [convert_eq_error_noPipeline t hp] at hw
    exact Except.noConfusion hw
  | some pb =>
    cases hs : find_block (sliceL (strip_comments t) pb.1 pb.2)
        (liftStr "stages") with
    | none =>
      rw [convert_eq_error_noStages t pb hp hs] at hw
      exact Except.noConfusion hw
    | some sb =>
      rw [convert_eq_ok t pb sb hp hs] at hw
      injection hw with hw2
      have hinit : StateOK ⟨[], [], []⟩ :=
        ⟨fun e he => absurd he (List.not_mem_nil e),
         fun x hx => absurd hx (List.not_mem_nil x),
         fun h => absurd rfl h⟩
      have hstages : forestIds (split_stages
          (sliceL (sliceL (strip_comments t) pb.1 pb.2) sb.1 sb.2)) =
          forestIdsOf t := by
        rw [forestIdsOf, stagesListOf_eq t pb sb hp hs]
        rfl
      have hnd0 : (jobKeys (ConvState.mk [] [] []).jobs ++
          forestIds (split_stages
            (sliceL (sliceL (strip_comments t) pb.1 pb.2) sb.1 sb.2))).Nodup := by
        have h2 : (forestIds (split_stages
            (sliceL (sliceL (strip_comments t) pb.1 pb.2) sb.1 sb.2))).Nodup := by
          rw [hstages]
          exact hnodup
        exact h2
      obtain ⟨hk, ho⟩ := ordered_foldl
        (match find_block (sliceL (strip_comments t) pb.1 pb.2)
            (liftStr "environment") with
         | some e => extract_env_kv
             (sliceL (sliceL (strip_comments t) pb.1 pb.2) e.1 e.2)
         | none => [])
        (defaultsOf (extract_global_agent
          (sliceL (strip_comments t) pb.1 pb.2))).1
        (defaultsOf (extract_global_agent
          (sliceL (strip_comments t) pb.1 pb.2))).2
        (split_stages (sliceL (sliceL (strip_comments t) pb.1 pb.2) sb.1 sb.2))
        ⟨[], [], []⟩ hinit rfl hnd0
      have hppk : liftStr "pipeline-post" ∉ jobKeys
          ((split_stages (sliceL (sliceL (strip_comments t) pb.1 pb.2)
              sb.1 sb.2)).foldl
            (convStep
              (match find_block (sliceL (strip_comments t) pb.1 pb.2)
                  (liftStr "environment") with
               | some e => extract_env_kv
                   (sliceL (sliceL (strip_comments t) pb.1 pb.2) e.1 e.2)
               | none => [])
              (defaultsOf (extract_global_agent
                (sliceL (strip_comments t) pb.1 pb.2))).1
              (defaultsOf (extract_global_agent
                (sliceL (strip_comments t) pb.1 pb.2))).2)
            ⟨[], [], []⟩).jobs := by
        rw [hk]
        intro hmem
        rcases List.mem_append.mp hmem with h1 | h2
        · exact absurd h1 (List.not_mem_nil _)
        · rw [hstages] at h2
          exact hpp h2
      rw [← hw2]
      exact ordered_attach
        (defaultsOf (extract_global_agent
          (sliceL (strip_comments t) pb.1 pb.2))).1
        (defaultsOf (extract_global_agent
          (sliceL (strip_comments t) pb.1 pb.2))).2
        (extract_pipeline_post (sliceL (strip_comments t) pb.1 pb.2))
        _ ho hppk

set_option maxRecDepth 400000 in
theorem C5_counterexample :
    (convert_jenkins_to_gha exC5).toOption.map
        (fun w => (orderedNeedsB w.jobs,
          (alookup w.jobs (liftStr "a")).map JobDef.needs,
          (alookup w.jobs (liftStr "b")).map JobDef.needs)) =
      some (false, some (some (.one (liftStr "b"))),
            some (some (.one (liftStr "a")))) := by
  decide

set_option maxRecDepth 400000 in
theorem C5_acyclic_witness :
    (forestIdsOf exC5w).Nodup ∧
    liftStr "pipeline-post" ∉ forestIdsOf exC5w ∧
    orderedNeedsB ((convert_jenkins_to_gha exC5w).toOption.getD
      ⟨[], []⟩).jobs = true := by
  refine ⟨by decide, by decide, ?_⟩
  cases hw : convert_jenkins_to_gha exC5w with
  | error e => rfl
  | ok w => exact C5_acyclic exC5w w hw (by decide) (by decide)

theorem pipelinePostOf_eq (t : List Char) (pb : Nat × Nat)
    (hp : find_block (strip_comments t) (liftStr "pipeline") = some pb) :
    pipelinePostOf t =
      some (extract_pipeline_post (sliceL (strip_comments t) pb.1 pb.2)) := by
  simp [pipelinePostOf, pipelineBodyOf, hp]

theorem keys_parallel_fold_sub (genv : List (List Char × List Char))
    (dro : RunsOn) (dc : Option ContainerSpec) (up : Option (List Char)) :
    ∀ (subs : List (List Char × List Char)) (js : List (List Char × JobDef)),
      ∀ x ∈ jobKeys (subs.foldl (insertParallelMember genv dro dc up) js),
        x ∈ jobKeys js ++ subs.map (fun sub => gha_job_id sub.1)
  | [], js => fun x hx => List.mem_append_left _ hx
  | s0 :: rest, js => by
    rw [List.foldl_cons]
    intro x hx
    have hx2 := keys_parallel_fold_sub genv dro dc up rest _ x hx
    rcases List.mem_append.mp hx2 with h1 | h2
    · have h3 : x ∈ (insertParallelMember genv dro dc up js s0).map Prod.fst := h1
      unfold insertParallelMember at h3
      rw [keys_dictUpsert] at h3
      by_cases hm : gha_job_id s0.1 ∈ js.map Prod.fst
      · rw [if_pos hm] at h3
        exact List.mem_append_left _ h3
      · rw [if_neg hm] at h3
        rcases List.mem_append.mp h3 with h4 | h5
        · exact List.mem_append_left _ h4
        · rw [List.mem_singleton.mp h5, List.map_cons]
          exact List.mem_append_right _ (List.mem_cons_self _ _)
    · rw [List.map_cons]
      exact List.mem_append_right _ (List.mem_cons_of_mem _ h2)

theorem keys_convStep_sub (genv : List (List Char × List Char)) (dro : RunsOn)
    (dc : Option ContainerSpec) (s : ConvState) (st : List Char × List Char) :
    ∀ x ∈ jobKeys (convStep genv dro dc s st).jobs,
      x ∈ jobKeys s.jobs ++ forestIds [st] := by
  intro x hx
  by_cases h : (extract_parallel st.2).isEmpty
  · have hfid : forestIds [st] = [gha_job_id st.1] := by
      rw [forestIds_singleton, if_pos h]
    have hstep : convStep genv dro dc s st =
        { jobs := dictUpsert s.jobs (gha_job_id st.1)
            (mkSequentialJob genv dro dc s st.1 st.2)
          lastJobIds := []
          prevJobId := gha_job_id st.1 } := by
      simp only [convStep, h, if_true]
    rw [hstep] at hx
    rw [hfid]
    have h3 : x ∈ (dictUpsert s.jobs (gha_job_id st.1)
        (mkSequentialJob genv dro dc s st.1 st.2)).map Prod.fst := hx
    rw [keys_dictUpsert] at h3
    by_cases hm : gha_job_id st.1 ∈ s.jobs.map Prod.fst
    · rw [if_pos hm] at h3
      exact List.mem_append_left _ h3
    · rw [if_neg hm] at h3
      exact h3
  · have h' : (extract_parallel st.2).isEmpty = false := by
      cases hb : (extract_parallel st.2).isEmpty
      · rfl
      · exact absurd hb h
    have hfid : forestIds [st] =
        (extract_parallel st.2).map (fun sub => gha_job_id sub.1) := by
      rw [forestIds_singleton, if_neg h]
    have hstep : convStep genv dro dc s st =
        { jobs := (extract_parallel st.2).foldl
            (insertParallelMember genv dro dc (upstream_of s)) s.jobs
          lastJobIds := (extract_parallel st.2).map (fun sub => gha_job_id sub.1)
          prevJobId := [] } := by
      simp only [convStep, h', Bool.false_eq_true, if_false]
    rw [hstep] at hx
    rw [hfid]
    exact keys_parallel_fold_sub genv dro dc (upstream_of s)
      (extract_parallel st.2) s.jobs x hx

theorem keys_foldl_sub (genv : List (List Char × List Char)) (dro : RunsOn)
    (dc : Option ContainerSpec) :
    ∀ (stages : List (List Char × List Char)) (s : ConvState),
      ∀ x ∈ jobKeys ((stages.foldl (convStep genv dro dc) s).jobs),
        x ∈ jobKeys s.jobs ++ forestIds stages
  | [], s => fun x hx => List.mem_append_left _ hx
  | st :: rest, s => by
    rw [List.foldl_cons]
    intro x hx
    have hx2 := keys_foldl_sub genv dro dc rest _ x hx
    rcases List.mem_append.mp hx2 with h1 | h2
    · have h3 := keys_convStep_sub genv dro dc s st x h1
      rw [forestIds_cons st rest, ← List.append_assoc]
      exact List.mem_append_left _ h3
    · rw [forestIds_cons st rest, ← List.append_assoc]
      exact List.mem_append_right _ h2

theorem attach_appends (dro : RunsOn) (dc : Option ContainerSpec)
    (post : List (List Char × PostData)) (jobs : List (List Char × JobDef))
    (hne : renderPipelinePost post ≠ [])
    (hpp : liftStr "pipeline-post" ∉ jobKeys jobs) :
    attachPipelinePost dro dc post jobs =
      jobs ++ [(liftStr "pipeline-post",
        { jobName := some (liftStr "Pipeline Post Actions")
          runsOn := dro
          container := dc
          needs := some (.many (jobKeys jobs))
          ifCond := some (liftStr "always()")
          timeoutMinutes := 30
          steps := checkoutStep :: renderPipelinePost post })] := by
  have hpe : post.isEmpty = false := by
    cases post with
    | nil => exact absurd rfl hne
    | cons a l => rfl
  have hlen : (checkoutStep :: renderPipelinePost post).length > 1 := by
    rw [List.length_cons]
    exact Nat.succ_lt_succ (List.length_pos.mpr hne)
  have hfil : (jobs.map Prod.fst).filter
      (fun k => k != liftStr "pipeline-post") = jobs.map Prod.fst := by
    apply List.filter_eq_self.mpr
    intro k hk
    exact bne_iff_ne.mpr (fun heq => hpp (heq ▸ hk))
  unfold attachPipelinePost
  simp only [hpe, Bool.false_eq_true, if_false]
  rw [if_pos hlen, hfil]
  exact dictUpsert_fresh _ _ _ hpp

/-- C9 (amended): a non-empty pipeline-level post block yields the final
`pipeline-post` job only when its rendered step list is non-empty (the code
gates on `len(post_job_steps) > 1` counting the fixed checkout step); in
that case, provided no stage-derived job id equals `pipeline-post`, exactly
one job keyed `pipeline-post` is appended after all stage jobs, depending
on every previously created job, conditioned on `always()`, and holding the
checkout step followed by the rendered post-action steps. -/
theorem C9_pipeline_post_job (t : List Char) (w : GhaWorkflow)
    (post : List (List Char × PostData))
    (hw : convert_jenkins_to_gha t = .ok w)
    (hpost : pipelinePostOf t = some post)
    (hne : renderPipelinePost post ≠ [])
    (hpp : liftStr "pipeline-post" ∉ forestIdsOf t) :
    ∃ pre jd, w.jobs = pre ++ [(liftStr "pipeline-post", jd)] ∧
      jd.ifCond = some (liftStr "always()") ∧
      jd.needs = some (.many (jobKeys pre)) ∧
      jd.steps = checkoutStep :: renderPipelinePost post := by
  cases hp : find_block (strip_comments t) (liftStr "pipeline") with
  | none =>
    rw [convert_eq_error_noPipeline t hp] at hw
    exact Except.noConfusion hw
  | some pb =>
    cases hs : find_block (sliceL (strip_comments t) pb.1 pb.2)
        (liftStr "stages") with
    | none =>
      rw [convert_eq_error_noStages t pb hp hs] at hw
      exact Except.noConfusion hw
    | some sb =>
      rw [convert_eq_ok t pb sb hp hs] at hw
      injection hw with hw2
      have hpe2 := (pipelinePostOf_eq t pb hp).symm.trans hpost
      injection hpe2 with hpe3
      have hstages : forestIds (split_stages
          (sliceL (sliceL (strip_comments t) pb.1 pb.2) sb.1 sb.2)) =
          forestIdsOf t := by
        rw [forestIdsOf, stagesListOf_eq t pb sb hp hs]
        rfl
      have hppk : liftStr "pipeline-post" ∉ jobKeys
          ((split_stages (sliceL (sliceL (strip_comments t) pb.1 pb.2)
              sb.1 sb.2)).foldl
            (convStep
              (match find_block (sliceL (strip_comments t) pb.1 pb.2)
                  (liftStr "environment") with
               | some e => extract_env_kv
                   (sliceL (sliceL (strip_comments t) pb.1 pb.2) e.1 e.2)
               | none => [])
              (defaultsOf (extract_global_agent
                (sliceL (strip_comments t) pb.1 pb.2))).1
              (defaultsOf (extract_global_agent
                (sliceL (strip_comments t) pb.1 pb.2))).2)
            ⟨[], [], []⟩).jobs := by
        intro hmem
        have hsub := keys_foldl_sub
          (match find_block (sliceL (strip_comments t) pb.1 pb.2)
              (liftStr "environment") with
           | some e => extract_env_kv
               (sliceL (sliceL (strip_comments t) pb.1 pb.2) e.1 e.2)
           | none => [])
          (defaultsOf (extract_global_agent
            (sliceL (strip_comments t) pb.1 pb.2))).1
          (defaultsOf (extract_global_agent
            (sliceL (strip_comments t) pb.1 pb.2))).2
          (split_stages (sliceL (sliceL (strip_comments t) pb.1 pb.2) sb.1 sb.2))
          ⟨[], [], []⟩ _ hmem
        rcases List.mem_append.mp hsub with h1 | h2
        · exact absurd h1 (List.not_mem_nil _)
        · rw [hstages] at h2
          exact hpp h2
      have hjobs : w.jobs = attachPipelinePost
          (defaultsOf (extract_global_agent
            (sliceL (strip_comments t) pb.1 pb.2))).1
          (defaultsOf (extract_global_agent
            (sliceL (strip_comments t) pb.1 pb.2))).2
          (extract_pipeline_post (sliceL (strip_comments t) pb.1 pb.2))
          ((split_stages (sliceL (sliceL (strip_comments t) pb.1 pb.2)
              sb.1 sb.2)).foldl
            (convStep
              (match find_block (sliceL (strip_comments t) pb.1 pb.2)
                  (liftStr "environment") with
               | some e => extract_env_kv
                   (sliceL (sliceL (strip_comments t) pb.1 pb.2) e.1 e.2)
               | none => [])
              (defaultsOf (extract_global_agent
                (sliceL (strip_comments t) pb.1 pb.2))).1
              (defaultsOf (extract_global_agent
                (sliceL (strip_comments t) pb.1 pb.2))).2)
            ⟨[], [], []⟩).jobs :=
        congrArg GhaWorkflow.jobs hw2.symm
      rw [hpe3] at hjobs
      rw [attach_appends _ _ post _ hne hppk] at hjobs
      exact ⟨_, _, hjobs, rfl, rfl, rfl⟩

set_option maxRecDepth 400000 in
theorem C9_counterexample :
    (pipelinePostOf exC9bad).map (fun p => p.isEmpty) = some false ∧
    (convert_jenkins_to_gha exC9bad).toOption.map
      (fun w => (jobKeys w.jobs).contains (liftStr "pipeline-post")) =
      some false := by
  constructor
  · decide
  · decide

set_option maxRecDepth 400000 in
theorem C9_pipeline_post_job_witness :
    pipelinePostOf exC9good = some exC9goodPost ∧
    renderPipelinePost exC9goodPost ≠ [] ∧
    liftStr "pipeline-post" ∉ forestIdsOf exC9good ∧
    (∃ pre jd,
      ((convert_jenkins_to_gha exC9good).toOption.getD ⟨[], []⟩).jobs =
        pre ++ [(liftStr "pipeline-post", jd)] ∧
      jd.ifCond = some (liftStr "always()") ∧
      jd.needs = some (.many (jobKeys pre)) ∧
      jd.steps = checkoutStep :: renderPipelinePost exC9goodPost) := by
  refine ⟨by decide, by decide, by decide, ?_⟩
  cases hw : convert_jenkins_to_gha exC9good with
  | error e =>
    have h2 : (convert_jenkins_to_gha exC9good).toOption.isSome = true := by
      decide
    rw [hw] at h2
    exact Bool.noConfusion h2
  | ok w =>
    exact C9_pipeline_post_job exC9good w exC9goodPost hw (by decide)
      (by decide) (by decide)

theorem toNat_ofNat_valid (n : Nat) (h : n.isValidChar) :
    (Char.ofNat n).toNat = n := by
  unfold Char.ofNat
  rw [dif_pos h]
  rfl

theorem toLower_idCharOk (c : Char) (h : isSanKept c = true) :
    idCharOk (Char.toLower c) = true := by
  have hdef : Char.toLower c =
      (if c.toNat ≥ 65 ∧ c.toNat ≤ 90 then Char.ofNat (c.toNat + 32) else c) :=
    rfl
  simp only [isSanKept, Bool.or_eq_true, Bool.and_eq_true, decide_eq_true_eq,
    beq_iff_eq] at h
  by_cases hc : c.toNat ≥ 65 ∧ c.toNat ≤ 90
  · rw [hdef, if_pos hc]
    have hval : (c.toNat + 32).isValidChar := Or.inl (by omega)
    have htn : (Char.ofNat (c.toNat + 32)).toNat = c.toNat + 32 :=
      toNat_ofNat_valid _ hval
    simp only [idCharOk, Bool.or_eq_true, Bool.and_eq_true, decide_eq_true_eq,
      beq_iff_eq]
    refine Or.inl (Or.inl (Or.inl ⟨?_, ?_⟩))
    · show (97 : Nat) ≤ (Char.ofNat (c.toNat + 32)).toNat
      omega
    · show (Char.ofNat (c.toNat + 32)).toNat ≤ (122 : Nat)
      omega
  · rw [hdef, if_neg hc]
    simp only [idCharOk, Bool.or_eq_true, Bool.and_eq_true, decide_eq_true_eq,
      beq_iff_eq]
    rcases h with ((((h1 | h2) | h3) | h4) | h5)
    · exact Or.inl (Or.inl (Or.inl h1))
    · exact absurd ⟨(h2.1 : (65 : Nat) ≤ c.toNat), (h2.2 : c.toNat ≤ 90)⟩ hc
    · exact Or.inl (Or.inl (Or.inr h3))
    · exact Or.inl (Or.inr h4)
    · exact Or.inr h5

theorem mem_collapseDashes : ∀ (s : List Char), ∀ c ∈ collapseDashes s, c ∈ s
  | [] => fun _ hc => hc
  | [_] => fun _ hc => hc
  | a :: b :: t => by
    intro c hc
    simp only [collapseDashes] at hc
    by_cases h : a = '-' ∧ b = '-'
    · rw [if_pos h] at hc
      exact List.mem_cons_of_mem a (mem_collapseDashes (b :: t) c hc)
    · rw [if_neg h] at hc
      rcases List.mem_cons.mp hc with rfl | hc2
      · exact List.mem_cons_self _ _
      · exact List.mem_cons_of_mem a (mem_collapseDashes (b :: t) c hc2)

theorem collapse_cons : ∀ (b : Char) (t : List Char),
    ∃ r, collapseDashes (b :: t) = b :: r
  | _, [] => ⟨[], rfl⟩
  | b, c :: t => by
    by_cases h : b = '-' ∧ c = '-'
    · obtain ⟨r, hr⟩ := collapse_cons c t
      refine ⟨r, ?_⟩
      simp only [collapseDashes]
      rw [if_pos h, hr, h.1, h.2]
    · obtain ⟨r, hr⟩ := collapse_cons c t
      refine ⟨c :: r, ?_⟩
      simp only [collapseDashes]
      rw [if_neg h, hr]

theorem noTwoDashes_collapse : ∀ (s : List Char),
    noTwoDashes (collapseDashes s) = true
  | [] => rfl
  | [_] => rfl
  | a :: b :: t => by
    by_cases h : a = '-' ∧ b = '-'
    · rw [show collapseDashes (a :: b :: t) = collapseDashes (b :: t) from by
        simp only [collapseDashes]; rw [if_pos h]]
      exact noTwoDashes_collapse (b :: t)
    · rw [show collapseDashes (a :: b :: t) = a :: collapseDashes (b :: t) from by
        simp only [collapseDashes]; rw [if_neg h]]
      obtain ⟨r, hr⟩ := collapse_cons b t
      rw [hr]
      have h2 := noTwoDashes_collapse (b :: t)
      rw [hr] at h2
      rw [noTwoDashes]
      rw [h2, Bool.and_true]
      have h3 : (a == '-' && b == '-') = false := by
        by_cases ha : a = '-'
        · by_cases hb : b = '-'
          · exact absurd ⟨ha, hb⟩ h
          · simp [hb]
        · simp [ha]
      rw [h3]
      rfl

theorem noTwoDashes_tail : ∀ (a : Char) (l : List Char),
    noTwoDashes (a :: l) = true → noTwoDashes l = true
  | _, [] => fun _ => rfl
  | a, b :: t => by
    intro h
    rw [noTwoDashes, Bool.and_eq_true] at h
    exact h.2

theorem noTwoDashes_suffix : ∀ (l1 l2 : List Char),
    noTwoDashes (l1 ++ l2) = true → noTwoDashes l2 = true
  | [], _ => fun h => h
  | a :: l1, l2 => fun h =>
    noTwoDashes_suffix l1 l2 (noTwoDashes_tail a (l1 ++ l2) h)

theorem noTwoDashes_front : ∀ (m l2 : List Char),
    noTwoDashes (m ++ l2) = true → noTwoDashes m = true
  | [], _ => fun _ => rfl
  | [_], _ => fun _ => rfl
  | x :: y :: m, l2 => by
    intro h
    have h1 : noTwoDashes (x :: y :: (m ++ l2)) = true := h
    rw [noTwoDashes, Bool.and_eq_true] at h1
    obtain ⟨hxy, hrest⟩ := h1
    have h2 := noTwoDashes_front (y :: m) l2 hrest
    rw [noTwoDashes, h2, hxy]
    rfl

theorem head?_dropWhile_not (p : Char → Bool) :
    ∀ (l : List Char) (c : Char), (l.dropWhile p).head? = some c → p c = false
  | [], _ => fun h => Option.noConfusion h
  | a :: t, c => by
    intro h
    cases hp : p a with
    | true =>
      rw [List.dropWhile_cons, if_pos hp] at h
      exact head?_dropWhile_not p t c h
    | false =>
      rw [List.dropWhile_cons,
        if_neg (by rw [hp]; exact Bool.false_ne_true)] at h
      rw [List.head?_cons] at h
      injection h with h2
      rw [← h2]
      exact hp

theorem rev_strip_decomp (u : List Char) :
    u = (u.reverse.dropWhile (fun c => c == '-')).reverse ++
        (u.reverse.takeWhile (fun c => c == '-')).reverse := by
  conv_lhs => rw [← List.reverse_reverse u]
  rw [← List.reverse_append]
  rw [List.takeWhile_append_dropWhile]

theorem stripDashes_eq_decomp (s : List Char) :
    s.dropWhile (fun c => c == '-') =
      stripDashes s ++
      ((s.dropWhile (fun c => c == '-')).reverse.takeWhile
        (fun c => c == '-')).reverse :=
  rev_strip_decomp (s.dropWhile (fun c => c == '-'))

theorem mem_stripDashes (s : List Char) (c : Char) (h : c ∈ stripDashes s) :
    c ∈ s := by
  have h2 : c ∈ s.dropWhile (fun c2 => c2 == '-') := by
    rw [stripDashes_eq_decomp s]
    exact List.mem_append_left _ h
  exact (List.dropWhile_sublist _).subset h2

theorem noTwoDashes_stripDashes (s : List Char)
    (h : noTwoDashes s = true) : noTwoDashes (stripDashes s) = true := by
  have h1 : noTwoDashes (s.dropWhile (fun c2 => c2 == '-')) = true := by
    refine noTwoDashes_suffix (s.takeWhile (fun c2 => c2 == '-')) _ ?_
    rw [List.takeWhile_append_dropWhile]
    exact h
  rw [stripDashes_eq_decomp s] at h1
  exact noTwoDashes_front _ _ h1

theorem head?_stripDashes (s : List Char) (c : Char)
    (h : (stripDashes s).head? = some c) : (c == '-') = false := by
  have h1 : ((s.dropWhile (fun c2 => c2 == '-')).reverse.dropWhile
      (fun c2 => c2 == '-')).getLast? = some c := by
    rw [← List.head?_reverse]
    exact h
  have h2 : (s.dropWhile (fun c2 => c2 == '-')).reverse.getLast? = some c := by
    conv_lhs => rw [← List.takeWhile_append_dropWhile
      (fun c2 : Char => c2 == '-')
      (s.dropWhile (fun c2 => c2 == '-')).reverse]
    rw [List.getLast?_append, h1]
    rfl
  have h3 : (s.dropWhile (fun c2 => c2 == '-')).head? = some c := by
    rw [← List.getLast?_reverse]
    exact h2
  exact head?_dropWhile_not (fun c2 => c2 == '-') _ _ h3

theorem getLast?_stripDashes (s : List Char) (c : Char)
    (h : (stripDashes s).getLast? = some c) : (c == '-') = false := by
  have h1 : ((s.dropWhile (fun c2 => c2 == '-')).reverse.dropWhile
      (fun c2 => c2 == '-')).head? = some c := by
    rw [← List.getLast?_reverse]
    exact h
  exact head?_dropWhile_not (fun c2 => c2 == '-') _ _ h1

theorem toLower_eq_dash (c : Char) :
    (Char.toLower c == '-') = (c == '-') := by
  have hdef : Char.toLower c =
      (if c.toNat ≥ 65 ∧ c.toNat ≤ 90 then Char.ofNat (c.toNat + 32) else c) :=
    rfl
  by_cases hc : c.toNat ≥ 65 ∧ c.toNat ≤ 90
  · rw [hdef, if_pos hc]
    have h45 : ('-').toNat = 45 := rfl
    have h1 : (Char.ofNat (c.toNat + 32) == '-') = false := by
      rw [beq_eq_false_iff_ne]
      intro heq
      have h2 := congrArg Char.toNat heq
      rw [toNat_ofNat_valid _ (Or.inl (by omega)), h45] at h2
      omega
    have h3 : (c == '-') = false := by
      rw [beq_eq_false_iff_ne]
      intro heq
      have h2 := congrArg Char.toNat heq
      rw [h45] at h2
      omega
    rw [h1, h3]
  · rw [hdef, if_neg hc]

theorem isSanKept_mapped (a : Char) :
    isSanKept (if isSanKept a then a else '-') = true := by
  by_cases h : isSanKept a
  · rw [if_pos h]
    exact h
  · rw [if_neg h]
    decide

theorem noTwoDashes_map_toLower : ∀ (l : List Char),
    noTwoDashes l = true → noTwoDashes (l.map Char.toLower) = true
  | [] => fun _ => rfl
  | [_] => fun _ => rfl
  | a :: b :: t => by
    intro h
    rw [noTwoDashes, Bool.and_eq_true] at h
    obtain ⟨h1, h2⟩ := h
    have ih := noTwoDashes_map_toLower (b :: t) h2
    show noTwoDashes (Char.toLower a :: Char.toLower b ::
      t.map Char.toLower) = true
    rw [noTwoDashes, Bool.and_eq_true]
    refine ⟨?_, ih⟩
    rw [toLower_eq_dash a, toLower_eq_dash b]
    exact h1

theorem sanitize_name_invariant (n : List Char) :
    idInvariant (sanitize_name n) = true := by
  have hym : ∀ c ∈ stripDashes (collapseDashes
      (n.map (fun c => if isSanKept c then c else '-'))), isSanKept c = true := by
    intro c hc
    have hc2 := mem_collapseDashes _ c (mem_stripDashes _ c hc)
    rcases List.mem_map.mp hc2 with ⟨a, _, rfl⟩
    exact isSanKept_mapped a
  have hall : (sanitize_name n).all idCharOk = true := by
    apply List.all_eq_true.mpr
    intro x hx
    rcases List.mem_map.mp hx with ⟨c, hcm, rfl⟩
    exact toLower_idCharOk c (hym c hcm)
  have hntd : noTwoDashes (sanitize_name n) = true :=
    noTwoDashes_map_toLower _ (noTwoDashes_stripDashes _ (noTwoDashes_collapse _))
  have hhd : ((sanitize_name n).head? != some '-') = true := by
    apply bne_iff_ne.mpr
    intro heq
    have heq2 : ((stripDashes (collapseDashes
        (n.map (fun c => if isSanKept c then c else '-')))).map
          Char.toLower).head? = some '-' := heq
    rw [List.head?_map] at heq2
    cases hy : (stripDashes (collapseDashes
        (n.map (fun c => if isSanKept c then c else '-')))).head? with
    | none =>
      rw [hy] at heq2
      exact Option.noConfusion heq2
    | some c =>
      rw [hy] at heq2
      injection heq2 with heq3
      have h4 : (c == '-') = false := head?_stripDashes _ c hy
      have h5 : (Char.toLower c == '-') = true := beq_iff_eq.mpr heq3
      rw [toLower_eq_dash, h4] at h5
      exact Bool.noConfusion h5
  have hlast : ((sanitize_name n).getLast? != some '-') = true := by
    apply bne_iff_ne.mpr
    intro heq
    have heq2 : ((stripDashes (collapseDashes
        (n.map (fun c => if isSanKept c then c else '-')))).map
          Char.toLower).getLast? = some '-' := heq
    rw [List.getLast?_map] at heq2
    cases hy : (stripDashes (collapseDashes
        (n.map (fun c => if isSanKept c then c else '-')))).getLast? with
    | none =>
      rw [hy] at heq2
      exact Option.noConfusion heq2
    | some c =>
      rw [hy] at heq2
      injection heq2 with heq3
      have h4 : (c == '-') = false := getLast?_stripDashes _ c hy
      have h5 : (Char.toLower c == '-') = true := beq_iff_eq.mpr heq3
      rw [toLower_eq_dash, h4] at h5
      exact Bool.noConfusion h5
  rw [idInvariant, hall, hntd, hhd, hlast]
  rfl

theorem mem_keys_attach (dro : RunsOn) (dc : Option ContainerSpec)
    (post : List (List Char × PostData)) (jobs : List (List Char × JobDef))
    (k : List Char) (hk : k ∈ jobKeys (attachPipelinePost dro dc post jobs)) :
    k ∈ jobKeys jobs ∨ k = liftStr "pipeline-post" := by
  unfold attachPipelinePost at hk
  by_cases hpe : post.isEmpty
  · rw [if_pos hpe] at hk
    exact Or.inl hk
  · rw [if_neg hpe] at hk
    by_cases hlen : (checkoutStep :: renderPipelinePost post).length > 1
    · rw [if_pos hlen] at hk
      have hk2 : k ∈ (dictUpsert jobs (liftStr "pipeline-post")
          { jobName := some (liftStr "Pipeline Post Actions")
            runsOn := dro
            container := dc
            needs := some (.many ((jobs.map Prod.fst).filter
              (fun k2 => k2 != liftStr "pipeline-post")))
            ifCond := some (liftStr "always()")
            timeoutMinutes := 30
            steps := checkoutStep :: renderPipelinePost post }).map Prod.fst := hk
      rw [keys_dictUpsert] at hk2
      by_cases hm : liftStr "pipeline-post" ∈ jobs.map Prod.fst
      · rw [if_pos hm] at hk2
        exact Or.inl hk2
      · rw [if_neg hm] at hk2
        rcases List.mem_append.mp hk2 with h1 | h2
        · exact Or.inl h1
        · exact Or.inr (List.mem_singleton.mp h2)
    · rw [if_neg hlen] at hk
      exact Or.inl hk

/-- C10: every job id derived by `gha_job_id` from a stage name contains
only lowercase letters, digits, hyphens and underscores, never two
consecutive hyphens, and never begins or ends with a hyphen; and in any
produced workflow every job key other than the fixed literal
`pipeline-post` is one of the ids derived from the stage forest, hence
satisfies the same invariant. -/
theorem C10_job_id_invariant (t : List Char) (w : GhaWorkflow)
    (hw : convert_jenkins_to_gha t = .ok w) :
    (∀ name : List Char, idInvariant (gha_job_id name) = true) ∧
    (∀ k ∈ jobKeys w.jobs,
      k = liftStr "pipeline-post" ∨
        (k ∈ forestIdsOf t ∧ idInvariant k = true)) := by
  refine ⟨fun name => sanitize_name_invariant name, ?_⟩
  intro k hk
  cases hp : find_block (strip_comments t) (liftStr "pipeline") with
  | none =>
    rw [convert_eq_error_noPipeline t hp] at hw
    exact Except.noConfusion hw
  | some pb =>
    cases hs : find_block (sliceL (strip_comments t) pb.1 pb.2)
        (liftStr "stages") with
    | none =>
      rw [convert_eq_error_noStages t pb hp hs] at hw
      exact Except.noConfusion hw
    | some sb =>
      rw [convert_eq_ok t pb sb hp hs] at hw
      injection hw with hw2
      have hstages : forestIds (split_stages
          (sliceL (sliceL (strip_comments t) pb.1 pb.2) sb.1 sb.2)) =
          forestIdsOf t := by
        rw [forestIdsOf, stagesListOf_eq t pb sb hp hs]
        rfl
      have hjobs : w.jobs = attachPipelinePost
          (defaultsOf (extract_global_agent
            (sliceL (strip_comments t) pb.1 pb.2))).1
          (defaultsOf (extract_global_agent
            (sliceL (strip_comments t) pb.1 pb.2))).2
          (extract_pipeline_post (sliceL (strip_comments t) pb.1 pb.2))
          ((split_stages (sliceL (sliceL (strip_comments t) pb.1 pb.2)
              sb.1 sb.2)).foldl
            (convStep
              (match find_block (sliceL (strip_comments t) pb.1 pb.2)
                  (liftStr "environment") with
               | some e => extract_env_kv
                   (sliceL (sliceL (strip_comments t) pb.1 pb.2) e.1 e.2)
               | none => [])
              (defaultsOf (extract_global_agent
                (sliceL (strip_comments t) pb.1 pb.2))).1
              (defaultsOf (extract_global_agent
                (sliceL (strip_comments t) pb.1 pb.2))).2)
            ⟨[], [], []⟩).jobs :=
        congrArg GhaWorkflow.jobs hw2.symm
      rw [hjobs] at hk
      rcases mem_keys_attach _ _ _ _ k hk with h1 | h2
      · have hsub := keys_foldl_sub
          (match find_block (sliceL (strip_comments t) pb.1 pb.2)
              (liftStr "environment") with
           | some e => extract_env_kv
               (sliceL (sliceL (strip_comments t) pb.1 pb.2) e.1 e.2)
           | none => [])
          (defaultsOf (extract_global_agent
            (sliceL (strip_comments t) pb.1 pb.2))).1
          (defaultsOf (extract_global_agent
            (sliceL (strip_comments t) pb.1 pb.2))).2
          (split_stages (sliceL (sliceL (strip_comments t) pb.1 pb.2) sb.1 sb.2))
          ⟨[], [], []⟩ k h1
        rcases List.mem_append.mp hsub with ha | hb
        · exact absurd ha (List.not_mem_nil _)
        · refine Or.inr ⟨?_, ?_⟩
          · rw [hstages] at hb
            exact hb
          · rcases List.mem_map.mp hb with ⟨name, _, rfl⟩
            exact sanitize_name_invariant name
      · exact Or.inl h2

set_option maxRecDepth 400000 in
theorem C10_job_id_invariant_witness :
    idInvariant (gha_job_id (liftStr "My Build!")) = true ∧
    (∀ k ∈ jobKeys ((convert_jenkins_to_gha exC10).toOption.getD
        ⟨[], []⟩).jobs,
      k = liftStr "pipeline-post" ∨
        (k ∈ forestIdsOf exC10 ∧ idInvariant k = true)) := by
  cases hw : convert_jenkins_to_gha exC10 with
  | error e =>
    have h2 : (convert_jenkins_to_gha exC10).toOption.isSome = true := by
      decide
    rw [hw] at h2
    exact Bool.noConfusion h2
  | ok w =>
    refine ⟨(C10_job_id_invariant exC10 w hw).1 (liftStr "My Build!"), ?_⟩
    intro k hk
    exact (C10_job_id_invariant exC10 w hw).2 k hk

theorem eatLit_eq : ∀ (l s r : List Char), eatLit l s = some r → s = l ++ r
  | [], s, r => by
    intro h
    simp only [eatLit] at h
    simpa using h
  | _ :: _, [], _ => fun h => Option.noConfusion h
  | l :: ls, c :: cs, r => by
    intro h
    simp only [eatLit] at h
    by_cases hc : c = l
    · rw [if_pos hc] at h
      have h2 := eatLit_eq ls cs r h
      rw [List.cons_append, ← h2, hc]
    · rw [if_neg hc] at h
      exact Option.noConfusion h

theorem kwBraceOffAt_brace (kw : List Char) (prevW : Bool) (s : List Char)
    (off : Nat) (h : kwBraceOffAt kw prevW s = some off) :
    s.get? off = some '\x7b' := by
  unfold kwBraceOffAt at h
  by_cases hp : prevW = true
  · rw [if_pos hp] at h
    exact Option.noConfusion h
  · rw [if_neg hp] at h
    cases he : eatLit kw s with
    | none =>
      rw [he] at h
      exact Option.noConfusion h
    | some r =>
      rw [he] at h
      have h4 : (match (eatWsC r).2 with
          | [] => none
          | c :: _ =>
            if c = '\x7b' then some (kw.length + (eatWsC r).1.length)
            else none) = some off := h
      cases hd : (eatWsC r).2 with
      | nil =>
        rw [hd] at h4
        exact Option.noConfusion h4
      | cons c2 rest2 =>
        rw [hd] at h4
        have h5 : (if c2 = '\x7b' then
            some (kw.length + (eatWsC r).1.length) else none) = some off := h4
        by_cases hc2 : c2 = '\x7b'
        · rw [if_pos hc2] at h5
          injection h5 with h3
          have hs := eatLit_eq kw s r he
          have hr : r = (eatWsC r).1 ++ (c2 :: rest2) := by
            rw [← hd]
            exact (List.takeWhile_append_dropWhile isWsChar r).symm
          rw [hs, hr, ← h3]
          rw [List.get?_append_right (Nat.le_add_right _ _)]
          rw [Nat.add_sub_cancel_left]
          rw [List.get?_append_right (Nat.le_refl _)]
          rw [Nat.sub_self]
          rw [hc2]
          rfl
        · rw [if_neg hc2] at h5
          exact Option.noConfusion h5

theorem findKwBraceAux_brace : ∀ (kw : List Char) (prevW : Bool) (i : Nat)
    (s : List Char) (r : Nat), findKwBraceAux kw prevW i s = some r →
    i ≤ r ∧ s.get? (r - i) = some '\x7b'
  | _, _, _, [], _ => fun h => Option.noConfusion h
  | kw, prevW, i, c :: rest, r => by
    intro h
    simp only [findKwBraceAux] at h
    cases hk : kwBraceOffAt kw prevW (c :: rest) with
    | some off =>
      rw [hk] at h
      injection h with h2
      have hoff := kwBraceOffAt_brace kw prevW (c :: rest) off hk
      refine ⟨by omega, ?_⟩
      rw [show r - i = off from by omega]
      exact hoff
    | none =>
      rw [hk] at h
      have ih := findKwBraceAux_brace kw (isWordChar c) (i + 1) rest r h
      refine ⟨by omega, ?_⟩
      have h3 : r - i = (r - (i + 1)) + 1 := by omega
      rw [h3, List.get?_cons_succ]
      exact ih.2

theorem braceNet_shift : ∀ (s : List Char) (d : Int),
    s.foldl (fun d c => if c = '\x7b' then d + 1
      else if c = '\x7d' then d - 1 else d) d = d + braceNet s
  | [], d => by
    simp [braceNet]
  | c :: s, d => by
    rw [List.foldl_cons]
    rw [braceNet_shift s]
    rw [show braceNet (c :: s) =
      s.foldl (fun d c => if c = '\x7b' then d + 1
        else if c = '\x7d' then d - 1 else d)
        (if c = '\x7b' then (0 : Int) + 1
         else if c = '\x7d' then (0 : Int) - 1 else 0) from rfl]
    rw [braceNet_shift s]
    by_cases h1 : c = '\x7b'
    · rw [if_pos h1, if_pos h1]
      omega
    · by_cases h2 : c = '\x7d'
      · rw [if_neg h1, if_pos h2, if_neg h1, if_pos h2]
        omega
      · rw [if_neg h1, if_neg h2, if_neg h1, if_neg h2]
        omega

theorem braceNet_cons (c : Char) (s : List Char) :
    braceNet (c :: s) =
      (if c = '\x7b' then (1 : Int) else if c = '\x7d' then -1 else 0) +
        braceNet s := by
  rw [show braceNet (c :: s) =
    s.foldl (fun d c => if c = '\x7b' then d + 1
      else if c = '\x7d' then d - 1 else d)
      (if c = '\x7b' then (0 : Int) + 1
       else if c = '\x7d' then (0 : Int) - 1 else 0) from rfl]
  rw [braceNet_shift s]
  by_cases h1 : c = '\x7b'
  · rw [if_pos h1, if_pos h1]
    try omega
  · by_cases h2 : c = '\x7d'
    · rw [if_neg h1, if_pos h2, if_neg h1, if_pos h2]
      try omega
    · rw [if_neg h1, if_neg h2, if_neg h1, if_neg h2]
      try omega

theorem findBlockScanAux_profile : ∀ (s : List Char) (d : Int) (off : Nat),
    1 ≤ d → findBlockScanAux s d = some off →
    s.get? off = some '\x7d' ∧
    braceScanB (s.take off) (d - 1) = true ∧
    d - 1 + braceNet (s.take off) = 0
  | [], _, _ => fun _ h => Option.noConfusion h
  | c :: rest, d, off => by
    intro hd h
    by_cases h1 : c = '\x7b'
    · subst h1
      rw [show findBlockScanAux ('\x7b' :: rest) d =
        (findBlockScanAux rest (d + 1)).map (· + 1) from rfl] at h
      cases ho : findBlockScanAux rest (d + 1) with
      | none =>
        rw [ho] at h
        exact Option.noConfusion h
      | some o =>
        rw [ho] at h
        injection h with h2
        subst h2
        obtain ⟨g1, g2, g3⟩ :=
          findBlockScanAux_profile rest (d + 1) o (by omega) ho
        refine ⟨?_, ?_, ?_⟩
        · rw [List.get?_cons_succ]
          exact g1
        · rw [List.take_succ_cons]
          rw [show braceScanB ('\x7b' :: rest.take o) (d - 1) =
            (if d - 1 + 1 < 0 then false
             else braceScanB (rest.take o) (d - 1 + 1)) from rfl]
          rw [if_neg (show ¬(d - 1 + 1 < 0) from by omega)]
          rw [show d - 1 + 1 = d + 1 - 1 from by omega]
          exact g2
        · rw [List.take_succ_cons, braceNet_cons]
          rw [if_pos rfl]
          omega
    · by_cases h2c : c = '\x7d'
      · subst h2c
        rw [show findBlockScanAux ('\x7d' :: rest) d =
          (if d - 1 = 0 then some 0
           else (findBlockScanAux rest (d - 1)).map (· + 1)) from rfl] at h
        by_cases hz : d - 1 = 0
        · rw [if_pos hz] at h
          injection h with h2
          subst h2
          refine ⟨rfl, rfl, ?_⟩
          rw [show braceNet (List.take 0 ('\x7d' :: rest)) = 0 from rfl]
          omega
        · rw [if_neg hz] at h
          cases ho : findBlockScanAux rest (d - 1) with
          | none =>
            rw [ho] at h
            exact Option.noConfusion h
          | some o =>
            rw [ho] at h
            injection h with h2
            subst h2
            obtain ⟨g1, g2, g3⟩ :=
              findBlockScanAux_profile rest (d - 1) o (by omega) ho
            refine ⟨?_, ?_, ?_⟩
            · rw [List.get?_cons_succ]
              exact g1
            · rw [List.take_succ_cons]
              rw [show braceScanB ('\x7d' :: rest.take o) (d - 1) =
                (if d - 1 - 1 < 0 then false
                 else braceScanB (rest.take o) (d - 1 - 1)) from rfl]
              rw [if_neg (show ¬(d - 1 - 1 < 0) from by omega)]
              exact g2
            · rw [List.take_succ_cons, braceNet_cons]
              rw [if_neg (show ¬(('\x7d') = '\x7b') from by decide),
                if_pos rfl]
              omega
      · simp only [findBlockScanAux] at h
        rw [if_neg h1, if_neg h2c] at h
        cases ho : findBlockScanAux rest d with
        | none =>
          rw [ho] at h
          exact Option.noConfusion h
        | some o =>
          rw [ho] at h
          injection h with h2
          subst h2
          obtain ⟨g1, g2, g3⟩ := findBlockScanAux_profile rest d o hd ho
          refine ⟨?_, ?_, ?_⟩
          · rw [List.get?_cons_succ]
            exact g1
          · rw [List.take_succ_cons]
            simp only [braceScanB]
            rw [if_neg h1, if_neg h2c]
            rw [if_neg (show ¬(d - 1 < 0) from by omega)]
            exact g2
          · rw [List.take_succ_cons, braceNet_cons]
            rw [if_neg h1, if_neg h2c]
            omega

theorem findBlockScanAux_none_iff : ∀ (s : List Char) (d : Int), 1 ≤ d →
    (findBlockScanAux s d = none ↔ braceScanB s (d - 1) = true)
  | [], _ => fun _ => ⟨fun _ => rfl, fun _ => rfl⟩
  | c :: rest, d => by
    intro hd
    by_cases h1 : c = '\x7b'
    · subst h1
      rw [show findBlockScanAux ('\x7b' :: rest) d =
        (findBlockScanAux rest (d + 1)).map (· + 1) from rfl]
      rw [show braceScanB ('\x7b' :: rest) (d - 1) =
        (if d - 1 + 1 < 0 then false
         else braceScanB rest (d - 1 + 1)) from rfl]
      rw [if_neg (show ¬(d - 1 + 1 < 0) from by omega)]
      rw [show d - 1 + 1 = d + 1 - 1 from by omega]
      have ih := findBlockScanAux_none_iff rest (d + 1) (by omega)
      constructor
      · intro h
        cases ho : findBlockScanAux rest (d + 1) with
        | none => exact ih.mp ho
        | some o =>
          rw [ho] at h
          exact Option.noConfusion h
      · intro h
        rw [ih.mpr h]
        rfl
    · by_cases h2c : c = '\x7d'
      · subst h2c
        rw [show findBlockScanAux ('\x7d' :: rest) d =
          (if d - 1 = 0 then some 0
           else (findBlockScanAux rest (d - 1)).map (· + 1)) from rfl]
        rw [show braceScanB ('\x7d' :: rest) (d - 1) =
          (if d - 1 - 1 < 0 then false
           else braceScanB rest (d - 1 - 1)) from rfl]
        by_cases hz : d - 1 = 0
        · rw [if_pos hz]
          rw [if_pos (show d - 1 - 1 < 0 from by omega)]
          exact ⟨fun h => Option.noConfusion h, fun h => Bool.noConfusion h⟩
        · rw [if_neg hz]
          rw [if_neg (show ¬(d - 1 - 1 < 0) from by omega)]
          have ih := findBlockScanAux_none_iff rest (d - 1) (by omega)
          constructor
          · intro h
            cases ho : findBlockScanAux rest (d - 1) with
            | none => exact ih.mp ho
            | some o =>
              rw [ho] at h
              exact Option.noConfusion h
          · intro h
            rw [ih.mpr h]
            rfl
      · constructor
        · intro h
          simp only [findBlockScanAux] at h
          rw [if_neg h1, if_neg h2c] at h
          simp only [braceScanB]
          rw [if_neg h1, if_neg h2c]
          rw [if_neg (show ¬(d - 1 < 0) from by omega)]
          have ih := findBlockScanAux_none_iff rest d hd
          cases ho : findBlockScanAux rest d with
          | none => exact ih.mp ho
          | some o =>
            rw [ho] at h
            exact Option.noConfusion h
        · intro h
          simp only [braceScanB] at h
          rw [if_neg h1, if_neg h2c] at h
          rw [if_neg (show ¬(d - 1 < 0) from by omega)] at h
          have ih := findBlockScanAux_none_iff rest d hd
          simp only [findBlockScanAux]
          rw [if_neg h1, if_neg h2c]
          rw [ih.mpr h]
          rfl

theorem drop_at_brace (t : List Char) (bi : Nat)
    (hbr : t.get? bi = some '\x7b') :
    t.drop bi = '\x7b' :: t.drop (bi + 1) := by
  have hget0 : (t.drop bi).get? 0 = some '\x7b' := by
    rw [List.get?_drop, Nat.add_zero]
    exact hbr
  cases hsd : t.drop bi with
  | nil =>
    rw [hsd] at hget0
    exact Option.noConfusion hget0
  | cons c s2 =>
    rw [hsd] at hget0
    injection hget0 with hc
    have h1 : (t.drop bi).drop 1 = t.drop (bi + 1) := List.drop_drop 1 bi t
    rw [hsd] at h1
    have hs2 : s2 = t.drop (bi + 1) := by
      rw [show (c :: s2).drop 1 = s2 from rfl] at h1
      rw [h1]
    rw [hc, hs2]

/-- C2 (amended): `find_block` matches the leftmost occurrence of the
keyword that is followed (modulo whitespace) by an opening brace — not
necessarily the first keyword occurrence.  On success the span starts right
after that brace, ends on the matching closing brace, and the enclosed
content has a brace-depth profile that is never negative and sums to zero.
It fails exactly when no such keyword-brace match exists, or the depth
counter never returns to zero — that is, the profile of the text after the
matched brace never goes negative. -/
theorem C2_find_block_profile (t kw : List Char) :
    (∀ a b, find_block t kw = some (a, b) →
      ∃ bi, find_kw_brace t kw = some bi ∧ a = bi + 1 ∧ a ≤ b ∧
        t.get? bi = some '\x7b' ∧ t.get? b = some '\x7d' ∧
        braceBalancedB (sliceL t a b) = true) ∧
    (find_block t kw = none ↔
      (find_kw_brace t kw = none ∨
       ∃ bi, find_kw_brace t kw = some bi ∧
         braceNonnegB (t.drop (bi + 1)) = true)) := by
  cases hfb : find_kw_brace t kw with
  | none =>
    constructor
    · intro a b hab
      unfold find_block at hab
      rw [hfb] at hab
      exact Option.noConfusion hab
    · constructor
      · intro _
        exact Or.inl rfl
      · intro _
        unfold find_block
        rw [hfb]
  | some bi =>
    have hkb := findKwBraceAux_brace kw false 0 t bi hfb
    have hbr : t.get? bi = some '\x7b' := by
      have h2 := hkb.2
      rwa [Nat.sub_zero] at h2
    have hdrop : t.drop bi = '\x7b' :: t.drop (bi + 1) := drop_at_brace t bi hbr
    have hsceq : findBlockScan (t.drop bi) =
        (findBlockScanAux (t.drop (bi + 1)) 1).map (· + 1) := by
      rw [hdrop]
      rfl
    constructor
    · intro a b hab
      unfold find_block at hab
      rw [hfb] at hab
      have hab2 : (match findBlockScan (t.drop bi) with
          | none => none
          | some off => some (bi + 1, bi + off)) = some (a, b) := hab
      rw [hsceq] at hab2
      cases hsc : findBlockScanAux (t.drop (bi + 1)) 1 with
      | none =>
        rw [hsc] at hab2
        exact Option.noConfusion hab2
      | some o =>
        rw [hsc] at hab2
        have hab3 : some (bi + 1, bi + (o + 1)) = some (a, b) := hab2
        injection hab3 with hab4
        injection hab4 with ha hb
        obtain ⟨g1, g2, g3⟩ :=
          findBlockScanAux_profile (t.drop (bi + 1)) 1 o (le_refl 1) hsc
        refine ⟨bi, rfl, ha.symm, by omega, hbr, ?_, ?_⟩
        · rw [← hb, show bi + (o + 1) = bi + 1 + o from by omega,
            ← List.get?_drop]
          exact g1
        · rw [← ha, ← hb]
          rw [show sliceL t (bi + 1) (bi + (o + 1)) =
              (t.drop (bi + 1)).take o from by
            rw [sliceL, show bi + (o + 1) - (bi + 1) = o from by omega]]
          rw [braceBalancedB]
          have hnn : braceNonnegB ((t.drop (bi + 1)).take o) = true := by
            rw [braceNonnegB]
            rw [show (1 : Int) - 1 = 0 from by omega] at g2
            exact g2
          have hz : (braceNet ((t.drop (bi + 1)).take o) == 0) = true := by
            apply beq_iff_eq.mpr
            omega
          rw [hnn, hz]
          rfl
    · constructor
      · intro hnone
        refine Or.inr ⟨bi, rfl, ?_⟩
        unfold find_block at hnone
        rw [hfb] at hnone
        have hnone2 : (match findBlockScan (t.drop bi) with
            | none => none
            | some off => some (bi + 1, bi + off)) =
            (none : Option (Nat × Nat)) := hnone
        rw [hsceq] at hnone2
        cases hsc : findBlockScanAux (t.drop (bi + 1)) 1 with
        | some o =>
          rw [hsc] at hnone2
          exact Option.noConfusion hnone2
        | none =>
          have h3 := (findBlockScanAux_none_iff (t.drop (bi + 1)) 1
            (le_refl 1)).mp hsc
          rw [show (1 : Int) - 1 = 0 from by omega] at h3
          exact h3
      · rintro (hn | ⟨bi2, hbi2, hnn⟩)
        · exact Option.noConfusion hn
        · injection hbi2 with hbi3
          subst hbi3
          have hscnone : findBlockScanAux (t.drop (bi + 1)) 1 = none := by
            apply (findBlockScanAux_none_iff (t.drop (bi + 1)) 1
              (le_refl 1)).mpr
            rw [show (1 : Int) - 1 = 0 from by omega]
            exact hnn
          unfold find_block
          rw [hfb]
          have hgoal : (match findBlockScan (t.drop bi) with
              | none => none
              | some off => some (bi + 1, bi + off)) =
              (none : Option (Nat × Nat)) := by
            rw [hsceq, hscnone]
            rfl
          exact hgoal

/-- C2 counterexample input: the first `foo` is not followed by a brace,
but a later one is. -/
def exC2 : List Char := liftStr "foo x foo \x7b\x7d"

theorem C2_counterexample :
    specFirstKwOcc exC2 (liftStr "foo") = some 0 ∧
    specBraceFollowsAt exC2 0 3 = false ∧
    find_block exC2 (liftStr "foo") = some (11, 11) := by
  refine ⟨by decide, by decide, by decide⟩

theorem C2_find_block_profile_witness :
    (find_block (liftStr "stages \x7b x \x7d") (liftStr "stages") =
      some (8, 11)) ∧
    (∃ bi, find_kw_brace (liftStr "stages \x7b x \x7d") (liftStr "stages") =
        some bi ∧ 8 = bi + 1 ∧ 8 ≤ 11 ∧
      (liftStr "stages \x7b x \x7d").get? bi = some '\x7b' ∧
      (liftStr "stages \x7b x \x7d").get? 11 = some '\x7d' ∧
      braceBalancedB (sliceL (liftStr "stages \x7b x \x7d") 8 11) = true) ∧
    (¬ find_block (liftStr "stages \x7b x \x7d") (liftStr "stages") = none ∧
      ¬ find_kw_brace (liftStr "stages \x7b x \x7d") (liftStr "stages") = none) := by
  refine ⟨by decide,
    (C2_find_block_profile (liftStr "stages \x7b x \x7d")
      (liftStr "stages")).1 8 11 (by decide),
    by decide, by decide⟩
theorem takeWhile_append_all (p : Char → Bool) :
    ∀ (n w : List Char), (∀ a ∈ n, p a = true) →
    (n ++ w).takeWhile p = n ++ w.takeWhile p
  | [], w, _ => by simp
  | a :: n, w, h => by
    rw [List.cons_append, List.takeWhile_cons, if_pos (h a (List.mem_cons_self a n)),
      takeWhile_append_all p n w (fun x hx => h x (List.mem_cons_of_mem a hx)),
      List.cons_append]

theorem eatLit_stage (X : List Char) :
    eatLit (liftStr "stage") ('s' :: 't' :: 'a' :: 'g' :: 'e' ::X) = some X := by
  simp [eatLit]

theorem stageHeaderAt_unit (n w : List Char) (hn : nameOk n = true) :
    stageHeaderAt ('s' :: 't' :: 'a' :: 'g' :: 'e' :: '(' :: '\x27' ::(n ++ ('\x27' :: ')' :: '\x7b' ::w))) =
      some (n, 9 + n.length) := by
  have hq : ∀ a ∈ n, (!(isQuoteChar a)) = true := by
    rw [nameOk, Bool.and_eq_true] at hn
    exact fun a ha => List.all_eq_true.mp hn.2 a ha
  have hne : n.isEmpty = false := by
    rw [nameOk, Bool.and_eq_true] at hn
    have h1 := hn.1
    cases hni : n.isEmpty
    · rfl
    · rw [hni] at h1
      exact absurd h1 (by decide)
  have htw : (List.takeWhile (fun c => !(isQuoteChar c)) (n ++ ('\x27' :: ')' :: '\x7b' ::w))) = n := by
    rw [takeWhile_append_all _ n _ hq]
    rw [show (List.takeWhile (fun c => !(isQuoteChar c)) ('\x27' :: ')' :: '\x7b' ::w)) = [] from rfl]
    exact List.append_nil n
  simp only [stageHeaderAt]
  rw [eatLit_stage]
  show (if (List.takeWhile (fun c => !(isQuoteChar c)) (n ++ ('\x27' :: ')' :: '\x7b' ::w))).isEmpty = true then none
       else
         Bind.bind (eatQuote (List.drop (List.takeWhile (fun c => !(isQuoteChar c)) (n ++ ('\x27' :: ')' :: '\x7b' ::w))).length (n ++ ('\x27' :: ')' :: '\x7b' ::w)))) (fun d1 =>
           Bind.bind (eatChar ')' (eatWsC d1.2).2) (fun r9 =>
             Bind.bind (eatChar '\x7b' (eatWsC r9).2) (fun _ =>
               some ((List.takeWhile (fun c => !(isQuoteChar c)) (n ++ ('\x27' :: ')' :: '\x7b' ::w))),
                 5 + 0 + 1 + 0 + 1 + (List.takeWhile (fun c => !(isQuoteChar c)) (n ++ ('\x27' :: ')' :: '\x7b' ::w))).length +
                   1 + (eatWsC d1.2).1.length + 1 + (eatWsC r9).1.length))))) =
      some (n, 9 + n.length)
  rw [htw, hne]
  simp only [Bool.false_eq_true, if_false, List.drop_left]
  show some (n, 5 + 0 + 1 + 0 + 1 + n.length + 1 + 0 + 1 + 0) = some (n, 9 + n.length)
  exact congrArg (fun x => some (n, x)) (by omega)

theorem eatLit_none_of_not_pref : ∀ (l s : List Char),
    List.isPrefixOf l s = false → eatLit l s = none
  | [], s => by
    intro h
    simp [List.isPrefixOf] at h
  | _ :: _, [] => fun _ => rfl
  | l :: ls, c :: cs => by
    intro h
    simp only [List.isPrefixOf] at h
    simp only [eatLit]
    by_cases hc : c = l
    · rw [if_pos hc]
      apply eatLit_none_of_not_pref ls cs
      rw [hc] at h
      simpa using h
    · rw [if_neg hc]

theorem stageHeaderAt_none (s : List Char)
    (h : eatLit (liftStr "stage") s = none) : stageHeaderAt s = none := by
  simp only [stageHeaderAt]
  rw [h]
  rfl

theorem hasSubstrAux_of_prefix_drop (pat : List Char) :
    ∀ (s : List Char) (j : Nat), j < s.length →
    List.isPrefixOf pat (s.drop j) = true → hasSubstrAux pat s = true
  | [], j, hj, _ => absurd hj (by simp)
  | c :: rest, j, hj, hp => by
    cases j with
    | zero =>
      simp only [hasSubstrAux]
      rw [show (c :: rest).drop 0 = c :: rest from rfl] at hp
      rw [hp]
      rfl
    | succ j2 =>
      simp only [hasSubstrAux]
      rw [show (c :: rest).drop (j2 + 1) = rest.drop j2 from rfl] at hp
      rw [hasSubstrAux_of_prefix_drop pat rest j2 (by
        simp only [List.length_cons] at hj
        omega) hp]
      rw [Bool.or_true]

theorem no_stage_prefix_straddle (sep U : List Char) (j : Nat)
    (hj : j < sep.length)
    (hsub : hasSubstrAux (liftStr "stage") sep = false)
    (hU : U.head? = some 's') :
    List.isPrefixOf (liftStr "stage") ((sep ++ U).drop j) = false := by
  cases hb : List.isPrefixOf (liftStr "stage") ((sep ++ U).drop j) with
  | false => rfl
  | true =>
    exfalso
    rw [List.drop_append_of_le_length (by omega)] at hb
    by_cases hlen : 5 ≤ (sep.drop j).length
    · have hpre : liftStr "stage" <+: (sep.drop j ++ U) :=
        List.isPrefixOf_iff_prefix.mp hb
      have hpre2 : liftStr "stage" <+: sep.drop j :=
        List.prefix_of_prefix_length_le hpre (List.prefix_append _ _)
          (by simpa using hlen)
      have hb2 : List.isPrefixOf (liftStr "stage") (sep.drop j) = true :=
        List.isPrefixOf_iff_prefix.mpr hpre2
      have := hasSubstrAux_of_prefix_drop _ sep j hj hb2
      rw [hsub] at this
      exact Bool.noConfusion this
    · obtain ⟨t, ht⟩ := List.isPrefixOf_iff_prefix.mp hb
      have hlst : (liftStr "stage").length = 5 := rfl
      have hdl : (sep.drop j).length = sep.length - j := List.length_drop j sep
      have hget : (liftStr "stage" ++ t).get? (sep.drop j).length =
          (sep.drop j ++ U).get? (sep.drop j).length := by
        rw [ht]
      rw [List.get?_append (by simp only [List.length_drop] at *; omega : (sep.drop j).length < (liftStr "stage").length)] at hget
      rw [List.get?_append_right (Nat.le_refl _), Nat.sub_self] at hget
      rw [show U.get? 0 = U.head? from (List.get?_zero U)] at hget
      rw [hU] at hget
      have h1 : 1 ≤ (sep.drop j).length := by
        simp only [List.length_drop]
        omega
      have h4 : (sep.drop j).length ≤ 4 := by omega
      set δ := (sep.drop j).length with hδ
      interval_cases δ <;> exact absurd hget (by decide)

theorem findStageHeader_at : ∀ (sep n w : List Char),
    sepOk sep = true → nameOk n = true →
    findStageHeader (sep ++
        ('s' :: 't' :: 'a' :: 'g' :: 'e' :: '(' :: '\x27' ::(n ++ ('\x27' :: ')' :: '\x7b' ::w)))) =
      some (sep.length, n, 9 + n.length)
  | [], n, w, _, hn => by
    rw [List.nil_append]
    simp only [findStageHeader]
    rw [stageHeaderAt_unit n w hn]
    rfl
  | c :: sep', n, w, hs, hn => by
    have hsub : hasSubstrAux (liftStr "stage") (c :: sep') = false := by
      rw [sepOk] at hs
      cases hb : hasSubstrAux (liftStr "stage") (c :: sep') with
      | false => rfl
      | true =>
        rw [show hasSubstr (c :: sep') (liftStr "stage") =
          hasSubstrAux (liftStr "stage") (c :: sep') from rfl, hb] at hs
        exact absurd hs (by decide)
    have hsub' : hasSubstrAux (liftStr "stage") sep' = false := by
      simp only [hasSubstrAux, Bool.or_eq_false_iff] at hsub
      exact hsub.2
    have hsok' : sepOk sep' = true := by
      rw [sepOk, show hasSubstr sep' (liftStr "stage") =
        hasSubstrAux (liftStr "stage") sep' from rfl, hsub']
      rfl
    have hpre := no_stage_prefix_straddle (c :: sep')
      ('s' :: 't' :: 'a' :: 'g' :: 'e' :: '(' :: '\x27' ::(n ++ ('\x27' :: ')' :: '\x7b' ::w))) 0
      (by simp) hsub rfl
    have hnone : stageHeaderAt (c :: (sep' ++
        ('s' :: 't' :: 'a' :: 'g' :: 'e' :: '(' :: '\x27' ::(n ++ ('\x27' :: ')' :: '\x7b' ::w))))) = none :=
      stageHeaderAt_none _ (eatLit_none_of_not_pref _ _ hpre)
    rw [List.cons_append]
    simp only [findStageHeader]
    rw [hnone]
    have ih := findStageHeader_at sep' n w hsok' hn
    rw [ih]
    rfl

theorem stageBodyScan_none : ∀ (s : List Char) (d : Nat),
    braceScanB s ((d : Int)) = true → stageBodyScan s d = none
  | [], _ => fun _ => rfl
  | c :: rest, d => by
    intro h
    by_cases h1 : c = '\x7b'
    · subst h1
      rw [show braceScanB ('\x7b' :: rest) ((d : Int)) =
        (if (d : Int) + 1 < 0 then false
         else braceScanB rest ((d : Int) + 1)) from rfl] at h
      rw [if_neg (show ¬((d : Int) + 1 < 0) from by omega)] at h
      rw [show (d : Int) + 1 = ((d + 1 : Nat) : Int) from by omega] at h
      rw [show stageBodyScan ('\x7b' :: rest) d =
        (stageBodyScan rest (d + 1)).map (· + 1) from rfl]
      rw [stageBodyScan_none rest (d + 1) h]
      rfl
    · by_cases h2 : c = '\x7d'
      · subst h2
        rw [show braceScanB ('\x7d' :: rest) ((d : Int)) =
          (if (d : Int) - 1 < 0 then false
           else braceScanB rest ((d : Int) - 1)) from rfl] at h
        by_cases hz : d = 0
        · subst hz
          rw [if_pos (show ((0 : Nat) : Int) - 1 < 0 from by omega)] at h
          exact Bool.noConfusion h
        · rw [if_neg (show ¬((d : Int) - 1 < 0) from by omega)] at h
          rw [show (d : Int) - 1 = ((d - 1 : Nat) : Int) from by omega] at h
          rw [show stageBodyScan ('\x7d' :: rest) d =
            (if d = 0 then some 0
             else (stageBodyScan rest (d - 1)).map (· + 1)) from rfl]
          rw [if_neg hz]
          rw [stageBodyScan_none rest (d - 1) h]
          rfl
      · simp only [braceScanB] at h
        rw [if_neg h1, if_neg h2] at h
        rw [if_neg (show ¬((d : Int) < 0) from by omega)] at h
        simp only [stageBodyScan]
        rw [if_neg h1, if_neg h2]
        rw [stageBodyScan_none rest d h]
        rfl

theorem stageBodyScan_closes : ∀ (content : List Char) (d : Nat) (rest : List Char),
    braceScanB content (d : Int) = true →
    (d : Int) + braceNet content = 0 →
    stageBodyScan (content ++ '\x7d' :: rest) d = some content.length
  | [], d, rest => by
    intro _ h2
    rw [show braceNet ([] : List Char) = 0 from rfl] at h2
    have hd0 : d = 0 := by omega
    subst hd0
    rfl
  | c :: content', d, rest => by
    intro h1 h2
    rw [braceNet_cons] at h2
    by_cases hb : c = '\x7b'
    · subst hb
      rw [show braceScanB ('\x7b' :: content') (d : Int) =
        (if (d : Int) + 1 < 0 then false
         else braceScanB content' ((d : Int) + 1)) from rfl] at h1
      rw [if_neg (show ¬((d : Int) + 1 < 0) from by omega)] at h1
      rw [show ((d : Int) + 1) = ((d + 1 : Nat) : Int) from by omega] at h1
      rw [if_pos rfl] at h2
      rw [List.cons_append]
      rw [show stageBodyScan ('\x7b' :: (content' ++ '\x7d' :: rest)) d =
        (stageBodyScan (content' ++ '\x7d' :: rest) (d + 1)).map (· + 1) from rfl]
      rw [stageBodyScan_closes content' (d + 1) rest h1 (by push_cast at *; omega)]
      rfl
    · by_cases hc : c = '\x7d'
      · subst hc
        rw [show braceScanB ('\x7d' :: content') (d : Int) =
          (if (d : Int) - 1 < 0 then false
           else braceScanB content' ((d : Int) - 1)) from rfl] at h1
        by_cases hz : d = 0
        · subst hz
          rw [if_pos (show ((0 : Nat) : Int) - 1 < 0 from by omega)] at h1
          exact Bool.noConfusion h1
        · rw [if_neg (show ¬((d : Int) - 1 < 0) from by omega)] at h1
          rw [show ((d : Int) - 1) = ((d - 1 : Nat) : Int) from by omega] at h1
          rw [if_neg (show ¬(('\x7d') = '\x7b') from by decide), if_pos rfl] at h2
          rw [List.cons_append]
          rw [show stageBodyScan ('\x7d' :: (content' ++ '\x7d' :: rest)) d =
            (if d = 0 then some 0
             else (stageBodyScan (content' ++ '\x7d' :: rest) (d - 1)).map (· + 1))
            from rfl]
          rw [if_neg hz]
          rw [stageBodyScan_closes content' (d - 1) rest h1 (by push_cast at *; omega)]
          rfl
      · simp only [braceScanB] at h1
        rw [if_neg hb, if_neg hc] at h1
        rw [if_neg (show ¬((d : Int) < 0) from by omega)] at h1
        rw [if_neg hb, if_neg hc] at h2
        rw [List.cons_append]
        simp only [stageBodyScan]
        rw [if_neg hb, if_neg hc]
        rw [stageBodyScan_closes content' d rest h1 (by omega)]
        rfl

theorem splitStagesF_step (f : Nat) (s : List Char) (p boff : Nat)
    (name : List Char) (hf : findStageHeader s = some (p, name, boff)) :
    splitStagesF (f + 1) s =
      (match stageBodyScan (s.drop (p + boff + 1)) 0 with
       | none => []
       | some off =>
         (name, (s.drop (p + boff + 1)).take off) ::
           splitStagesF f ((s.drop (p + boff + 1)).drop (off + 1))) := by
  simp only [splitStagesF]
  rw [hf]

theorem splitStagesF_family :
    ∀ (goods : List (List Char × List Char × List Char))
      (lastSep badName badTail : List Char) (fuel : Nat),
    (∀ g ∈ goods, sepOk g.1 = true) →
    (∀ g ∈ goods, nameOk g.2.1 = true) →
    (∀ g ∈ goods, braceBalancedB g.2.2 = true) →
    sepOk lastSep = true → nameOk badName = true →
    braceNonnegB badTail = true →
    (mkStagesText goods lastSep badName badTail).length < fuel →
    splitStagesF fuel (mkStagesText goods lastSep badName badTail) =
      goods.map (fun g => (g.2.1, g.2.2))
  | [], lastSep, badName, badTail, fuel, _, _, _, hlsep, hbname, hbtail, hfuel => by
    cases fuel with
    | zero => exact absurd hfuel (Nat.not_lt_zero _)
    | succ f =>
      have hT : mkStagesText [] lastSep badName badTail =
          lastSep ++ ('s' :: 't' :: 'a' :: 'g' :: 'e' :: '(' :: '\x27' ::(badName ++ ('\x27' :: ')' :: '\x7b' ::badTail))) := by
        simp only [mkStagesText, List.append_assoc]
        rfl
      rw [hT]
      rw [splitStagesF_step f _ lastSep.length (9 + badName.length) badName
        (findStageHeader_at lastSep badName badTail hlsep hbname)]
      have hdrop : (lastSep ++ ('s' :: 't' :: 'a' :: 'g' :: 'e' :: '(' :: '\x27' ::(badName ++ ('\x27' :: ')' :: '\x7b' ::badTail)))).drop
          (lastSep.length + (9 + badName.length) + 1) = badTail := by
        rw [show lastSep.length + (9 + badName.length) + 1 =
          lastSep.length + (badName.length + 10) from by omega]
        rw [List.drop_append (badName.length + 10)]
        show (badName ++ ('\x27' :: ')' :: '\x7b' ::badTail)).drop
          (badName.length + 3) = badTail
        rw [List.drop_append 3]
        rfl
      rw [hdrop]
      rw [stageBodyScan_none badTail 0 hbtail]
      rfl
  | (sep, n, c) :: goods', lastSep, badName, badTail, fuel, hsep, hname, hbal,
      hlsep, hbname, hbtail, hfuel => by
    cases fuel with
    | zero => exact absurd hfuel (Nat.not_lt_zero _)
    | succ f =>
      have hT : mkStagesText ((sep, n, c) :: goods') lastSep badName badTail =
          sep ++ ('s' :: 't' :: 'a' :: 'g' :: 'e' :: '(' :: '\x27' ::(n ++ ('\x27' :: ')' :: '\x7b' ::(c ++ ('\x7d' ::(mkStagesText goods' lastSep badName badTail)))))) := by
        simp only [mkStagesText, mkStageText, List.append_assoc]
        rfl
      have hsok : sepOk sep = true := hsep _ (List.mem_cons_self _ _)
      have hnok : nameOk n = true := hname _ (List.mem_cons_self _ _)
      have hcb : braceBalancedB c = true := hbal _ (List.mem_cons_self _ _)
      have hcb2 := hcb
      rw [braceBalancedB, Bool.and_eq_true] at hcb2
      have hcnn : braceScanB c ((0 : Nat) : Int) = true := hcb2.1
      have hcz : ((0 : Nat) : Int) + braceNet c = 0 := by
        have h3 := beq_iff_eq.mp hcb2.2
        omega
      rw [hT]
      rw [splitStagesF_step f _ sep.length (9 + n.length) n
        (findStageHeader_at sep n _ hsok hnok)]
      have hdrop : (sep ++ ('s' :: 't' :: 'a' :: 'g' :: 'e' :: '(' :: '\x27' ::(n ++ ('\x27' :: ')' :: '\x7b' ::(c ++ ('\x7d' ::(mkStagesText goods' lastSep badName badTail))))))).drop
          (sep.length + (9 + n.length) + 1) =
          c ++ ('\x7d' :: (mkStagesText goods' lastSep badName badTail)) := by
        rw [show sep.length + (9 + n.length) + 1 =
          sep.length + (n.length + 10) from by omega]
        rw [List.drop_append (n.length + 10)]
        show (n ++ ('\x27' :: ')' :: '\x7b' ::(c ++ ('\x7d' :: (mkStagesText goods' lastSep badName badTail))))).drop
          (n.length + 3) = c ++ ('\x7d' :: (mkStagesText goods' lastSep badName badTail))
        rw [List.drop_append 3]
        rfl
      rw [hdrop]
      rw [stageBodyScan_closes c 0 (mkStagesText goods' lastSep badName badTail) hcnn hcz]
      have hlt : (mkStagesText goods' lastSep badName badTail).length < f := by
        have hL := congrArg List.length hT
        simp only [List.length_append, List.length_cons] at hL
        omega
      have ih := splitStagesF_family goods' lastSep badName badTail f
        (fun g hg => hsep g (List.mem_cons_of_mem _ hg))
        (fun g hg => hname g (List.mem_cons_of_mem _ hg))
        (fun g hg => hbal g (List.mem_cons_of_mem _ hg))
        hlsep hbname hbtail hlt
      show (n, (c ++ ('\x7d' :: (mkStagesText goods' lastSep badName badTail))).take c.length) ::
          splitStagesF f ((c ++ ('\x7d' :: (mkStagesText goods' lastSep badName badTail))).drop (c.length + 1)) =
        ((sep, n, c) :: goods').map (fun g => (g.2.1, g.2.2))
      rw [List.take_left]
      rw [List.drop_append 1]
      rw [show ('\x7d' :: (mkStagesText goods' lastSep badName badTail)).drop 1 = (mkStagesText goods' lastSep badName badTail) from rfl]
      rw [ih]
      rfl

/-- C8: on a stages body made of well-separated, well-formed, brace-balanced
stage units followed by one stage whose header matches but whose block never
closes, `split_stages` returns exactly the properly-closed stages that
precede the unterminated one, in source order (the fuelled recursion never
fails, mirroring the `while ... else: break` truncation of the source). -/
theorem C8_unterminated_truncation
    (goods : List (List Char × List Char × List Char))
    (lastSep badName badTail : List Char)
    (hsep : ∀ g ∈ goods, sepOk g.1 = true)
    (hname : ∀ g ∈ goods, nameOk g.2.1 = true)
    (hbal : ∀ g ∈ goods, braceBalancedB g.2.2 = true)
    (hlsep : sepOk lastSep = true)
    (hbname : nameOk badName = true)
    (hbtail : braceNonnegB badTail = true) :
    split_stages (mkStagesText goods lastSep badName badTail) =
      goods.map (fun g => (g.2.1, g.2.2)) :=
  splitStagesF_family goods lastSep badName badTail
    ((mkStagesText goods lastSep badName badTail).length + 1)
    hsep hname hbal hlsep hbname hbtail (Nat.lt_succ_self _)

theorem C8_unterminated_truncation_witness :
    (∀ g ∈ [(liftStr " ", liftStr "A", liftStr " x "),
            (liftStr " s2 ", liftStr "B", liftStr " y \x7b z \x7d ")],
       sepOk g.1 = true ∧ nameOk g.2.1 = true ∧ braceBalancedB g.2.2 = true) ∧
    sepOk (liftStr " ") = true ∧ nameOk (liftStr "C") = true ∧
    braceNonnegB (liftStr " never closed \x7b") = true ∧
    split_stages (mkStagesText
        [(liftStr " ", liftStr "A", liftStr " x "),
         (liftStr " s2 ", liftStr "B", liftStr " y \x7b z \x7d ")]
        (liftStr " ") (liftStr "C") (liftStr " never closed \x7b")) =
      [(liftStr "A", liftStr " x "), (liftStr "B", liftStr " y \x7b z \x7d ")] := by
  refine ⟨by decide, by decide, by decide, by decide, ?_⟩
  rw [C8_unterminated_truncation
    [(liftStr " ", liftStr "A", liftStr " x "),
     (liftStr " s2 ", liftStr "B", liftStr " y \x7b z \x7d ")]
    (liftStr " ") (liftStr "C") (liftStr " never closed \x7b")
    (by decide) (by decide) (by decide) (by decide) (by decide) (by decide)]
  decide
